import Mathlib

/-!
# Verification of the rawsql-ts example pipeline

This development gives a shallow embedding of the SQL query transformation
pipeline exercised by the demos in this repository (basic-examples and
infrastructure-layer-demo).  The pipeline itself (parser, predicate/join
injector, hierarchical JSON query builder, formatter, set-operation builder
and collectors) lives in the parent rawsql-ts project and is not part of the
example sources, so each pipeline component below is modelled from the
specification, pinned by the golden SQL outputs recorded in the demos and
tests of this repository.  Identifiers follow the library's public names
(SelectQueryParser, SqlParamInjector, Formatter, QueryBuilder,
SelectableColumnCollector, PostgresJsonQueryBuilder).
-/

/-- Modelled from the spec: a criteria / parameter value (§3 "Criteria
Object": literal values are numbers, strings or booleans; dates travel as ISO
strings). -/
inductive Value where
  | int (n : Int)
  | str (s : String)
  | bool (b : Bool)
deriving DecidableEq, Repr

/-- Modelled from the spec: the error taxonomy of §7 (SyntaxError,
ColumnResolutionError, JoinResolutionError, MappingError, FormatError). -/
inductive Err where
  | syntaxError
  | columnResolutionError (cols : List String)
  | joinResolutionError (cols : List String)
  | mappingError
  | formatError
deriving DecidableEq, Repr

/-- SQL keywords recognised by the modelled lexer (names are prefixed with
`k` to avoid clashing with Lean keywords). -/
inductive Kw where
  | kselect | kfrom | kwhere | kand | kor | kon | kas | kis | knot | knull
  | klike | kjoin | kleft | kright | kinner | kfull | kunion | kall
  | kintersect | kexcept | kwith | korder | kby | kgroup | klimit
  | kcase | kwhen | kthen | kelse | kend | ktrue | kfalse
  | kcurrentDate | kinterval | kasc | kdesc
deriving DecidableEq, Repr

/-- The lowercase source text of a keyword. -/
def Kw.text : Kw → String
  | .kselect => "select" | .kfrom => "from" | .kwhere => "where"
  | .kand => "and" | .kor => "or" | .kon => "on" | .kas => "as"
  | .kis => "is" | .knot => "not" | .knull => "null" | .klike => "like"
  | .kjoin => "join" | .kleft => "left" | .kright => "right"
  | .kinner => "inner" | .kfull => "full" | .kunion => "union"
  | .kall => "all" | .kintersect => "intersect" | .kexcept => "except"
  | .kwith => "with" | .korder => "order" | .kby => "by"
  | .kgroup => "group" | .klimit => "limit" | .kcase => "case"
  | .kwhen => "when" | .kthen => "then" | .kelse => "else" | .kend => "end"
  | .ktrue => "true" | .kfalse => "false" | .kcurrentDate => "current_date"
  | .kinterval => "interval" | .kasc => "asc" | .kdesc => "desc"

/-- Charwise lowercase/uppercase (kernel-reducible, ASCII as used by SQL
keywords). -/
def lowerString (s : String) : String := String.mk (s.data.map Char.toLower)

def upperString (s : String) : String := String.mk (s.data.map Char.toUpper)

/-- Lexical tokens of the modelled SQL subset. -/
inductive Tok where
  | kw (k : Kw)
  | ident (s : String)
  | num (s : String)
  | str (s : String)
  | param (name : String)
  | comma | lparen | rparen | dot | star
  | teq | tlt | tle | tgt | tge | tminus
deriving DecidableEq, Repr

/-- Literal expressions.  Modelled from the spec §4.1: "Literals retain their
original textual form (numbers, strings, `true`/`false`, interval
expressions) and are not evaluated". -/
inductive Lit where
  | num (s : String)
  | str (s : String)
  | bool (b : Bool)
  | null
  | currentDate
  | interval (s : String)
deriving DecidableEq, Repr

/-- Binary operators appearing in the modelled WHERE/ON grammar. -/
inductive BinOp where
  | opAnd | opOr | opEq | opLt | opLe | opGt | opGe | opLike | opSub
deriving DecidableEq, Repr

/-- Set operators of §4.6. -/
inductive SetOp where
  | union | unionAll | intersect | except
deriving DecidableEq, Repr

inductive OrderDir where
  | asc | desc
deriving DecidableEq, Repr

inductive JoinKind where
  | inner | left | right | full
deriving DecidableEq, Repr

/-- Scalar expressions of the statement tree (§3 "Expression": literal,
column reference, function call, binary operator, case-expression; bound
parameters carry the value injected by the criteria injector, or `none` for
placeholders that came from parsed text). -/
inductive Expr where
  | lit (l : Lit)
  | col (qualifier : Option String) (name : String)
  | param (name : String) (value : Option Value)
  | bin (op : BinOp) (l r : Expr)
  | isNull (e : Expr) (negated : Bool)
  | caseWhen (branches : List (Expr × Expr)) (elseBranch : Option Expr)
  | func (name : String) (args : List Expr)

/-- A projection-list entry: an aliased expression or a wildcard. -/
inductive SelectItem where
  | expr (e : Expr) (alias? : Option String)
  | wildcard (qualifier : Option String)

/-- A physical table reference with optional schema qualifier and alias. -/
structure TableRef where
  schema? : Option String
  name : String
  alias? : Option String

mutual
/-- A FROM/JOIN source: a table reference or an aliased subquery. -/
inductive Source where
  | table (t : TableRef)
  | sub (q : Query) (al : String)

/-- One JOIN clause: kind, joined source and ON condition. -/
inductive JoinCl where
  | mk (kind : JoinKind) (src : Source) (onCond : Expr)

/-- The FROM clause: first source plus a join chain. -/
inductive FromCl where
  | mk (src : Source) (joins : List JoinCl)

/-- A plain SELECT statement (projection, source, predicate, grouping,
ordering, limit).  The spec's `SimpleSelectQuery`. -/
inductive SimpleSelect where
  | mk (items : List SelectItem) (fromCl? : Option FromCl)
      (whereCl? : Option Expr) (groupBy : List Expr)
      (orderBy : List (Expr × OrderDir)) (limit? : Option String)

/-- One WITH-clause definition. -/
inductive CTE where
  | mk (name : String) (q : Query)

/-- A statement tree (§3): plain SELECT, set operation or WITH query. -/
inductive Query where
  | simple (s : SimpleSelect)
  | bin (l : Query) (op : SetOp) (r : Query)
  | withq (ctes : List CTE) (body : Query)
end

namespace SimpleSelect

def items : SimpleSelect → List SelectItem
  | .mk i _ _ _ _ _ => i

def fromCl? : SimpleSelect → Option FromCl
  | .mk _ f _ _ _ _ => f

def whereCl? : SimpleSelect → Option Expr
  | .mk _ _ w _ _ _ => w

def groupBy : SimpleSelect → List Expr
  | .mk _ _ _ g _ _ => g

def orderBy : SimpleSelect → List (Expr × OrderDir)
  | .mk _ _ _ _ o _ => o

def limit? : SimpleSelect → Option String
  | .mk _ _ _ _ _ l => l

end SimpleSelect

def CTE.name : CTE → String
  | .mk n _ => n

def CTE.query : CTE → Query
  | .mk _ q => q

def JoinCl.src : JoinCl → Source
  | .mk _ s _ => s

def JoinCl.kind : JoinCl → JoinKind
  | .mk k _ _ => k

def JoinCl.onCond : JoinCl → Expr
  | .mk _ _ c => c

def FromCl.src : FromCl → Source
  | .mk s _ => s

def FromCl.joins : FromCl → List JoinCl
  | .mk _ j => j

/-! ## Node counts

`szX` counts the constructors of a tree; it is used to budget the fuel of
the recursive-descent parser. -/

mutual
def szExpr : Expr → Nat
  | .lit _ => 1
  | .col _ _ => 1
  | .param _ _ => 1
  | .bin _ l r => 1 + szExpr l + szExpr r
  | .isNull e _ => 1 + szExpr e
  | .caseWhen bs e? => 1 + szBranches bs + szExprOpt e?
  | .func _ args => 1 + szExprs args

def szExprs : List Expr → Nat
  | [] => 0
  | e :: es => 1 + szExpr e + szExprs es

def szBranches : List (Expr × Expr) → Nat
  | [] => 0
  | (c, t) :: bs => 1 + szExpr c + szExpr t + szBranches bs

def szExprOpt : Option Expr → Nat
  | none => 0
  | some e => szExpr e
end

def szItem : SelectItem → Nat
  | .expr e _ => 1 + szExpr e
  | .wildcard _ => 1

def szItems : List SelectItem → Nat
  | [] => 0
  | i :: is_ => 1 + szItem i + szItems is_

def szOrder : List (Expr × OrderDir) → Nat
  | [] => 0
  | (e, _) :: os => 1 + szExpr e + szOrder os

mutual
def szSource : Source → Nat
  | .table _ => 1
  | .sub q _ => 1 + szQuery q

def szJoin : JoinCl → Nat
  | .mk _ s c => 1 + szSource s + szExpr c

def szJoins : List JoinCl → Nat
  | [] => 0
  | j :: js => 1 + szJoin j + szJoins js

def szFrom : FromCl → Nat
  | .mk s js => 1 + szSource s + szJoins js

def szFromOpt : Option FromCl → Nat
  | none => 0
  | some f => szFrom f

def szSimple : SimpleSelect → Nat
  | .mk items f? w? g o l? =>
      1 + szItems items + szFromOpt f? + szExprOpt w? + szExprs g +
        szOrder o + (match l? with | none => 0 | some _ => 1)

def szCTE : CTE → Nat
  | .mk _ q => 1 + szQuery q

def szCTEs : List CTE → Nat
  | [] => 0
  | c :: cs => 1 + szCTE c + szCTEs cs

def szQuery : Query → Nat
  | .simple s => 1 + szSimple s
  | .bin l _ r => 1 + szQuery l + szQuery r
  | .withq cs b => 1 + szCTEs cs + szQuery b
end

/-! ## Formatter, token level

Modelled from the spec §4.5: the formatter performs a single depth-first
traversal rendering each node; keyword casing, quoting and placeholder style
are applied later, when the token stream is rendered to text under a dialect
configuration.  Emission is precedence-aware so that AND/OR chains print
without parentheses (matching the golden outputs recorded in the demos). -/

def setOpToks : SetOp → List Tok
  | .union => [.kw .kunion]
  | .unionAll => [.kw .kunion, .kw .kall]
  | .intersect => [.kw .kintersect]
  | .except => [.kw .kexcept]

def joinKindToks : JoinKind → List Tok
  | .inner => [.kw .kinner, .kw .kjoin]
  | .left => [.kw .kleft, .kw .kjoin]
  | .right => [.kw .kright, .kw .kjoin]
  | .full => [.kw .kfull, .kw .kjoin]

def litToks : Lit → List Tok
  | .num s => [.num s]
  | .str s => [.str s]
  | .bool true => [.kw .ktrue]
  | .bool false => [.kw .kfalse]
  | .null => [.kw .knull]
  | .currentDate => [.kw .kcurrentDate]
  | .interval s => [.kw .kinterval, .str s]

def cmpOpTok : BinOp → Option Tok
  | .opEq => some .teq
  | .opLt => some .tlt
  | .opLe => some .tle
  | .opGt => some .tgt
  | .opGe => some .tge
  | .opLike => some (.kw .klike)
  | _ => none

/-- `true` for the operators parsed at the comparison precedence level. -/
def isCmpOp (op : BinOp) : Bool :=
  (cmpOpTok op).isSome


/-- Wrap a token list in parentheses when `b` is true. -/
def parenIf (b : Bool) (ts : List Tok) : List Tok :=
  if b then [.lparen] ++ ts ++ [.rparen] else ts

/-- Head shape: an OR node (must be parenthesised below OR precedence). -/
def isOrE : Expr → Bool
  | .bin .opOr _ _ => true
  | _ => false

/-- Head shape: an OR or AND node. -/
def isOrAndE : Expr → Bool
  | .bin .opOr _ _ => true
  | .bin .opAnd _ _ => true
  | _ => false

/-- Head shape: any node parsed strictly above the additive level
(boolean connectives, comparisons, LIKE, IS NULL). -/
def aboveAddE : Expr → Bool
  | .bin .opSub _ _ => false
  | .bin _ _ _ => true
  | .isNull _ _ => true
  | _ => false

/-- Head shape: any non-primary node. -/
def isCompoundE : Expr → Bool
  | .bin _ _ _ => true
  | .isNull _ _ => true
  | _ => false

mutual
/-- Emit an expression as a token stream at OR (full) precedence.  The
parent position decides parenthesisation of children from their head
shape, so that AND/OR chains and comparisons print flat, matching the
golden formatter outputs in the demos. -/
def emitExpr : Expr → List Tok
  | .lit l => litToks l
  | .col none n => [.ident n]
  | .col (some q) n => [.ident q, .dot, .ident n]
  | .param n _ => [.param n]
  | .bin .opOr l r =>
      parenIf (isOrE l) (emitExpr l) ++ [.kw .kor] ++ emitExpr r
  | .bin .opAnd l r =>
      parenIf (isOrAndE l) (emitExpr l) ++ [.kw .kand] ++
        parenIf (isOrE r) (emitExpr r)
  | .bin .opEq l r =>
      parenIf (aboveAddE l) (emitExpr l) ++ [.teq] ++
        parenIf (aboveAddE r) (emitExpr r)
  | .bin .opLt l r =>
      parenIf (aboveAddE l) (emitExpr l) ++ [.tlt] ++
        parenIf (aboveAddE r) (emitExpr r)
  | .bin .opLe l r =>
      parenIf (aboveAddE l) (emitExpr l) ++ [.tle] ++
        parenIf (aboveAddE r) (emitExpr r)
  | .bin .opGt l r =>
      parenIf (aboveAddE l) (emitExpr l) ++ [.tgt] ++
        parenIf (aboveAddE r) (emitExpr r)
  | .bin .opGe l r =>
      parenIf (aboveAddE l) (emitExpr l) ++ [.tge] ++
        parenIf (aboveAddE r) (emitExpr r)
  | .bin .opLike l r =>
      parenIf (aboveAddE l) (emitExpr l) ++ [.kw .klike] ++
        parenIf (aboveAddE r) (emitExpr r)
  | .bin .opSub l r =>
      parenIf (isCompoundE l) (emitExpr l) ++ [.tminus] ++
        parenIf (aboveAddE r) (emitExpr r)
  | .isNull e neg =>
      parenIf (aboveAddE e) (emitExpr e) ++ [.kw .kis] ++
        (if neg then [.kw .knot] else []) ++ [.kw .knull]
  | .caseWhen bs e? =>
      [.kw .kcase] ++ emitBranches bs ++
        (match e? with
         | none => []
         | some e => [.kw .kelse] ++ emitExpr e) ++ [.kw .kend]
  | .func n args => [.ident n, .lparen] ++ emitArgs args ++ [.rparen]

def emitBranches : List (Expr × Expr) → List Tok
  | [] => []
  | (c, t) :: bs =>
      [.kw .kwhen] ++ emitExpr c ++ [.kw .kthen] ++ emitExpr t ++ emitBranches bs

def emitArgs : List Expr → List Tok
  | [] => []
  | [e] => emitExpr e
  | e :: es => emitExpr e ++ [.comma] ++ emitArgs es
end

def emitItem : SelectItem → List Tok
  | .wildcard none => [.star]
  | .wildcard (some q) => [.ident q, .dot, .star]
  | .expr e none => emitExpr e
  | .expr e (some a) => emitExpr e ++ [.kw .kas, .ident a]

def emitItems : List SelectItem → List Tok
  | [] => []
  | [i] => emitItem i
  | i :: is_ => emitItem i ++ [.comma] ++ emitItems is_

def emitExprList : List Expr → List Tok
  | [] => []
  | [e] => emitExpr e
  | e :: es => emitExpr e ++ [.comma] ++ emitExprList es

def emitOrderItem : Expr × OrderDir → List Tok
  | (e, .asc) => emitExpr e
  | (e, .desc) => emitExpr e ++ [.kw .kdesc]

def emitOrderItems : List (Expr × OrderDir) → List Tok
  | [] => []
  | [o] => emitOrderItem o
  | o :: os => emitOrderItem o ++ [.comma] ++ emitOrderItems os

def emitTableRef : TableRef → List Tok
  | ⟨none, n, none⟩ => [.ident n]
  | ⟨none, n, some a⟩ => [.ident n, .kw .kas, .ident a]
  | ⟨some sc, n, none⟩ => [.ident sc, .dot, .ident n]
  | ⟨some sc, n, some a⟩ => [.ident sc, .dot, .ident n, .kw .kas, .ident a]

/-- Head shape: a WITH query (parenthesised as a set-operation operand). -/
def isWithQ : Query → Bool
  | .withq _ _ => true
  | _ => false

/-- Head shape: any non-plain-SELECT query. -/
def isCompoundQ : Query → Bool
  | .simple _ => false
  | _ => true

mutual
/-- Emit a statement tree as a token stream.  Set-operation chains print
flat and left-associated (`a union all b union all c`), matching the
combined-query demo outputs.  The traversal carries an explicit fuel
argument (a bound on the tree size); `emitQuery` below supplies an
always-sufficient budget. -/
def emitQueryF : Nat → Query → List Tok
  | 0, _ => []
  | fuel + 1, .simple s => emitSimpleF fuel s
  | fuel + 1, .bin l op r =>
      parenIf (isWithQ l) (emitQueryF fuel l) ++ setOpToks op ++
        parenIf (isCompoundQ r) (emitQueryF fuel r)
  | fuel + 1, .withq cs b => [.kw .kwith] ++ emitCTEsF fuel cs ++ emitQueryF fuel b

def emitSimpleF : Nat → SimpleSelect → List Tok
  | 0, _ => []
  | fuel + 1, .mk items f? w? g o l? =>
      [.kw .kselect] ++ emitItems items ++
      (match f? with
       | none => []
       | some f => emitFromF fuel f) ++
      (match w? with
       | none => []
       | some e => [.kw .kwhere] ++ emitExpr e) ++
      (match g with
       | [] => []
       | gs => [.kw .kgroup, .kw .kby] ++ emitExprList gs) ++
      (match o with
       | [] => []
       | os => [.kw .korder, .kw .kby] ++ emitOrderItems os) ++
      (match l? with
       | none => []
       | some n => [.kw .klimit, .num n])

def emitFromF : Nat → FromCl → List Tok
  | 0, _ => []
  | fuel + 1, .mk src joins => [.kw .kfrom] ++ emitSourceF fuel src ++ emitJoinsF fuel joins

def emitSourceF : Nat → Source → List Tok
  | 0, _ => []
  | _ + 1, .table t => emitTableRef t
  | fuel + 1, .sub q al => [.lparen] ++ emitQueryF fuel q ++ [.rparen, .kw .kas, .ident al]

def emitJoinsF : Nat → List JoinCl → List Tok
  | 0, _ => []
  | _ + 1, [] => []
  | fuel + 1, .mk k src cond :: js =>
      joinKindToks k ++ emitSourceF fuel src ++ [.kw .kon] ++ emitExpr cond ++
        emitJoinsF fuel js

def emitCTEsF : Nat → List CTE → List Tok
  | 0, _ => []
  | _ + 1, [] => []
  | fuel + 1, [.mk n q] => [.ident n, .kw .kas, .lparen] ++ emitQueryF fuel q ++ [.rparen]
  | fuel + 1, .mk n q :: cs =>
      [.ident n, .kw .kas, .lparen] ++ emitQueryF fuel q ++ [.rparen, .comma] ++
        emitCTEsF fuel cs
end

/-- Emit a statement tree with the always-sufficient fuel budget. -/
def emitQuery (q : Query) : List Tok := emitQueryF (szQuery q) q

/-! ## Dialect configuration and text rendering -/

/-- Parameter placeholder styles (§4.5). -/
inductive ParamStyle where
  | named | indexed | anonymous
deriving DecidableEq, Repr

/-- Modelled from the spec §3 "Dialect Configuration": identifier quoting
pair, parameter placeholder symbol and numbering style, keyword casing.
Indentation and line-break policy are purely cosmetic and are normalised to
single spaces here. -/
structure DialectConfig where
  quoteStart : String
  quoteEnd : String
  paramStyle : ParamStyle
  paramSymbol : String
  upperKeywords : Bool

/-- The implicit generic/default dialect: double-quote identifiers, named
`:key` placeholders, lowercase keywords (pinned by the formatter demo
outputs). -/
def genericDialect : DialectConfig :=
  { quoteStart := "\"", quoteEnd := "\"", paramStyle := .named,
    paramSymbol := ":", upperKeywords := false }

/-- The postgres preset coincides with the generic default (§4.5). -/
def postgresPreset : DialectConfig := genericDialect

/-- The sqlite preset coincides with the generic default (§4.5). -/
def sqlitePreset : DialectConfig := genericDialect

/-- The mysql preset: backtick identifiers, bare `?` placeholders. -/
def mysqlPreset : DialectConfig :=
  { quoteStart := "`", quoteEnd := "`", paramStyle := .anonymous,
    paramSymbol := "?", upperKeywords := false }

/-- The sqlserver preset: bracket identifiers, `@name` placeholders. -/
def sqlserverPreset : DialectConfig :=
  { quoteStart := "[", quoteEnd := "]", paramStyle := .named,
    paramSymbol := "@", upperKeywords := false }

/-- The characters of one token under a dialect (`idx` is the 1-based
position used by the indexed placeholder style). -/
def tokChars (d : DialectConfig) (idx : Nat) : Tok → List Char
  | .kw k => ((if d.upperKeywords then upperString k.text else k.text)).toList
  | .ident s => d.quoteStart.toList ++ s.toList ++ d.quoteEnd.toList
  | .num s => s.toList
  | .str s => '\'' :: s.toList ++ ['\'']
  | .param n =>
      match d.paramStyle with
      | .named => d.paramSymbol.toList ++ n.toList
      | .indexed => d.paramSymbol.toList ++ (toString idx).toList
      | .anonymous => d.paramSymbol.toList
  | .comma => [',']
  | .lparen => ['(']
  | .rparen => [')']
  | .dot => ['.']
  | .star => ['*']
  | .teq => ['=']
  | .tlt => ['<']
  | .tle => ['<', '=']
  | .tgt => ['>']
  | .tge => ['>', '=']
  | .tminus => ['-']

/-- `1` when the token consumes an indexed-placeholder position. -/
def paramWeight : Tok → Nat
  | .param _ => 1
  | _ => 0

/-- Render a token stream: a single space between tokens, none before a
comma. -/
def renderGo (d : DialectConfig) (idx : Nat) : List Tok → List Char
  | [] => []
  | [t] => tokChars d idx t
  | t :: t' :: ts =>
      tokChars d idx t ++ (if t' = Tok.comma then [] else [' ']) ++
        renderGo d (idx + paramWeight t) (t' :: ts)

def render (d : DialectConfig) (ts : List Tok) : String :=
  String.mk (renderGo d 1 ts)

/-! ## Parameter extraction (§4.5): bound values are collected in traversal
order; the named style keys them by name in insertion order of first
occurrence. -/

mutual
def paramsExpr : Expr → List (String × Option Value)
  | .lit _ => []
  | .col _ _ => []
  | .param n v => [(n, v)]
  | .bin _ l r => paramsExpr l ++ paramsExpr r
  | .isNull e _ => paramsExpr e
  | .caseWhen bs e? => paramsBranches bs ++ paramsExprOpt e?
  | .func _ args => paramsExprs args

def paramsExprs : List Expr → List (String × Option Value)
  | [] => []
  | e :: es => paramsExpr e ++ paramsExprs es

def paramsBranches : List (Expr × Expr) → List (String × Option Value)
  | [] => []
  | (c, t) :: bs => paramsExpr c ++ paramsExpr t ++ paramsBranches bs

def paramsExprOpt : Option Expr → List (String × Option Value)
  | none => []
  | some e => paramsExpr e
end

def paramsItem : SelectItem → List (String × Option Value)
  | .expr e _ => paramsExpr e
  | .wildcard _ => []

def paramsItems : List SelectItem → List (String × Option Value)
  | [] => []
  | i :: is_ => paramsItem i ++ paramsItems is_

def paramsOrder : List (Expr × OrderDir) → List (String × Option Value)
  | [] => []
  | (e, _) :: os => paramsExpr e ++ paramsOrder os

mutual
def paramsQuery : Query → List (String × Option Value)
  | .simple s => paramsSimple s
  | .bin l _ r => paramsQuery l ++ paramsQuery r
  | .withq cs b => paramsCTEs cs ++ paramsQuery b

def paramsSimple : SimpleSelect → List (String × Option Value)
  | .mk items f? w? g o _ =>
      paramsItems items ++ paramsFromOpt f? ++ paramsExprOpt w? ++
        paramsExprs g ++ paramsOrder o

def paramsFromOpt : Option FromCl → List (String × Option Value)
  | none => []
  | some (.mk src joins) => paramsSource src ++ paramsJoins joins

def paramsSource : Source → List (String × Option Value)
  | .table _ => []
  | .sub q _ => paramsQuery q

def paramsJoins : List JoinCl → List (String × Option Value)
  | [] => []
  | .mk _ src cond :: js =>
      paramsSource src ++ paramsExpr cond ++ paramsJoins js

def paramsCTEs : List CTE → List (String × Option Value)
  | [] => []
  | .mk _ q :: cs => paramsQuery q ++ paramsCTEs cs
end

/-- Keep the first occurrence of each parameter name. -/
def dedupGo (seen : List String) :
    List (String × Option Value) → List (String × Option Value)
  | [] => []
  | (n, v) :: rest =>
      if n ∈ seen then dedupGo seen rest
      else (n, v) :: dedupGo (n :: seen) rest

def dedupByName (l : List (String × Option Value)) :
    List (String × Option Value) :=
  dedupGo [] l

namespace Formatter

/-- Modelled from the spec §4.5: render a statement tree to SQL text under a
dialect configuration (the demos' `new Formatter().format(query)`). -/
def format (d : DialectConfig) (q : Query) : String :=
  render d (emitQuery q)

end Formatter

namespace SqlFormatter

/-- Modelled from the spec §4.5: `format` returns the rendered SQL together
with the extracted parameter collection (`{ formattedSql, params }` in the
demos); the named style keys parameters by name in insertion order of first
occurrence. -/
def format (d : DialectConfig) (q : Query) :
    String × List (String × Option Value) :=
  (Formatter.format d q,
    match d.paramStyle with
    | .named => dedupByName (paramsQuery q)
    | _ => paramsQuery q)

end SqlFormatter

/-! ## Lexer

Modelled from the spec §4.1: bracketed/backtick/double-quoted identifiers
are normalised to the canonical identifier form; keywords are recognised
case-insensitively; literals keep their textual form. -/

def isDigitChar (c : Char) : Bool := 48 ≤ c.toNat && c.toNat ≤ 57

def isWordStart (c : Char) : Bool :=
  (65 ≤ c.toNat && c.toNat ≤ 90) || (97 ≤ c.toNat && c.toNat ≤ 122) ||
    c.toNat = 95

def isWordChar (c : Char) : Bool := isWordStart c || isDigitChar c

def isNumChar (c : Char) : Bool := isDigitChar c || c.toNat = 46

def isWsChar (c : Char) : Bool :=
  c.toNat = 32 || c.toNat = 9 || c.toNat = 10 || c.toNat = 13

def kwOfString (s : String) : Option Kw :=
  match s with
  | "select" => some .kselect | "from" => some .kfrom
  | "where" => some .kwhere | "and" => some .kand | "or" => some .kor
  | "on" => some .kon | "as" => some .kas | "is" => some .kis
  | "not" => some .knot | "null" => some .knull | "like" => some .klike
  | "join" => some .kjoin | "left" => some .kleft | "right" => some .kright
  | "inner" => some .kinner | "full" => some .kfull
  | "union" => some .kunion | "all" => some .kall
  | "intersect" => some .kintersect | "except" => some .kexcept
  | "with" => some .kwith | "order" => some .korder | "by" => some .kby
  | "group" => some .kgroup | "limit" => some .klimit
  | "case" => some .kcase | "when" => some .kwhen | "then" => some .kthen
  | "else" => some .kelse | "end" => some .kend
  | "true" => some .ktrue | "false" => some .kfalse
  | "current_date" => some .kcurrentDate | "interval" => some .kinterval
  | "asc" => some .kasc | "desc" => some .kdesc
  | _ => none

/-- Read one token from the head of the character stream. -/
def lexOne : List Char → Option (Tok × List Char)
  | [] => none
  | '"' :: rest =>
      match rest.dropWhile (fun c => c ≠ '"') with
      | '"' :: r => some (.ident (String.mk (rest.takeWhile (fun c => c ≠ '"'))), r)
      | _ => none
  | '\'' :: rest =>
      match rest.dropWhile (fun c => c ≠ '\'') with
      | '\'' :: r => some (.str (String.mk (rest.takeWhile (fun c => c ≠ '\''))), r)
      | _ => none
  | '[' :: rest =>
      match rest.dropWhile (fun c => c ≠ ']') with
      | ']' :: r => some (.ident (String.mk (rest.takeWhile (fun c => c ≠ ']'))), r)
      | _ => none
  | '`' :: rest =>
      match rest.dropWhile (fun c => c ≠ '`') with
      | '`' :: r => some (.ident (String.mk (rest.takeWhile (fun c => c ≠ '`'))), r)
      | _ => none
  | ':' :: rest =>
      let w := rest.takeWhile isWordChar
      if w.isEmpty then none
      else some (.param (String.mk w), rest.dropWhile isWordChar)
  | '@' :: rest =>
      let w := rest.takeWhile isWordChar
      if w.isEmpty then none
      else some (.param (String.mk w), rest.dropWhile isWordChar)
  | ',' :: r => some (.comma, r)
  | '(' :: r => some (.lparen, r)
  | ')' :: r => some (.rparen, r)
  | '.' :: r => some (.dot, r)
  | '*' :: r => some (.star, r)
  | '=' :: r => some (.teq, r)
  | '<' :: '=' :: r => some (.tle, r)
  | '<' :: r => some (.tlt, r)
  | '>' :: '=' :: r => some (.tge, r)
  | '>' :: r => some (.tgt, r)
  | '-' :: r => some (.tminus, r)
  | c :: rest =>
      if isWordStart c then
        let w := String.mk (c :: rest.takeWhile isWordChar)
        let r := rest.dropWhile isWordChar
        match kwOfString (lowerString w) with
        | some k => some (.kw k, r)
        | none => some (.ident w, r)
      else if isDigitChar c then
        some (.num (String.mk (c :: rest.takeWhile isNumChar)),
          rest.dropWhile isNumChar)
      else none

def lexAll : Nat → List Char → Option (List Tok)
  | 0, _ => none
  | _ + 1, [] => some []
  | fuel + 1, c :: rest =>
      if isWsChar c then lexAll fuel rest
      else
        match lexOne (c :: rest) with
        | some (t, rest') => (lexAll fuel rest').map (fun ts => t :: ts)
        | none => none

def lex (s : String) : Option (List Tok) :=
  lexAll (s.length + 1) s.toList

/-! ## Recursive-descent token parser

Modelled from the spec §4.1 (supported grammar).  All functions take an
explicit fuel argument; `SelectQueryParser.parse` supplies a fuel budget
that provably dominates the recursion depth of any parse. -/

set_option maxHeartbeats 1600000

mutual
def parseQuery : Nat → List Tok → Option (Query × List Tok)
  | 0, _ => none
  | fuel + 1, ts =>
      match ts with
      | .kw .kwith :: rest => do
          let (cs, ts₁) ← parseCTEs fuel rest
          let (b, ts₂) ← parseQuery fuel ts₁
          some (.withq cs b, ts₂)
      | _ => parseChain fuel ts

def parseCTEs : Nat → List Tok → Option (List CTE × List Tok)
  | 0, _ => none
  | fuel + 1, ts =>
      match ts with
      | .ident n :: .kw .kas :: .lparen :: rest => do
          let (q, ts₁) ← parseQuery fuel rest
          match ts₁ with
          | .rparen :: .comma :: ts₂ => do
              let (cs, ts₃) ← parseCTEs fuel ts₂
              some (.mk n q :: cs, ts₃)
          | .rparen :: ts₂ => some ([.mk n q], ts₂)
          | _ => none
      | _ => none

def parseChain : Nat → List Tok → Option (Query × List Tok)
  | 0, _ => none
  | fuel + 1, ts => do
      let (q, ts₁) ← parseQPrimary fuel ts
      parseChainLoop fuel q ts₁

def parseChainLoop : Nat → Query → List Tok → Option (Query × List Tok)
  | 0, _, _ => none
  | fuel + 1, acc, ts =>
      match ts with
      | .kw .kunion :: .kw .kall :: rest => do
          let (r, ts₁) ← parseQPrimary fuel rest
          parseChainLoop fuel (.bin acc .unionAll r) ts₁
      | .kw .kunion :: rest => do
          let (r, ts₁) ← parseQPrimary fuel rest
          parseChainLoop fuel (.bin acc .union r) ts₁
      | .kw .kintersect :: rest => do
          let (r, ts₁) ← parseQPrimary fuel rest
          parseChainLoop fuel (.bin acc .intersect r) ts₁
      | .kw .kexcept :: rest => do
          let (r, ts₁) ← parseQPrimary fuel rest
          parseChainLoop fuel (.bin acc .except r) ts₁
      | _ => some (acc, ts)

def parseQPrimary : Nat → List Tok → Option (Query × List Tok)
  | 0, _ => none
  | fuel + 1, ts =>
      match ts with
      | .lparen :: rest => do
          let (q, ts₁) ← parseQuery fuel rest
          match ts₁ with
          | .rparen :: ts₂ => some (q, ts₂)
          | _ => none
      | .kw .kselect :: _ => do
          let (s, ts₁) ← parseSimple fuel ts
          some (.simple s, ts₁)
      | _ => none

def parseSimple : Nat → List Tok → Option (SimpleSelect × List Tok)
  | 0, _ => none
  | fuel + 1, ts =>
      match ts with
      | .kw .kselect :: rest => do
          let (items, ts₁) ← parseItems fuel rest
          let (f?, ts₂) ← parseFromOpt fuel ts₁
          let (w?, ts₃) ← parseWhereOpt fuel ts₂
          let (g, ts₄) ← parseGroupOpt fuel ts₃
          let (o, ts₅) ← parseOrderOpt fuel ts₄
          match ts₅ with
          | .kw .klimit :: .num n :: ts₆ =>
              some (.mk items f? w? g o (some n), ts₆)
          | _ => some (.mk items f? w? g o none, ts₅)
      | _ => none

def parseItems : Nat → List Tok → Option (List SelectItem × List Tok)
  | 0, _ => none
  | fuel + 1, ts => do
      let (i, ts₁) ← parseItem fuel ts
      match ts₁ with
      | .comma :: rest => do
          let (is_, ts₂) ← parseItems fuel rest
          some (i :: is_, ts₂)
      | _ => some ([i], ts₁)

def parseItem : Nat → List Tok → Option (SelectItem × List Tok)
  | 0, _ => none
  | fuel + 1, ts =>
      match ts with
      | .star :: rest => some (.wildcard none, rest)
      | .ident q :: .dot :: .star :: rest => some (.wildcard (some q), rest)
      | _ => do
          let (e, ts₁) ← parseOr fuel ts
          match ts₁ with
          | .kw .kas :: .ident a :: rest => some (.expr e (some a), rest)
          | .ident a :: rest => some (.expr e (some a), rest)
          | _ => some (.expr e none, ts₁)

def parseFromOpt : Nat → List Tok → Option (Option FromCl × List Tok)
  | 0, _ => none
  | fuel + 1, ts =>
      match ts with
      | .kw .kfrom :: rest => do
          let (src, ts₁) ← parseSource fuel rest
          let (js, ts₂) ← parseJoins fuel ts₁
          some (some (.mk src js), ts₂)
      | _ => some (none, ts)

def parseWhereOpt : Nat → List Tok → Option (Option Expr × List Tok)
  | 0, _ => none
  | fuel + 1, ts =>
      match ts with
      | .kw .kwhere :: rest => do
          let (e, ts₁) ← parseOr fuel rest
          some (some e, ts₁)
      | _ => some (none, ts)

def parseGroupOpt : Nat → List Tok → Option (List Expr × List Tok)
  | 0, _ => none
  | fuel + 1, ts =>
      match ts with
      | .kw .kgroup :: .kw .kby :: rest => parseExprListP fuel rest
      | _ => some ([], ts)

def parseOrderOpt : Nat → List Tok → Option (List (Expr × OrderDir) × List Tok)
  | 0, _ => none
  | fuel + 1, ts =>
      match ts with
      | .kw .korder :: .kw .kby :: rest => parseOrderItems fuel rest
      | _ => some ([], ts)

def parseSource : Nat → List Tok → Option (Source × List Tok)
  | 0, _ => none
  | fuel + 1, ts =>
      match ts with
      | .lparen :: rest => do
          let (q, ts₁) ← parseQuery fuel rest
          match ts₁ with
          | .rparen :: .kw .kas :: .ident a :: ts₂ => some (.sub q a, ts₂)
          | .rparen :: .ident a :: ts₂ => some (.sub q a, ts₂)
          | _ => none
      | .ident sc :: .dot :: .ident n :: .kw .kas :: .ident a :: rest =>
          some (.table ⟨some sc, n, some a⟩, rest)
      | .ident sc :: .dot :: .ident n :: .ident a :: rest =>
          some (.table ⟨some sc, n, some a⟩, rest)
      | .ident sc :: .dot :: .ident n :: rest =>
          some (.table ⟨some sc, n, none⟩, rest)
      | .ident n :: .kw .kas :: .ident a :: rest =>
          some (.table ⟨none, n, some a⟩, rest)
      | .ident n :: .ident a :: rest =>
          some (.table ⟨none, n, some a⟩, rest)
      | .ident n :: rest =>
          some (.table ⟨none, n, none⟩, rest)
      | _ => none

def parseJoins : Nat → List Tok → Option (List JoinCl × List Tok)
  | 0, _ => none
  | fuel + 1, ts =>
      match ts with
      | .kw .kleft :: .kw .kjoin :: rest => parseJoinTail fuel .left rest
      | .kw .kright :: .kw .kjoin :: rest => parseJoinTail fuel .right rest
      | .kw .kinner :: .kw .kjoin :: rest => parseJoinTail fuel .inner rest
      | .kw .kfull :: .kw .kjoin :: rest => parseJoinTail fuel .full rest
      | _ => some ([], ts)

def parseJoinTail : Nat → JoinKind → List Tok → Option (List JoinCl × List Tok)
  | 0, _, _ => none
  | fuel + 1, k, ts => do
      let (src, ts₁) ← parseSource fuel ts
      match ts₁ with
      | .kw .kon :: ts₂ => do
          let (cond, ts₃) ← parseOr fuel ts₂
          let (js, ts₄) ← parseJoins fuel ts₃
          some (.mk k src cond :: js, ts₄)
      | _ => none

def parseOr : Nat → List Tok → Option (Expr × List Tok)
  | 0, _ => none
  | fuel + 1, ts => do
      let (l, ts₁) ← parseAnd fuel ts
      match ts₁ with
      | .kw .kor :: rest => do
          let (r, ts₂) ← parseOr fuel rest
          some (.bin .opOr l r, ts₂)
      | _ => some (l, ts₁)

def parseAnd : Nat → List Tok → Option (Expr × List Tok)
  | 0, _ => none
  | fuel + 1, ts => do
      let (l, ts₁) ← parseCmp fuel ts
      match ts₁ with
      | .kw .kand :: rest => do
          let (r, ts₂) ← parseAnd fuel rest
          some (.bin .opAnd l r, ts₂)
      | _ => some (l, ts₁)

def parseCmp : Nat → List Tok → Option (Expr × List Tok)
  | 0, _ => none
  | fuel + 1, ts => do
      let (l, ts₁) ← parseAdd fuel ts
      match ts₁ with
      | .teq :: rest => do
          let (r, ts₂) ← parseAdd fuel rest
          some (.bin .opEq l r, ts₂)
      | .tlt :: rest => do
          let (r, ts₂) ← parseAdd fuel rest
          some (.bin .opLt l r, ts₂)
      | .tle :: rest => do
          let (r, ts₂) ← parseAdd fuel rest
          some (.bin .opLe l r, ts₂)
      | .tgt :: rest => do
          let (r, ts₂) ← parseAdd fuel rest
          some (.bin .opGt l r, ts₂)
      | .tge :: rest => do
          let (r, ts₂) ← parseAdd fuel rest
          some (.bin .opGe l r, ts₂)
      | .kw .klike :: rest => do
          let (r, ts₂) ← parseAdd fuel rest
          some (.bin .opLike l r, ts₂)
      | .kw .kis :: .kw .knot :: .kw .knull :: rest =>
          some (.isNull l true, rest)
      | .kw .kis :: .kw .knull :: rest => some (.isNull l false, rest)
      | _ => some (l, ts₁)

def parseAdd : Nat → List Tok → Option (Expr × List Tok)
  | 0, _ => none
  | fuel + 1, ts => do
      let (l, ts₁) ← parsePrim fuel ts
      match ts₁ with
      | .tminus :: rest => do
          let (r, ts₂) ← parseAdd fuel rest
          some (.bin .opSub l r, ts₂)
      | _ => some (l, ts₁)

def parsePrim : Nat → List Tok → Option (Expr × List Tok)
  | 0, _ => none
  | fuel + 1, ts =>
      match ts with
      | .num s :: rest => some (.lit (.num s), rest)
      | .str s :: rest => some (.lit (.str s), rest)
      | .kw .ktrue :: rest => some (.lit (.bool true), rest)
      | .kw .kfalse :: rest => some (.lit (.bool false), rest)
      | .kw .knull :: rest => some (.lit .null, rest)
      | .kw .kcurrentDate :: rest => some (.lit .currentDate, rest)
      | .kw .kinterval :: .str s :: rest => some (.lit (.interval s), rest)
      | .param n :: rest => some (.param n none, rest)
      | .kw .kcase :: rest => do
          let (bs, ts₁) ← parseWhens fuel rest
          match ts₁ with
          | .kw .kelse :: ts₂ => do
              let (e, ts₃) ← parseOr fuel ts₂
              match ts₃ with
              | .kw .kend :: r => some (.caseWhen bs (some e), r)
              | _ => none
          | .kw .kend :: r => some (.caseWhen bs none, r)
          | _ => none
      | .ident n :: .lparen :: .rparen :: rest => some (.func n [], rest)
      | .ident n :: .lparen :: rest => do
          let (args, ts₁) ← parseArgs fuel rest
          match ts₁ with
          | .rparen :: r => some (.func n args, r)
          | _ => none
      | .ident q :: .dot :: .ident n :: rest => some (.col (some q) n, rest)
      | .ident n :: rest => some (.col none n, rest)
      | .lparen :: rest => do
          let (e, ts₁) ← parseOr fuel rest
          match ts₁ with
          | .rparen :: r => some (e, r)
          | _ => none
      | _ => none

def parseWhens : Nat → List Tok → Option (List (Expr × Expr) × List Tok)
  | 0, _ => none
  | fuel + 1, ts =>
      match ts with
      | .kw .kwhen :: rest => do
          let (c, ts₁) ← parseOr fuel rest
          match ts₁ with
          | .kw .kthen :: ts₂ => do
              let (t, ts₃) ← parseOr fuel ts₂
              let (bs, ts₄) ← parseWhens fuel ts₃
              some ((c, t) :: bs, ts₄)
          | _ => none
      | _ => some ([], ts)

def parseArgs : Nat → List Tok → Option (List Expr × List Tok)
  | 0, _ => none
  | fuel + 1, ts => do
      let (e, ts₁) ← parseOr fuel ts
      match ts₁ with
      | .comma :: rest => do
          let (es, ts₂) ← parseArgs fuel rest
          some (e :: es, ts₂)
      | _ => some ([e], ts₁)

def parseExprListP : Nat → List Tok → Option (List Expr × List Tok)
  | 0, _ => none
  | fuel + 1, ts => do
      let (e, ts₁) ← parseOr fuel ts
      match ts₁ with
      | .comma :: rest => do
          let (es, ts₂) ← parseExprListP fuel rest
          some (e :: es, ts₂)
      | _ => some ([e], ts₁)

def parseOrderItems : Nat → List Tok → Option (List (Expr × OrderDir) × List Tok)
  | 0, _ => none
  | fuel + 1, ts => do
      let (e, ts₁) ← parseOr fuel ts
      let (d, ts₂) :=
        match ts₁ with
        | .kw .kasc :: r => (OrderDir.asc, r)
        | .kw .kdesc :: r => (OrderDir.desc, r)
        | _ => (OrderDir.asc, ts₁)
      match ts₂ with
      | .comma :: rest => do
          let (os, ts₃) ← parseOrderItems fuel rest
          some ((e, d) :: os, ts₃)
      | _ => some ([(e, d)], ts₂)
end

namespace SelectQueryParser

/-- Modelled from the spec §4.1: `parse(text) -> Statement`, failing with a
`SyntaxError` on malformed input.  The fuel budget dominates any parse
depth (see `parse_roundtrip`). -/
def parse (s : String) : Except Err Query :=
  match lex s with
  | none => .error .syntaxError
  | some ts =>
      match parseQuery (16 * (ts.length + 1)) ts with
      | some (q, []) => .ok q
      | _ => .error .syntaxError

/-- The asynchronous parse variant of §4.1 is semantically identical to the
synchronous one. -/
def parseAsync (s : String) : Except Err Query := parse s

end SelectQueryParser

/-! ## Column resolution and collectors

Modelled from the spec §4.2/§4.6 and the collector demo: selectable columns
are the statement's own select values followed by the columns exposed by
each FROM/JOIN source (via the optional table-column resolver, or inferred
from subquery projections), deduplicated by name keeping the first
occurrence. -/

/-- An injectable table-schema lookup (§3 "Table Schema Lookup"). -/
abbrev TableColumnResolver := String → List String

/-- Output names of a statement's own projection (wildcards yield nothing
until they can be expanded). -/
def itemNames : List SelectItem → List String
  | [] => []
  | .expr _ (some a) :: rest => a :: itemNames rest
  | .expr (.col _ n) none :: rest => n :: itemNames rest
  | .expr _ none :: rest => itemNames rest
  | .wildcard _ :: rest => itemNames rest

mutual
def itemNamesQ : Query → List String
  | .simple s => itemNamesSimple s
  | .bin l _ _ => itemNamesQ l
  | .withq _ b => itemNamesQ b

def itemNamesSimple : SimpleSelect → List String
  | .mk items _ _ _ _ _ => itemNames items
end

/-- The name a source is referred to by (alias if present). -/
def sourceBinding : Source → String
  | .table t => t.alias?.getD t.name
  | .sub _ al => al

/-- The sources of a plain select: the FROM source and each joined source. -/
def sourcesOf (s : SimpleSelect) : List Source :=
  match s.fromCl? with
  | none => []
  | some (.mk src joins) => src :: joins.map JoinCl.src

/-- Columns exposed by one source, qualified by its binding name. -/
def sourceColumns (res : Option TableColumnResolver) : Source → List (String × Expr)
  | .table t =>
      match res with
      | none => []
      | some r => (r t.name).map
          (fun c => (c, Expr.col (some (t.alias?.getD t.name)) c))
  | .sub q al => (itemNamesQ q).map (fun c => (c, Expr.col (some al) c))

def sourcesColumns (res : Option TableColumnResolver) :
    List Source → List (String × Expr)
  | [] => []
  | s :: rest => sourceColumns res s ++ sourcesColumns res rest

/-- Expand a (possibly qualified) wildcard over the given sources. -/
def expandWildcard (res : Option TableColumnResolver) (srcs : List Source)
    (qual : Option String) : List (String × Expr) :=
  sourcesColumns res
    (match qual with
     | none => srcs
     | some q => srcs.filter (fun s => sourceBinding s = q))

/-- Select values contributed by the projection list. -/
def itemColumns (res : Option TableColumnResolver) (srcs : List Source) :
    List SelectItem → List (String × Expr)
  | [] => []
  | .expr e (some a) :: rest => (a, e) :: itemColumns res srcs rest
  | .expr (.col q n) none :: rest =>
      (n, .col q n) :: itemColumns res srcs rest
  | .expr _ none :: rest => itemColumns res srcs rest
  | .wildcard qual :: rest =>
      expandWildcard res srcs qual ++ itemColumns res srcs rest

/-- Keep the first occurrence of each column name. -/
def dedupColsGo (seen : List String) :
    List (String × Expr) → List (String × Expr)
  | [] => []
  | (n, e) :: rest =>
      if n ∈ seen then dedupColsGo seen rest
      else (n, e) :: dedupColsGo (n :: seen) rest

def dedupCols (l : List (String × Expr)) : List (String × Expr) :=
  dedupColsGo [] l

namespace SelectableColumnCollector

/-- Modelled from the spec §4.2/§4.6: all columns reachable from the
statement's scope — its own select values first, then the columns exposed
by each source — deduplicated by name. -/
def collect (res : Option TableColumnResolver) (s : SimpleSelect) :
    List (String × Expr) :=
  dedupCols
    (itemColumns res (sourcesOf s) s.items ++
      sourcesColumns res (sourcesOf s))

end SelectableColumnCollector

namespace TableSourceCollector

/-- Physical table names reachable from a plain select (§4.6). -/
def collect (s : SimpleSelect) : List String :=
  (sourcesOf s).filterMap
    (fun src => match src with
      | .table t => some t.name
      | .sub _ _ => none)

end TableSourceCollector

/-- Find the expression a column name resolves to. -/
def lookupCol (sel : List (String × Expr)) (c : String) : Option Expr :=
  (sel.find? (fun p => p.1 = c)).map (fun p => p.2)

/-! ## WHERE appending -/

/-- Append a conjunct at the end of an AND chain, keeping the chain
right-leaning so that it formats flat. -/
def andAppend (w p : Expr) : Expr :=
  match w with
  | .bin .opAnd l r => .bin .opAnd l (andAppend r p)
  | _ => .bin .opAnd w p

/-- Conjoin a list of predicates into one right-leaning AND chain. -/
def andChain : List Expr → Expr
  | [] => .lit (.bool true)
  | [c] => c
  | c :: cs => .bin .opAnd c (andChain cs)

/-- Add one predicate to a statement's WHERE clause, AND-ed with any
existing predicate (§4.3). -/
def appendWhere (s : SimpleSelect) (p : Expr) : SimpleSelect :=
  match s with
  | .mk items f? none g o l => .mk items f? (some p) g o l
  | .mk items f? (some w) g o l => .mk items f? (some (andAppend w p)) g o l

namespace SimpleSelectQuery

/-- Modelled from the spec §4.3: `appendWhereRaw` parses the raw predicate
text and ANDs it onto the WHERE clause; repeated calls accumulate left to
right. -/
def appendWhereRaw (s : SimpleSelect) (txt : String) : Except Err SimpleSelect :=
  match lex txt with
  | none => .error .syntaxError
  | some ts =>
      match parseOr (16 * (ts.length + 1)) ts with
      | some (p, []) => .ok (appendWhere s p)
      | _ => .error .syntaxError

end SimpleSelectQuery

/-! ## Join injection (§4.3, validate-then-attach per §7) -/

/-- Resolve each join column against the statement's selectable columns;
returns the unresolved names on failure. -/
def resolveJoinColumns (res : Option TableColumnResolver) (s : SimpleSelect)
    (cols : List String) : Except (List String) (List (String × Expr)) :=
  let sel := SelectableColumnCollector.collect res s
  let missing := cols.filter (fun c => (lookupCol sel c).isNone)
  if missing.isEmpty then
    .ok (cols.map (fun c => (c, (lookupCol sel c).getD (.col none c))))
  else .error missing

/-- The ON condition equating each join column between its existing
producing expression and the newly joined source. -/
def joinOnCond (al : String) (pairs : List (String × Expr)) : Expr :=
  andChain (pairs.map (fun p => .bin .opEq p.2 (.col (some al) p.1)))

/-- Attach a resolved join at the end of the join chain. -/
def attachJoin (kind : JoinKind) (tableName al : String) (cond : Expr) :
    SimpleSelect → SimpleSelect
  | .mk items none w g o l => .mk items none w g o l
  | .mk items (some (.mk src js)) w g o l =>
      .mk items
        (some (.mk src (js ++ [.mk kind (.table ⟨none, tableName, some al⟩) cond])))
        w g o l

/-- Modelled from the spec §4.3/§7: join injection as a mutation step — the
returned statement is the post-call state of the tree, and resolution
happens before any mutation, so a failing call leaves the tree untouched. -/
def injectJoinOp (res : Option TableColumnResolver) (kind : JoinKind)
    (tableName al : String) (cols : List String) (s : SimpleSelect) :
    SimpleSelect × Option Err :=
  match resolveJoinColumns res s cols with
  | .error missing => (s, some (.joinResolutionError missing))
  | .ok pairs =>
      match s.fromCl? with
      | none => (s, some (.joinResolutionError cols))
      | some _ => (attachJoin kind tableName al (joinOnCond al pairs) s, none)

/-- `injectJoin` as a fallible operation. -/
def injectJoin (res : Option TableColumnResolver) (kind : JoinKind)
    (tableName al : String) (cols : List String) (s : SimpleSelect) :
    Except Err SimpleSelect :=
  match injectJoinOp res kind tableName al cols s with
  | (s', none) => .ok s'
  | (_, some e) => .error e

namespace SimpleSelectQuery

/-- The demos' `leftJoinRaw(table, alias, joinColumns)` (no schema lookup
supplied). -/
def leftJoinRaw (s : SimpleSelect) (tableName al : String)
    (cols : List String) : Except Err SimpleSelect :=
  injectJoin none .left tableName al cols s

end SimpleSelectQuery

/-! ## Upstream predicate push (§4.3 `upstream: true`)

Modelled from the spec: the predicate, column-translated, is pushed into
every upstream CTE/subquery that itself produces the referenced column, not
merely the outermost scope; wildcard pass-through scopes are traversed
transparently (pinned by the upstream demo's expected output). -/

/-- The expression a plain select's projection produces under the given
output column name, if it names it explicitly. -/
def producesCol (colName : String) : List SelectItem → Option Expr
  | [] => none
  | .expr e (some a) :: rest =>
      if a = colName then some e else producesCol colName rest
  | .expr (.col q n) none :: rest =>
      if n = colName then some (.col q n) else producesCol colName rest
  | .expr _ none :: rest => producesCol colName rest
  | .wildcard _ :: rest => producesCol colName rest

mutual
/-- Push `f` of the producing expression into every most-upstream scope
producing `colName`; returns the rewritten query and the number of scopes
reached. -/
def pushQ (colName : String) (f : Expr → Expr) : Query → Query × Nat
  | .simple s =>
      match producesCol colName s.items with
      | some e => (.simple (appendWhere s (f e)), 1)
      | none =>
          let (s', n) := pushSimple colName f s
          (.simple s', n)
  | .bin l op r =>
      let (l', nl) := pushQ colName f l
      let (r', nr) := pushQ colName f r
      (.bin l' op r', nl + nr)
  | .withq ctes body =>
      let (ctes', nc) := pushCTEs colName f ctes
      let (body', nb) := pushQ colName f body
      (.withq ctes' body', nc + nb)

/-- Descend through a non-producing select's sources. -/
def pushSimple (colName : String) (f : Expr → Expr) :
    SimpleSelect → SimpleSelect × Nat
  | .mk items none w g o l => (.mk items none w g o l, 0)
  | .mk items (some (.mk src js)) w g o l =>
      let (src', ns) := pushSource colName f src
      let (js', nj) := pushJoins colName f js
      (.mk items (some (.mk src' js')) w g o l, ns + nj)

def pushSource (colName : String) (f : Expr → Expr) : Source → Source × Nat
  | .table t => (.table t, 0)
  | .sub q al =>
      let (q', n) := pushQ colName f q
      (.sub q' al, n)

def pushJoins (colName : String) (f : Expr → Expr) :
    List JoinCl → List JoinCl × Nat
  | [] => ([], 0)
  | .mk k src cond :: js =>
      let (src', ns) := pushSource colName f src
      let (js', nj) := pushJoins colName f js
      (.mk k src' cond :: js', ns + nj)

def pushCTEs (colName : String) (f : Expr → Expr) :
    List CTE → List CTE × Nat
  | [] => ([], 0)
  | .mk n q :: cs =>
      let (q', nq) := pushQ colName f q
      let (cs', ncs) := pushCTEs colName f cs
      (.mk n q' :: cs', nq + ncs)
end

/-- Modelled from the spec §4.3/§7: upstream WHERE injection as a mutation
step — producing scopes are counted first; when no scope produces the
column, the tree is left in its pre-call state with a resolution error. -/
def appendWhereExprOp (colName : String) (f : Expr → Expr) (q : Query) :
    Query × Option Err :=
  if (pushQ colName f q).2 = 0 then
    (q, some (.columnResolutionError [colName]))
  else ((pushQ colName f q).1, none)

namespace SimpleSelectQuery

/-- The demos' `appendWhereExpr(column, fn, { upstream: true })`. -/
def appendWhereExpr (q : Query) (colName : String) (f : Expr → Expr) :
    Except Err Query :=
  match appendWhereExprOp colName f q with
  | (q', none) => .ok q'
  | (_, some e) => .error e

end SimpleSelectQuery

/-! ## Criteria injection (§3 "Criteria Object", §4.3, §9) -/

/-- Modelled from the spec §9: a criteria value is a closed sum of
{Equals, Like, GreaterOrEqual, LessOrEqual, Range}; the `Omitted` case is
a `none` entry in the criteria list. -/
inductive CritVal where
  | eqv (v : Value)
  | like (v : Value)
  | ge (v : Value)
  | le (v : Value)
  | range (lo hi : Value)
deriving DecidableEq, Repr

/-- A criteria object: keys in insertion order; `none` means the key maps
to `undefined` ("omit this filter"). -/
abbrev Criteria := List (String × Option CritVal)

/-- The predicate one criteria entry expands to (§4.3): equality for bare
values, LIKE, comparisons, and a conjunctive range when both bounds are
present. -/
def critPred (key : String) (colExpr : Expr) : CritVal → Expr
  | .eqv v => .bin .opEq colExpr (.param key (some v))
  | .like v => .bin .opLike colExpr (.param key (some v))
  | .ge v => .bin .opGe colExpr (.param key (some v))
  | .le v => .bin .opLe colExpr (.param key (some v))
  | .range lo hi =>
      .bin .opAnd (.bin .opGe colExpr (.param (key ++ "_min") (some lo)))
        (.bin .opLe colExpr (.param (key ++ "_max") (some hi)))

/-- Resolve every non-omitted criteria key against the selectable-column
set; unresolved keys are a hard error (§3). -/
def resolveCriteria (sel : List (String × Expr)) : Criteria → Except Err (List Expr)
  | [] => .ok []
  | (_, none) :: rest => resolveCriteria sel rest
  | (k, some cv) :: rest =>
      match lookupCol sel k with
      | none => .error (.columnResolutionError [k])
      | some e => (resolveCriteria sel rest).map (fun ps => critPred k e cv :: ps)

/-- Modelled from the spec §4.3/§7: criteria injection as a mutation step —
all keys are resolved before any predicate is attached, so a failing call
leaves the tree in its pre-call state. -/
def injectCriteriaOp (res : Option TableColumnResolver) (c : Criteria)
    (s : SimpleSelect) : SimpleSelect × Option Err :=
  match resolveCriteria (SelectableColumnCollector.collect res s) c with
  | .error e => (s, some e)
  | .ok preds => (preds.foldl appendWhere s, none)

namespace SqlParamInjector

/-- Modelled from the spec §4.3 and the param-injector demo: `inject`
accepts either raw SQL text or an already-parsed statement, expands the
criteria object into one predicate per non-omitted key and ANDs them onto
the WHERE clause. -/
def inject (res : Option TableColumnResolver) (src : String ⊕ SimpleSelect)
    (c : Criteria) : Except Err SimpleSelect :=
  match src with
  | .inl txt =>
      match SelectQueryParser.parse txt with
      | .ok (.simple s) =>
          match injectCriteriaOp res c s with
          | (s', none) => .ok s'
          | (_, some e) => .error e
      | _ => .error .syntaxError
  | .inr s =>
      match injectCriteriaOp res c s with
      | (s', none) => .ok s'
      | (_, some e) => .error e

end SqlParamInjector

/-! ## Set-operation builder (§4.6) -/

def setOpOfString : String → Option SetOp
  | "union" => some .union
  | "union all" => some .unionAll
  | "intersect" => some .intersect
  | "except" => some .except
  | _ => none

namespace QueryBuilder

/-- Modelled from the spec §4.6: left-fold the statement list into a chain
of binary set-operation nodes using the given operator. -/
def buildBinaryQuery (qs : List Query) (op : String) : Except Err Query :=
  match setOpOfString op, qs with
  | some o, q :: rest => .ok (rest.foldl (fun acc r => .bin acc o r) q)
  | _, _ => .error .formatError

end QueryBuilder

/-! ## Hierarchical JSON query builder (§4.4)

Modelled from the spec and pinned by the findById golden test: origin CTE,
one staging CTE per relationship depth wrapping object entities into a
NULL-guarded JSON object, one aggregation CTE per one-to-many relationship,
a root CTE and a final SELECT. -/

inductive RelType where
  | object | array
deriving DecidableEq, Repr

inductive ResFormat where
  | array | single
deriving DecidableEq, Repr

/-- The root entity of a JSON mapping descriptor (§3): id, output name and
a jsonKey → column map. -/
structure RootEntity where
  id : String
  name : String
  columns : List (String × String)
deriving DecidableEq

/-- A nested entity: owning entity, relationship kind, output property and
its own jsonKey → column map. -/
structure NestedEntity where
  id : String
  name : String
  parentId : String
  propertyName : String
  relType : RelType
  columns : List (String × String)
deriving DecidableEq

/-- The JSON mapping descriptor (§3). -/
structure JsonMapping where
  rootName : String
  rootEntity : RootEntity
  nestedEntities : List NestedEntity
  useJsonb : Bool
  resultFormat : ResFormat

/-- Depth of an entity id above the root, following parent links; `none`
when a parent is missing or a cycle exhausts the fuel. -/
def entityDepth (m : JsonMapping) : Nat → String → Option Nat
  | 0, _ => none
  | fuel + 1, pid =>
      if pid = m.rootEntity.id then some 0
      else
        match m.nestedEntities.find? (fun e => e.id = pid) with
        | some e => (entityDepth m fuel e.parentId).map (fun d => d + 1)
        | none => none

/-- Modelled from the spec §3/§7: the nested-entity graph must be acyclic
with every owning entity present, and output properties must not collide;
violations are detected before any CTE is emitted. -/
def validateMapping (m : JsonMapping) : Bool :=
  m.nestedEntities.all
      (fun e => (entityDepth m (m.nestedEntities.length + 1) e.parentId).isSome) &&
    (m.nestedEntities.map (fun e => e.propertyName)).Nodup

def jsonObjFn (useJsonb : Bool) : String :=
  if useJsonb then "jsonb_build_object" else "json_build_object"

def jsonAggFn (useJsonb : Bool) : String :=
  if useJsonb then "jsonb_agg" else "json_agg"

/-- The alternating key/column argument list of a JSON object call. -/
def objArgs : List (String × String) → List Expr
  | [] => []
  | (k, c) :: rest => .lit (.str k) :: .col none c :: objArgs rest

/-- Modelled from the spec §4.4 (2): the staging expression for a nested
one-to-one entity — a CASE testing every mapped column for IS NULL,
yielding NULL for an all-null row and the JSON object otherwise. -/
def objectEntityExpr (useJsonb : Bool) (cols : List (String × String)) : Expr :=
  .caseWhen
    [(andChain (cols.map (fun c => .isNull (.col none c.2) false)), .lit .null)]
    (some (.func (jsonObjFn useJsonb) (objArgs cols)))

/-- The staged select items added for the object entities of a mapping. -/
def objectStageItems (m : JsonMapping) : List SelectItem :=
  (m.nestedEntities.filter (fun e => e.relType = .object)).map
    (fun e => .expr (objectEntityExpr m.useJsonb e.columns)
      (some (e.propertyName ++ "_json")))

/-- A bare `select ... from <cte>` statement. -/
def selectFromCTE (items : List SelectItem) (cteName : String)
    (g : List Expr) (lim : Option String) : SimpleSelect :=
  .mk items (some (.mk (.table ⟨none, cteName, none⟩) [])) none g [] lim

/-- Names of the scalar columns still flowing beside an aggregation stage:
the object-entity JSON columns, the root's mapped columns and the object
entities' mapped columns. -/
def groupColNames (m : JsonMapping) : List String :=
  ((m.nestedEntities.filter (fun e => e.relType = .object)).map
      (fun e => e.propertyName ++ "_json") ++
    m.rootEntity.columns.map (fun c => c.2) ++
    (m.nestedEntities.filter (fun e => e.relType = .object)).flatMap
      (fun e => e.columns.map (fun c => c.2))).dedup

/-- The root JSON object: scalar columns plus one field per nested
object/array property. -/
def rootObjArgs (m : JsonMapping) : List Expr :=
  objArgs m.rootEntity.columns ++
    (m.nestedEntities.map
      (fun e =>
        [Expr.lit (.str e.propertyName),
         Expr.col none
           (match e.relType with
            | .object => e.propertyName ++ "_json"
            | .array => e.propertyName)])).flatten

/-- Emit the staged CTE pipeline for a valid mapping (depth-1
relationships, as exercised by the demos). -/
def buildJsonQuery (m : JsonMapping) (s : SimpleSelect) : Query :=
  let objects := m.nestedEntities.filter (fun e => e.relType = .object)
  let arrays := m.nestedEntities.filter (fun e => e.relType = .array)
  let afterObjects := if objects.isEmpty then "origin_query" else "cte_object_depth_1"
  let afterArrays := if arrays.isEmpty then afterObjects else "cte_array_depth_1"
  let objectStage : List CTE :=
    if objects.isEmpty then []
    else [.mk "cte_object_depth_1"
      (.simple (selectFromCTE (.wildcard none :: objectStageItems m)
        "origin_query" [] none))]
  let arrayStage : List CTE :=
    if arrays.isEmpty then []
    else [.mk "cte_array_depth_1"
      (.simple (selectFromCTE
        ((groupColNames m).map (fun n => .expr (.col none n) none) ++
          arrays.map (fun e =>
            .expr (.func (jsonAggFn m.useJsonb)
              [.func (jsonObjFn m.useJsonb) (objArgs e.columns)])
              (some e.propertyName)))
        afterObjects
        ((groupColNames m).map (fun n => .col none n)) none))]
  let rootCTE : CTE :=
    .mk ("cte_root_" ++ m.rootName)
      (.simple (selectFromCTE
        [.expr (.func (jsonObjFn m.useJsonb) (rootObjArgs m)) (some m.rootName)]
        afterArrays [] none))
  let finalSelect : SimpleSelect :=
    match m.resultFormat with
    | .array =>
        selectFromCTE
          [.expr (.func (jsonAggFn m.useJsonb) [.col none m.rootName])
            (some (m.rootName ++ "_array"))]
          ("cte_root_" ++ m.rootName) [] none
    | .single =>
        selectFromCTE [.expr (.col none m.rootName) none]
          ("cte_root_" ++ m.rootName) [] (some "1")
  .withq ((.mk "origin_query" (.simple s)) :: objectStage ++ arrayStage ++
    [rootCTE]) (.simple finalSelect)

/-- Modelled from the spec §4.4/§7: JSON building as a mutation step —
mapping validation happens before any CTE is emitted, so a failing call
leaves the tree in its pre-call state. -/
def buildJsonOp (m : JsonMapping) (s : SimpleSelect) : Query × Option Err :=
  if validateMapping m then (buildJsonQuery m s, none)
  else (.simple s, some .mappingError)

namespace PostgresJsonQueryBuilder

/-- The builder's public entry point. -/
def buildJson (m : JsonMapping) (s : SimpleSelect) : Except Err Query :=
  match buildJsonOp m s with
  | (q, none) => .ok q
  | (_, some e) => .error e

end PostgresJsonQueryBuilder

/-! ## Row-level semantics of the JSON staging expression

`SqlVal` models PostgreSQL values including jsonb objects/arrays; `evalExpr`
gives the fragment of expression semantics exercised by the staging CTEs
(IS NULL tests, AND, CASE, `jsonb_build_object`). -/

inductive SqlVal where
  | vnull
  | vbool (b : Bool)
  | vstr (s : String)
  | vobj (fields : List (String × SqlVal))
  | varr (elems : List SqlVal)

def isNullV : SqlVal → Bool
  | .vnull => true
  | _ => false

/-- Pair up the alternating key/value results of a JSON object call. -/
def mkObjFields : List SqlVal → List (String × SqlVal)
  | .vstr k :: v :: rest => (k, v) :: mkObjFields rest
  | _ => []

mutual
def evalExpr (row : String → SqlVal) : Expr → SqlVal
  | .lit .null => .vnull
  | .lit (.bool b) => .vbool b
  | .lit (.str s) => .vstr s
  | .lit (.num s) => .vstr s
  | .lit .currentDate => .vnull
  | .lit (.interval _) => .vnull
  | .col _ n => row n
  | .param _ _ => .vnull
  | .isNull e false => .vbool (isNullV (evalExpr row e))
  | .isNull e true => .vbool (!isNullV (evalExpr row e))
  | .bin .opAnd l r =>
      match evalExpr row l, evalExpr row r with
      | .vbool a, .vbool b => .vbool (a && b)
      | _, _ => .vnull
  | .bin _ _ _ => .vnull
  | .caseWhen bs none =>
      match evalCase row bs with
      | some v => v
      | none => .vnull
  | .caseWhen bs (some e) =>
      match evalCase row bs with
      | some v => v
      | none => evalExpr row e
  | .func n args =>
      if n = "jsonb_build_object" || n = "json_build_object" then
        .vobj (mkObjFields (evalArgs row args))
      else .vnull

/-- The value of the first CASE branch whose condition holds, if any. -/
def evalCase (row : String → SqlVal) : List (Expr × Expr) → Option SqlVal
  | [] => none
  | (c, t) :: bs =>
      match evalExpr row c with
      | .vbool true => some (evalExpr row t)
      | _ => evalCase row bs

def evalArgs (row : String → SqlVal) : List Expr → List SqlVal
  | [] => []
  | e :: es => evalExpr row e :: evalArgs row es
end

/-! ## Concrete demo scenarios -/

/-- The input of the param-injector demo (scenario A). -/
def scenarioASql : String := "SELECT id, name FROM users WHERE active = true"

/-- The criteria object `{id: 42, name: 'Alice'}` (bare values, hence
equality predicates). -/
def scenarioACriteria : Criteria :=
  [("id", some (.eqv (.int 42))), ("name", some (.eqv (.str "Alice")))]

/-- Parse a SELECT text into a plain select statement. -/
def parsedSimple (txt : String) : Except Err SimpleSelect :=
  match SelectQueryParser.parse txt with
  | .ok (.simple s) => .ok s
  | .ok _ => .error .syntaxError
  | .error e => .error e

/-- Scenario A through inject-then-format under the generic dialect. -/
def scenarioAOutput : Except Err (String × List (String × Option Value)) :=
  (SqlParamInjector.inject none (.inl scenarioASql) scenarioACriteria).map
    (fun s => SqlFormatter.format genericDialect (.simple s))

/-- C1: the spec's claimed output text, verbatim. -/
def scenarioAClaimedSql : String :=
  "SELECT id, name FROM users WHERE active = true AND id = :id AND name = :name"

/-- C1 (counterexample): parsing `SELECT id, name FROM users WHERE active =
true`, injecting `{id: 42, name: 'Alice'}` and formatting under the generic
dialect does NOT yield the claimed text `SELECT id, name FROM users WHERE
active = true AND id = :id AND name = :name`: the formatter renders from
the tree, lowercasing keywords and double-quoting identifiers (as every
other golden output in the repository shows). -/
theorem scenarioA_not_verbatim :
    scenarioAOutput.map Prod.fst ≠ .ok scenarioAClaimedSql := by
  have h : scenarioAOutput.map Prod.fst =
      .ok "select \"id\", \"name\" from \"users\" where \"active\" = true and \"id\" = :id and \"name\" = :name" := by
    rfl
  rw [h]
  intro hc
  exact absurd (Except.ok.inj hc) (by decide)

/-- C1 (amended): the same pipeline yields the canonically formatted text
`select "id", "name" from "users" where "active" = true and "id" = :id and
"name" = :name` together with the named parameters {id: 42, name: 'Alice'},
in that order. -/
theorem scenarioA_canonical :
    scenarioAOutput =
      .ok ("select \"id\", \"name\" from \"users\" where \"active\" = true and \"id\" = :id and \"name\" = :name",
        [("id", some (.int 42)), ("name", some (.str "Alice"))]) := by
  rfl

/-- C2: for `SELECT u.* FROM users u` with no table-schema lookup, injecting
a left join to `orders` (alias `o`) on join column `user_id` fails with a
`JoinResolutionError` naming `user_id` as the unresolved column: the
wildcard-only projection cannot be expanded to locate `user_id`. -/
theorem wildcard_join_fails :
    (parsedSimple "SELECT u.* FROM users u").bind
        (fun s => SimpleSelectQuery.leftJoinRaw s "orders" "o" ["user_id"]) =
      .error (.joinResolutionError ["user_id"]) := by
  rfl

/-! ## Scenario D: combining with UNION ALL -/

/-- The three statements of the combine demo, parsed independently and
left-folded with `union all`. -/
def scenarioDCombined : Except Err Query := do
  let q1 ← SelectQueryParser.parse "SELECT id FROM users"
  let q2 ← SelectQueryParser.parse "SELECT id FROM admins"
  let q3 ← SelectQueryParser.parse "SELECT id FROM guests"
  QueryBuilder.buildBinaryQuery [q1, q2, q3] "union all"

/-- A one-column `select id from <t>` tree. -/
def selectIdFrom (t : String) : Query :=
  .simple (.mk [.expr (.col none "id") none]
    (some (.mk (.table ⟨none, t, none⟩) [])) none [] [] none)

/-- C5 (counterexample): combining the three parsed statements with UNION
ALL and formatting does NOT yield the claimed unquoted text `select id from
users union all select id from admins union all select id from guests`:
the generic dialect double-quotes every identifier. -/
theorem scenarioD_not_verbatim :
    scenarioDCombined.map (Formatter.format genericDialect) ≠
      .ok "select id from users union all select id from admins union all select id from guests" := by
  have h : scenarioDCombined.map (Formatter.format genericDialect) =
      .ok "select \"id\" from \"users\" union all select \"id\" from \"admins\" union all select \"id\" from \"guests\"" := by
    rfl
  rw [h]
  intro hc
  exact absurd (Except.ok.inj hc) (by decide)

/-- C5 (amended): the combined statement is the left-fold
`(users UNION ALL admins) UNION ALL guests` — inputs in left-to-right
order with UNION ALL between each pair — and formats to
`select "id" from "users" union all select "id" from "admins" union all
select "id" from "guests"` (identifiers double-quoted by the generic
dialect). -/
theorem scenarioD_canonical :
    scenarioDCombined =
        .ok (.bin (.bin (selectIdFrom "users") .unionAll (selectIdFrom "admins"))
          .unionAll (selectIdFrom "guests")) ∧
      scenarioDCombined.map (Formatter.format genericDialect) =
        .ok "select \"id\" from \"users\" union all select \"id\" from \"admins\" union all select \"id\" from \"guests\"" := by
  exact ⟨rfl, rfl⟩

/-! ## Scenario: upstream WHERE push through a UNION-under-CTE query -/

/-- The CTE/UNION query of the upstream demo (whitespace normalised). -/
def upstreamDemoSql : String :=
  "WITH sales_transactions AS ( SELECT transaction_id, customer_id, amount, transaction_date, 'sales' AS source FROM sales_schema.transactions WHERE transaction_date >= CURRENT_DATE - INTERVAL '90 days' ), support_transactions AS ( SELECT support_id AS transaction_id, user_id AS customer_id, fee AS amount, support_date AS transaction_date, 'support' AS source FROM support_schema.support_fees WHERE support_date >= CURRENT_DATE - INTERVAL '90 days' ) SELECT * FROM ( SELECT * FROM sales_transactions UNION ALL SELECT * FROM support_transactions ) d ORDER BY transaction_date DESC"

/-- The demo's upstream injection: append `amount > 100`. -/
def upstreamDemoResult : Except Err Query :=
  (SelectQueryParser.parse upstreamDemoSql).bind
    (fun q => SimpleSelectQuery.appendWhereExpr q "amount"
      (fun e => .bin .opGt e (.lit (.num "100"))))

/-- The query defined by a named CTE. -/
def findCTE : Query → String → Option Query
  | .withq ctes _, n => (ctes.find? (fun c => c.name = n)).map CTE.query
  | _, _ => none

/-- The formatted WHERE clause of a plain select, if any. -/
def whereSqlOf : Query → Option String
  | .simple s => s.whereCl?.map (fun w => render genericDialect (emitExpr w))
  | _ => none

set_option maxRecDepth 40000

/-- C3: with `upstream: true`, appending `amount > 100` to the demo query
pushes the column-translated predicate into both federated CTE branches —
`"amount" > 100` inside `sales_transactions` and `"fee" > 100` inside
`support_transactions` — while the outermost scope is unchanged (full
formatted output shown). -/
theorem upstream_push_both_branches :
    (upstreamDemoResult.map
        (fun q => findCTE q "sales_transactions" >>= whereSqlOf) =
      .ok (some "\"transaction_date\" >= current_date - interval '90 days' and \"amount\" > 100")) ∧
    (upstreamDemoResult.map
        (fun q => findCTE q "support_transactions" >>= whereSqlOf) =
      .ok (some "\"support_date\" >= current_date - interval '90 days' and \"fee\" > 100")) ∧
    upstreamDemoResult.map (Formatter.format genericDialect) =
      .ok "with \"sales_transactions\" as ( select \"transaction_id\", \"customer_id\", \"amount\", \"transaction_date\", 'sales' as \"source\" from \"sales_schema\" . \"transactions\" where \"transaction_date\" >= current_date - interval '90 days' and \"amount\" > 100 ), \"support_transactions\" as ( select \"support_id\" as \"transaction_id\", \"user_id\" as \"customer_id\", \"fee\" as \"amount\", \"support_date\" as \"transaction_date\", 'support' as \"source\" from \"support_schema\" . \"support_fees\" where \"support_date\" >= current_date - interval '90 days' and \"fee\" > 100 ) select * from ( select * from \"sales_transactions\" union all select * from \"support_transactions\" ) as \"d\" order by \"transaction_date\" desc" := by
  exact ⟨rfl, rfl, rfl⟩

/-! ## Claim C7: all-omitted criteria are inert -/

theorem resolveCriteria_omitted (sel : List (String × Expr)) :
    ∀ c : Criteria, (∀ kv ∈ c, kv.2 = none) → resolveCriteria sel c = .ok []
  | [], _ => rfl
  | (k, v) :: rest, h => by
      have hv : v = none := h (k, v) (List.mem_cons_self _ _)
      subst hv
      show resolveCriteria sel rest = .ok []
      exact resolveCriteria_omitted sel rest
        (fun kv hkv => h kv (List.mem_cons_of_mem _ hkv))

/-- The statement tree of `SELECT id, name FROM users WHERE active = true`. -/
def usersBase : SimpleSelect :=
  .mk [.expr (.col none "id") none, .expr (.col none "name") none]
    (some (.mk (.table ⟨none, "users", none⟩) []))
    (some (.bin .opEq (.col none "active") (.lit (.bool true)))) [] [] none

/-- C7: injecting a criteria object in which every key maps to `undefined`
leaves the statement unchanged — hence the formatted SQL has no added
predicate and the extracted parameter collection is unchanged. -/
theorem criteria_all_omitted_inert (res : Option TableColumnResolver)
    (c : Criteria) (s : SimpleSelect) (h : ∀ kv ∈ c, kv.2 = none) :
    SqlParamInjector.inject res (.inr s) c = .ok s ∧
      (SqlParamInjector.inject res (.inr s) c).map
          (fun s' => SqlFormatter.format genericDialect (.simple s')) =
        .ok (SqlFormatter.format genericDialect (.simple s)) := by
  have hr := resolveCriteria_omitted
    (SelectableColumnCollector.collect res s) c h
  refine ⟨?_, ?_⟩ <;>
    simp [SqlParamInjector.inject, injectCriteriaOp, hr, List.foldl, Except.map]

theorem criteria_all_omitted_inert_witness :
    SqlParamInjector.inject none (.inr usersBase)
        [("title", none), ("status", none)] = .ok usersBase ∧
      (SqlParamInjector.inject none (.inr usersBase)
          [("title", none), ("status", none)]).map
          (fun s' => SqlFormatter.format genericDialect (.simple s')) =
        .ok (SqlFormatter.format genericDialect (.simple usersBase)) :=
  criteria_all_omitted_inert none [("title", none), ("status", none)]
    usersBase (by decide)

/-! ## Claim C10: the two `inject` entry points agree -/

/-- C10: for a SELECT text that parses to a plain select, `inject` on the
raw text equals `inject` on the parsed statement, hence identical formatted
SQL and parameters. -/
theorem inject_text_agrees (res : Option TableColumnResolver) (txt : String)
    (c : Criteria) (s : SimpleSelect)
    (h : SelectQueryParser.parse txt = .ok (.simple s)) :
    SqlParamInjector.inject res (.inl txt) c =
        SqlParamInjector.inject res (.inr s) c ∧
      (SqlParamInjector.inject res (.inl txt) c).map
          (fun s' => SqlFormatter.format genericDialect (.simple s')) =
        (SqlParamInjector.inject res (.inr s) c).map
          (fun s' => SqlFormatter.format genericDialect (.simple s')) := by
  have h1 : SqlParamInjector.inject res (.inl txt) c =
      SqlParamInjector.inject res (.inr s) c := by
    simp [SqlParamInjector.inject, h]
  exact ⟨h1, by rw [h1]⟩

theorem inject_text_agrees_witness :
    SqlParamInjector.inject none (.inl scenarioASql) scenarioACriteria =
        SqlParamInjector.inject none (.inr usersBase) scenarioACriteria ∧
      (SqlParamInjector.inject none (.inl scenarioASql) scenarioACriteria).map
          (fun s' => SqlFormatter.format genericDialect (.simple s')) =
        (SqlParamInjector.inject none (.inr usersBase) scenarioACriteria).map
          (fun s' => SqlFormatter.format genericDialect (.simple s')) :=
  inject_text_agrees none scenarioASql scenarioACriteria usersBase (by rfl)

/-! ## Claim C6: stage atomicity -/

/-- The statement tree of `SELECT u.* FROM users u`. -/
def wildcardBase : SimpleSelect :=
  .mk [.wildcard (some "u")]
    (some (.mk (.table ⟨none, "users", some "u"⟩) [])) none [] [] none

/-- A mapping whose nested entity names a missing owner. -/
def badMapping : JsonMapping :=
  { rootName := "r"
    rootEntity := { id := "r", name := "R", columns := [] }
    nestedEntities :=
      [{ id := "x", name := "X", parentId := "missing", propertyName := "x",
         relType := .object, columns := [] }]
    useJsonb := true
    resultFormat := .array }

/-- C6: every modelled mutating stage is atomic — when the operation
reports one of the taxonomy errors, the returned tree is exactly the
pre-call tree (validation precedes mutation), so the caller may retry. -/
theorem stage_atomicity (res : Option TableColumnResolver) (kind : JoinKind)
    (tn al : String) (cols : List String) (s₁ s₂ s₄ : SimpleSelect)
    (c : Criteria) (colName : String) (f : Expr → Expr) (q : Query)
    (m : JsonMapping) :
    ((injectJoinOp res kind tn al cols s₁).2.isSome = true →
      (injectJoinOp res kind tn al cols s₁).1 = s₁) ∧
    ((injectCriteriaOp res c s₂).2.isSome = true →
      (injectCriteriaOp res c s₂).1 = s₂) ∧
    ((appendWhereExprOp colName f q).2.isSome = true →
      (appendWhereExprOp colName f q).1 = q) ∧
    ((buildJsonOp m s₄).2.isSome = true →
      (buildJsonOp m s₄).1 = .simple s₄) := by
  refine ⟨?_, ?_, ?_, ?_⟩
  · cases hr : resolveJoinColumns res s₁ cols with
    | error missing => simp [injectJoinOp, hr]
    | ok pairs =>
        cases hf : s₁.fromCl? with
        | none => simp [injectJoinOp, hr, hf]
        | some fc => simp [injectJoinOp, hr, hf]
  · cases hr : resolveCriteria (SelectableColumnCollector.collect res s₂) c with
    | error e => simp [injectCriteriaOp, hr]
    | ok preds => simp [injectCriteriaOp, hr]
  · by_cases hz : (pushQ colName f q).2 = 0 <;> simp [appendWhereExprOp, hz]
  · by_cases hv : validateMapping m = true <;> simp [buildJsonOp, hv]

theorem stage_atomicity_witness :
    (injectJoinOp none .left "orders" "o" ["user_id"] wildcardBase).1 =
        wildcardBase ∧
      (injectCriteriaOp none [("missing_col", some (.eqv (.int 1)))] usersBase).1 =
        usersBase ∧
      (appendWhereExprOp "nope" (fun e => e) (.simple usersBase)).1 =
        .simple usersBase ∧
      (buildJsonOp badMapping usersBase).1 = .simple usersBase :=
  ⟨(stage_atomicity none .left "orders" "o" ["user_id"] wildcardBase usersBase
      usersBase [] "nope" (fun e => e) (.simple usersBase) badMapping).1
      (by decide),
   (stage_atomicity none .left "orders" "o" ["user_id"] wildcardBase usersBase
      usersBase [("missing_col", some (.eqv (.int 1)))] "nope" (fun e => e)
      (.simple usersBase) badMapping).2.1 (by decide),
   (stage_atomicity none .left "orders" "o" ["user_id"] wildcardBase usersBase
      usersBase [] "nope" (fun e => e) (.simple usersBase) badMapping).2.2.1
      (by decide),
   (stage_atomicity none .left "orders" "o" ["user_id"] wildcardBase usersBase
      usersBase [] "nope" (fun e => e) (.simple usersBase) badMapping).2.2.2
      (by decide)⟩

/-! ## Claim C4: the object-entity staging expression -/

theorem eval_isnull_chain (row : String → SqlVal) :
    ∀ cols : List (String × String),
      evalExpr row
          (andChain (cols.map (fun c => .isNull (.col none c.2) false))) =
        .vbool (cols.all (fun c => isNullV (row c.2)))
  | [] => by simp [andChain, evalExpr]
  | [c] => by simp [andChain, evalExpr]
  | c :: c' :: cs => by
      have ih := eval_isnull_chain row (c' :: cs)
      simp only [List.map_cons, andChain, evalExpr] at ih ⊢
      rw [ih]
      simp [evalExpr]

theorem eval_obj_args (row : String → SqlVal) :
    ∀ cols : List (String × String),
      mkObjFields (evalArgs row (objArgs cols)) =
        cols.map (fun c => (c.1, row c.2))
  | [] => rfl
  | (k, c) :: rest => by
      simp [objArgs, evalArgs, evalExpr, mkObjFields, eval_obj_args row rest]

/-- C4: in the JSON builder's staging CTE for a nested one-to-one (object)
entity, the emitted expression is the null-guarded CASE
`objectEntityExpr`; it evaluates to NULL on a row where every mapped
column is NULL — not to a JSON object of nulls — and to the JSON object
built from the mapped columns otherwise. -/
theorem object_entity_null_guard (m : JsonMapping) (s : SimpleSelect)
    (e : NestedEntity) (row : String → SqlVal)
    (hv : validateMapping m = true) (he : e ∈ m.nestedEntities)
    (ho : e.relType = .object) :
    (∃ stage : SimpleSelect,
        findCTE ((buildJsonOp m s).1) "cte_object_depth_1" =
            some (.simple stage) ∧
          SelectItem.expr (objectEntityExpr m.useJsonb e.columns)
            (some (e.propertyName ++ "_json")) ∈ stage.items) ∧
      evalExpr row (objectEntityExpr m.useJsonb e.columns) =
        (if e.columns.all (fun c => isNullV (row c.2)) then .vnull
         else .vobj (e.columns.map (fun c => (c.1, row c.2)))) := by
  constructor
  · have hmem : e ∈ m.nestedEntities.filter (fun x => x.relType = .object) :=
      List.mem_filter.mpr ⟨he, by simp [ho]⟩
    have hne : (m.nestedEntities.filter (fun x => x.relType = .object)).isEmpty = false := by
      cases hfe : (m.nestedEntities.filter (fun x => x.relType = .object)) with
      | nil => rw [hfe] at hmem; simp at hmem
      | cons a as => simp [hfe]
    refine ⟨selectFromCTE (.wildcard none :: objectStageItems m) "origin_query" [] none, ?_, ?_⟩
    · simp [buildJsonOp, hv, buildJsonQuery, hne, findCTE, List.find?,
        CTE.name, CTE.query]
    · show _ ∈ SimpleSelect.items _
      simp only [selectFromCTE, SimpleSelect.items]
      refine List.mem_cons_of_mem _ ?_
      exact List.mem_map.mpr ⟨e, hmem, rfl⟩
  · simp only [objectEntityExpr, evalExpr, evalCase, eval_isnull_chain row e.columns]
    by_cases hall : e.columns.all (fun c => isNullV (row c.2)) <;>
      by_cases hj : m.useJsonb <;>
        simp [hall, hj, jsonObjFn, evalExpr, eval_obj_args row e.columns]

/-- The category entity of the todo schema's JSON mapping
(schema-definitions.ts: `belongsTo category`, columns keyed by original
name mapping to their json aliases). -/
def categoryEntity : NestedEntity :=
  { id := "category", name := "Category", parentId := "todo",
    propertyName := "category", relType := .object,
    columns := [("category_id", "category_id"), ("name", "category_name"),
      ("description", "category_description"), ("color", "category_color"),
      ("created_at", "category_created_at")] }

/-- The comments entity (`hasMany todo_comment`). -/
def commentsEntity : NestedEntity :=
  { id := "todo_comment", name := "TodoComment", parentId := "todo",
    propertyName := "comments", relType := .array,
    columns := [("todo_comment_id", "todo_comment_id"),
      ("todo_id", "comment_todo_id"), ("content", "comment_content"),
      ("author_name", "comment_author_name"),
      ("created_at", "comment_created_at")] }

/-- `createJsonMapping('todo')` from the unified schema definitions. -/
def todoMapping : JsonMapping :=
  { rootName := "todo"
    rootEntity :=
      { id := "todo", name := "Todo",
        columns := [("todo_id", "todo_id"), ("title", "title"),
          ("description", "description"), ("status", "status"),
          ("priority", "priority"), ("category_id", "category_id"),
          ("created_at", "todo_created_at"), ("updated_at", "todo_updated_at")] }
    nestedEntities := [categoryEntity, commentsEntity]
    useJsonb := true
    resultFormat := .single }

theorem object_entity_null_guard_witness :
    (∃ stage : SimpleSelect,
        findCTE ((buildJsonOp todoMapping usersBase).1) "cte_object_depth_1" =
            some (.simple stage) ∧
          SelectItem.expr (objectEntityExpr todoMapping.useJsonb categoryEntity.columns)
            (some (categoryEntity.propertyName ++ "_json")) ∈ stage.items) ∧
      evalExpr (fun _ => SqlVal.vnull)
          (objectEntityExpr todoMapping.useJsonb categoryEntity.columns) =
        (if categoryEntity.columns.all
            (fun c => isNullV ((fun _ => SqlVal.vnull) c.2)) then .vnull
         else .vobj (categoryEntity.columns.map
            (fun c => (c.1, (fun _ => SqlVal.vnull) c.2)))) :=
  object_entity_null_guard todoMapping usersBase categoryEntity
    (fun _ => SqlVal.vnull) (by decide) (by decide) (by decide)

/-! ## Claim C9: join injection never removes a selectable column -/

theorem sourcesColumns_append (res : Option TableColumnResolver) :
    ∀ a b : List Source,
      sourcesColumns res (a ++ b) =
        sourcesColumns res a ++ sourcesColumns res b
  | [], _ => rfl
  | s :: a, b => by
      simp [sourcesColumns, sourcesColumns_append res a b]

theorem expandWildcard_extend (res : Option TableColumnResolver)
    (srcs : List Source) (x : Source) (qual : Option String) :
    expandWildcard res (srcs ++ [x]) qual =
      expandWildcard res srcs qual ++
        expandWildcard res [x] qual := by
  cases qual with
  | none => simp [expandWildcard, sourcesColumns_append]
  | some q =>
      simp [expandWildcard, List.filter_append, sourcesColumns_append]

theorem itemColumns_extend (res : Option TableColumnResolver)
    (srcs : List Source) (x : Source) (n : String) :
    ∀ items : List SelectItem,
      n ∈ (itemColumns res srcs items).map Prod.fst →
        n ∈ (itemColumns res (srcs ++ [x]) items).map Prod.fst
  | [], h => by simp [itemColumns] at h
  | .expr e (some a) :: rest, h => by
      simp only [itemColumns, List.map_cons, List.mem_cons] at h ⊢
      exact h.imp id (itemColumns_extend res srcs x n rest)
  | .expr (.col q cn) none :: rest, h => by
      simp only [itemColumns, List.map_cons, List.mem_cons] at h ⊢
      exact h.imp id (itemColumns_extend res srcs x n rest)
  | .wildcard qual :: rest, h => by
      simp only [itemColumns, expandWildcard_extend res srcs x qual,
        List.map_append, List.mem_append] at h ⊢
      rcases h with h | h
      · exact Or.inl (Or.inl h)
      · exact Or.inr (itemColumns_extend res srcs x n rest h)
  | .expr (.lit l) none :: rest, h =>
      itemColumns_extend res srcs x n rest (by simpa [itemColumns] using h)
  | .expr (.param p v) none :: rest, h =>
      itemColumns_extend res srcs x n rest (by simpa [itemColumns] using h)
  | .expr (.bin op a b) none :: rest, h =>
      itemColumns_extend res srcs x n rest (by simpa [itemColumns] using h)
  | .expr (.isNull e ng) none :: rest, h =>
      itemColumns_extend res srcs x n rest (by simpa [itemColumns] using h)
  | .expr (.caseWhen bs e?) none :: rest, h =>
      itemColumns_extend res srcs x n rest (by simpa [itemColumns] using h)
  | .expr (.func fn args) none :: rest, h =>
      itemColumns_extend res srcs x n rest (by simpa [itemColumns] using h)

theorem mem_dedupColsGo (n : String) :
    ∀ (l : List (String × Expr)) (seen : List String), n ∉ seen →
      (n ∈ (dedupColsGo seen l).map Prod.fst ↔ n ∈ l.map Prod.fst)
  | [], _, _ => by simp [dedupColsGo]
  | (m, e) :: rest, seen, hn => by
      by_cases hm : m ∈ seen
      · have hnm : n ≠ m := fun hh => hn (hh ▸ hm)
        simp [dedupColsGo, hm, hnm, mem_dedupColsGo n rest seen hn]
      · by_cases hnm : n = m
        · subst hnm
          simp [dedupColsGo, hm]
        · have hn' : n ∉ m :: seen := by
            simp [hnm, hn]
          simp [dedupColsGo, hm, hnm, mem_dedupColsGo n rest (m :: seen) hn']

/-- C9: whenever `injectJoin` succeeds, each column name selectable before
the join is still selectable afterwards. -/
theorem injectJoin_collect_superset (res : Option TableColumnResolver)
    (kind : JoinKind) (tn al : String) (cols : List String)
    (s s' : SimpleSelect) (h : injectJoin res kind tn al cols s = .ok s') :
    ((SelectableColumnCollector.collect res s).map Prod.fst).all
      (fun n =>
        n ∈ (SelectableColumnCollector.collect res s').map Prod.fst) = true := by
  rw [List.all_eq_true]
  intro n hn
  rw [decide_eq_true_eq]
  -- extract the success shape of the injection
  unfold injectJoin injectJoinOp at h
  rcases hr : resolveJoinColumns res s cols with missing | pairs <;> rw [hr] at h
  · simp at h
  obtain ⟨items, f?, w, g, o, l⟩ := s
  cases f? with
  | none => simp [SimpleSelect.fromCl?] at h
  | some fc =>
      obtain ⟨src, js⟩ := fc
      simp only [SimpleSelect.fromCl?, attachJoin] at h
      have hs' : s' = SimpleSelect.mk items
          (some (.mk src
            (js ++ [.mk kind (.table ⟨none, tn, some al⟩) (joinOnCond al pairs)])))
          w g o l := by
        cases h' : h
        rfl
      subst hs'
      -- source lists before and after
      have hsrcs : sourcesOf (SimpleSelect.mk items
          (some (.mk src
            (js ++ [.mk kind (.table ⟨none, tn, some al⟩) (joinOnCond al pairs)])))
          w g o l) =
          sourcesOf (SimpleSelect.mk items (some (.mk src js)) w g o l) ++
            [.table ⟨none, tn, some al⟩] := by
        simp [sourcesOf, SimpleSelect.fromCl?, JoinCl.src]
      set srcsOld := sourcesOf (SimpleSelect.mk items (some (.mk src js)) w g o l) with hold
      set newSrc : Source := .table ⟨none, tn, some al⟩ with hnew
      unfold SelectableColumnCollector.collect dedupCols at hn ⊢
      rw [mem_dedupColsGo n _ [] (by simp)] at hn
      rw [mem_dedupColsGo n _ [] (by simp)]
      simp only [SimpleSelect.items] at hn ⊢
      rw [hsrcs]
      simp only [List.map_append, List.mem_append] at hn ⊢
      rcases hn with hn | hn
      · exact Or.inl (itemColumns_extend res srcsOld newSrc n items hn)
      · rw [sourcesColumns_append]
        simp only [List.map_append, List.mem_append]
        exact Or.inr (Or.inl hn)

/-- The statement tree of `SELECT u.user_id, u.name FROM users u`. -/
def usersB : SimpleSelect :=
  .mk [.expr (.col (some "u") "user_id") none,
      .expr (.col (some "u") "name") none]
    (some (.mk (.table ⟨none, "users", some "u"⟩) [])) none [] [] none

/-- `usersB` after `leftJoinRaw('orders', 'o', ['user_id'])`. -/
def usersBJoined : SimpleSelect :=
  .mk [.expr (.col (some "u") "user_id") none,
      .expr (.col (some "u") "name") none]
    (some (.mk (.table ⟨none, "users", some "u"⟩)
      [.mk .left (.table ⟨none, "orders", some "o"⟩)
        (.bin .opEq (.col (some "u") "user_id") (.col (some "o") "user_id"))]))
    none [] [] none

theorem injectJoin_collect_superset_witness :
    injectJoin none .left "orders" "o" ["user_id"] usersB = .ok usersBJoined ∧
      ((SelectableColumnCollector.collect none usersB).map Prod.fst).all
        (fun n =>
          n ∈ (SelectableColumnCollector.collect none usersBJoined).map
            Prod.fst) = true :=
  ⟨rfl, injectJoin_collect_superset none .left "orders" "o" ["user_id"]
    usersB usersBJoined rfl⟩

/-! ## Claim C8: lexical well-formedness

`wfQuery` characterises the trees whose formatted text re-lexes to the
emitted token stream: identifiers contain no double quote, string/interval
literal bodies contain no single quote, numeric literal texts are numeric,
parameter names are non-empty word characters and carry no bound value,
and projection/WITH lists are non-empty (spec §3 invariants). -/

def wfIdent (s : String) : Bool := s.data.all (fun c => c ≠ '"')

def wfNum (s : String) : Bool :=
  match s.data with
  | [] => false
  | c :: cs => isDigitChar c && cs.all isNumChar

def wfStrBody (s : String) : Bool := s.data.all (fun c => c ≠ '\'')

def wfParamName (s : String) : Bool :=
  !s.data.isEmpty && s.data.all isWordChar

def wfIdentOpt : Option String → Bool
  | none => true
  | some s => wfIdent s

def wfLit : Lit → Bool
  | .num s => wfNum s
  | .str s => wfStrBody s
  | .interval s => wfStrBody s
  | _ => true

mutual
def wfExpr : Expr → Bool
  | .lit l => wfLit l
  | .col q n => wfIdentOpt q && wfIdent n
  | .param n v => wfParamName n && v.isNone
  | .bin _ l r => wfExpr l && wfExpr r
  | .isNull e _ => wfExpr e
  | .caseWhen bs e? => wfBranches bs && wfExprOpt e?
  | .func n args => wfIdent n && wfExprs args

def wfExprs : List Expr → Bool
  | [] => true
  | e :: es => wfExpr e && wfExprs es

def wfBranches : List (Expr × Expr) → Bool
  | [] => true
  | (c, t) :: bs => wfExpr c && wfExpr t && wfBranches bs

def wfExprOpt : Option Expr → Bool
  | none => true
  | some e => wfExpr e
end

def wfItem : SelectItem → Bool
  | .expr e a? => wfExpr e && wfIdentOpt a?
  | .wildcard q => wfIdentOpt q

def wfItems : List SelectItem → Bool
  | [] => true
  | i :: is_ => wfItem i && wfItems is_

def wfOrder : List (Expr × OrderDir) → Bool
  | [] => true
  | (e, _) :: os => wfExpr e && wfOrder os

def wfTableRef (t : TableRef) : Bool :=
  wfIdentOpt t.schema? && wfIdent t.name && wfIdentOpt t.alias?

mutual
def wfSource : Source → Bool
  | .table t => wfTableRef t
  | .sub q al => wfQuery q && wfIdent al

def wfJoin : JoinCl → Bool
  | .mk _ src cond => wfSource src && wfExpr cond

def wfJoins : List JoinCl → Bool
  | [] => true
  | j :: js => wfJoin j && wfJoins js

def wfFromOpt : Option FromCl → Bool
  | none => true
  | some (.mk src js) => wfSource src && wfJoins js

def wfSimple : SimpleSelect → Bool
  | .mk items f? w? g o l? =>
      !items.isEmpty && wfItems items && wfFromOpt f? && wfExprOpt w? &&
        wfExprs g && wfOrder o &&
        (match l? with | none => true | some n => wfNum n)

def wfCTEs : List CTE → Bool
  | [] => true
  | .mk n q :: cs => wfIdent n && wfQuery q && wfCTEs cs

def wfQuery : Query → Bool
  | .simple s => wfSimple s
  | .bin l _ r => wfQuery l && wfQuery r
  | .withq cs b => !cs.isEmpty && wfCTEs cs && wfQuery b
end

/-- A well-formed token (its rendering re-lexes to itself). -/
def wfTok : Tok → Bool
  | .ident s => wfIdent s
  | .num s => wfNum s
  | .str s => wfStrBody s
  | .param n => wfParamName n
  | _ => true

def wfToks : List Tok → Bool
  | [] => true
  | t :: ts => wfTok t && wfToks ts

/-! ## Claim C8: continuation-token predicates

`contX t` holds when token `t` would extend a construct of level `X`, so
the round-trip lemmas require the trailing input not to start with it. -/

def contP : Tok → Bool
  | .dot => true
  | .lparen => true
  | _ => false

def contAdd (t : Tok) : Bool :=
  contP t || t = .tminus

def contCmp (t : Tok) : Bool :=
  contAdd t || t = .teq || t = .tlt || t = .tle || t = .tgt || t = .tge ||
    t = .kw .klike || t = .kw .kis

def contAnd (t : Tok) : Bool :=
  contCmp t || t = .kw .kand

def contOr (t : Tok) : Bool :=
  contAnd t || t = .kw .kor

/-- Tokens that would extend a select item (an alias grab or another
item). -/
def contItem (t : Tok) : Bool :=
  contOr t || t = .comma || t = .kw .kas ||
    (match t with | .ident _ => true | _ => false)

/-- Tokens that would extend some clause of a plain select. -/
def contSimple (t : Tok) : Bool :=
  contItem t || t = .kw .kfrom || t = .kw .kwhere || t = .kw .kgroup ||
    t = .kw .korder || t = .kw .klimit || t = .kw .kasc || t = .kw .kdesc ||
    t = .star

/-- Tokens that would extend a query (a clause or a set operator). -/
def contChain (t : Tok) : Bool :=
  contSimple t || t = .kw .kunion || t = .kw .kintersect || t = .kw .kexcept

/-- The trailing input does not start with a continuation token. -/
def noCont (f : Tok → Bool) : List Tok → Prop
  | [] => True
  | t :: _ => f t = false

/-! ## Claim C8: lexer round trip -/

/-- The rendered text after a token starts with a separator (or ends). -/
def headSep : List Char → Bool
  | [] => true
  | c :: _ => c = ' ' || c = ','

/-- The token a lexed word denotes. -/
def wordTok (w : String) : Tok :=
  match kwOfString (lowerString w) with
  | some k => .kw k
  | none => .ident w

theorem takeWhile_all_append (p : Char → Bool) (xs rest : List Char)
    (hx : xs.all p = true) :
    (xs ++ rest).takeWhile p = xs ++ rest.takeWhile p := by
  induction xs with
  | nil => simp
  | cons c cs ih =>
      simp only [List.all_cons, Bool.and_eq_true] at hx
      simp [List.takeWhile_cons, hx.1, ih hx.2]

theorem dropWhile_all_append (p : Char → Bool) (xs rest : List Char)
    (hx : xs.all p = true) :
    (xs ++ rest).dropWhile p = rest.dropWhile p := by
  induction xs with
  | nil => simp
  | cons c cs ih =>
      simp only [List.all_cons, Bool.and_eq_true] at hx
      simp [List.dropWhile_cons, hx.1, ih hx.2]

theorem takeWhile_sep (p : Char → Bool) (hs : p ' ' = false)
    (hc : p ',' = false) (rest : List Char) (h : headSep rest = true) :
    rest.takeWhile p = [] := by
  cases rest with
  | nil => rfl
  | cons c cs =>
      have : c = ' ' ∨ c = ',' := by simpa [headSep] using h
      rcases this with rfl | rfl <;> simp [List.takeWhile_cons, hs, hc]

theorem dropWhile_sep (p : Char → Bool) (hs : p ' ' = false)
    (hc : p ',' = false) (rest : List Char) (h : headSep rest = true) :
    rest.dropWhile p = rest := by
  cases rest with
  | nil => rfl
  | cons c cs =>
      have : c = ' ' ∨ c = ',' := by simpa [headSep] using h
      rcases this with rfl | rfl <;> simp [List.dropWhile_cons, hs, hc]


theorem lexOne_wordtok (c : Char) (cs rest : List Char)
    (h1 : isWordStart c = true) (hcs : cs.all isWordChar = true)
    (hsep : headSep rest = true) :
    lexOne ((c :: cs) ++ rest) = some (wordTok (String.mk (c :: cs)), rest) := by
  have ht : (cs ++ rest).takeWhile isWordChar = cs := by
    rw [takeWhile_all_append isWordChar cs rest hcs,
      takeWhile_sep isWordChar (by decide) (by decide) rest hsep,
      List.append_nil]
  have hd : (cs ++ rest).dropWhile isWordChar = rest := by
    rw [dropWhile_all_append isWordChar cs rest hcs,
      dropWhile_sep isWordChar (by decide) (by decide) rest hsep]
  rw [List.cons_append, lexOne.eq_def]
  split
  · rename_i heq
    exact absurd heq (List.cons_ne_nil _ _)
  · rename_i heq
    injection heq with e₁ e₂
    subst e₁
    exact absurd h1 (by decide)
  · rename_i heq
    injection heq with e₁ e₂
    subst e₁
    exact absurd h1 (by decide)
  · rename_i heq
    injection heq with e₁ e₂
    subst e₁
    exact absurd h1 (by decide)
  · rename_i heq
    injection heq with e₁ e₂
    subst e₁
    exact absurd h1 (by decide)
  · rename_i heq
    injection heq with e₁ e₂
    subst e₁
    exact absurd h1 (by decide)
  · rename_i heq
    injection heq with e₁ e₂
    subst e₁
    exact absurd h1 (by decide)
  · rename_i heq
    injection heq with e₁ e₂
    subst e₁
    exact absurd h1 (by decide)
  · rename_i heq
    injection heq with e₁ e₂
    subst e₁
    exact absurd h1 (by decide)
  · rename_i heq
    injection heq with e₁ e₂
    subst e₁
    exact absurd h1 (by decide)
  · rename_i heq
    injection heq with e₁ e₂
    subst e₁
    exact absurd h1 (by decide)
  · rename_i heq
    injection heq with e₁ e₂
    subst e₁
    exact absurd h1 (by decide)
  · rename_i heq
    injection heq with e₁ e₂
    subst e₁
    exact absurd h1 (by decide)
  · rename_i heq
    injection heq with e₁ e₂
    subst e₁
    exact absurd h1 (by decide)
  · rename_i heq
    injection heq with e₁ e₂
    subst e₁
    exact absurd h1 (by decide)
  · rename_i heq
    injection heq with e₁ e₂
    subst e₁
    exact absurd h1 (by decide)
  · rename_i heq
    injection heq with e₁ e₂
    subst e₁
    exact absurd h1 (by decide)
  · rename_i heq
    injection heq with e₁ e₂
    subst e₁
    exact absurd h1 (by decide)
  · rename_i c' rest' heq
    injection heq with e₁ e₂
    subst e₁
    subst e₂
    rw [if_pos h1]
    simp only [ht, hd]
    cases hk : kwOfString (lowerString (String.mk (c :: cs))) <;>
      simp [wordTok, hk]

theorem lexOne_kw (k : Kw) (idx : Nat) (rest : List Char)
    (hsep : headSep rest = true) :
    lexOne (tokChars genericDialect idx (.kw k) ++ rest) = some (.kw k, rest) := by
  cases k <;>
    exact (lexOne_wordtok _ _ rest (by decide) (by decide) hsep).trans
      (congrArg (fun t => some (t, rest)) (by decide))

theorem lexOne_identtok (s : String) (idx : Nat) (rest : List Char)
    (hw : wfIdent s = true) :
    lexOne (tokChars genericDialect idx (.ident s) ++ rest) =
      some (.ident s, rest) := by
  have hsh : tokChars genericDialect idx (.ident s) ++ rest =
      '"' :: (s.data ++ ('"' :: rest)) := by
    simp [tokChars, genericDialect, List.append_assoc]
  rw [hsh]
  simp only [lexOne]
  rw [dropWhile_all_append _ s.data _ hw, takeWhile_all_append _ s.data _ hw]
  simp [List.dropWhile_cons, List.takeWhile_cons]

theorem lexOne_strtok (s : String) (idx : Nat) (rest : List Char)
    (hw : wfStrBody s = true) :
    lexOne (tokChars genericDialect idx (.str s) ++ rest) =
      some (.str s, rest) := by
  have hsh : tokChars genericDialect idx (.str s) ++ rest =
      '\'' :: (s.data ++ ('\'' :: rest)) := by
    simp [tokChars, List.append_assoc]
  rw [hsh]
  simp only [lexOne]
  rw [dropWhile_all_append _ s.data _ hw, takeWhile_all_append _ s.data _ hw]
  simp [List.dropWhile_cons, List.takeWhile_cons]

theorem isWordStart_of_digit (c : Char) (h : isDigitChar c = true) :
    isWordStart c = false := by
  simp only [isDigitChar, Bool.and_eq_true, decide_eq_true_eq] at h
  simp only [isWordStart, Bool.or_eq_false_iff, Bool.and_eq_false_iff]
  refine ⟨⟨?_, ?_⟩, ?_⟩ <;> simp only [decide_eq_false_iff_not] <;> omega

theorem lexOne_paramtok (n : String) (idx : Nat) (rest : List Char)
    (hw : wfParamName n = true) (hsep : headSep rest = true) :
    lexOne (tokChars genericDialect idx (.param n) ++ rest) =
      some (.param n, rest) := by
  have hne : n.data.isEmpty = false := by
    simp only [wfParamName, Bool.and_eq_true, Bool.not_eq_true'] at hw
    exact hw.1
  have hall : n.data.all isWordChar = true := by
    simp only [wfParamName, Bool.and_eq_true] at hw
    exact hw.2
  have hsh : tokChars genericDialect idx (.param n) ++ rest =
      ':' :: (n.data ++ rest) := by
    simp [tokChars, genericDialect]
  rw [hsh]
  simp only [lexOne]
  rw [takeWhile_all_append _ n.data _ hall,
    takeWhile_sep isWordChar (by decide) (by decide) rest hsep,
    dropWhile_all_append _ n.data _ hall,
    dropWhile_sep isWordChar (by decide) (by decide) rest hsep,
    List.append_nil]
  rw [hne]
  rfl

theorem lexOne_numtok (s : String) (idx : Nat) (rest : List Char)
    (hw : wfNum s = true) (hsep : headSep rest = true) :
    lexOne (tokChars genericDialect idx (.num s) ++ rest) =
      some (.num s, rest) := by
  obtain ⟨c, cs, hd⟩ : ∃ c cs, s.data = c :: cs := by
    cases hsd : s.data with
    | nil => simp [wfNum, hsd] at hw
    | cons a as => exact ⟨a, as, rfl⟩
  have hdig : isDigitChar c = true := by
    simp only [wfNum, hd, Bool.and_eq_true] at hw
    exact hw.1
  have hnums : cs.all isNumChar = true := by
    simp only [wfNum, hd, Bool.and_eq_true] at hw
    exact hw.2
  have ht : (cs ++ rest).takeWhile isNumChar = cs := by
    rw [takeWhile_all_append isNumChar cs rest hnums,
      takeWhile_sep isNumChar (by decide) (by decide) rest hsep,
      List.append_nil]
  have hdr : (cs ++ rest).dropWhile isNumChar = rest := by
    rw [dropWhile_all_append isNumChar cs rest hnums,
      dropWhile_sep isNumChar (by decide) (by decide) rest hsep]
  have hsh : tokChars genericDialect idx (.num s) ++ rest = c :: (cs ++ rest) := by
    simp [tokChars, hd]
  rw [hsh, lexOne.eq_def]
  split
  · rename_i heq
    exact absurd heq (List.cons_ne_nil _ _)
  · rename_i heq
    injection heq with e₁ e₂
    subst e₁
    exact absurd hdig (by decide)
  · rename_i heq
    injection heq with e₁ e₂
    subst e₁
    exact absurd hdig (by decide)
  · rename_i heq
    injection heq with e₁ e₂
    subst e₁
    exact absurd hdig (by decide)
  · rename_i heq
    injection heq with e₁ e₂
    subst e₁
    exact absurd hdig (by decide)
  · rename_i heq
    injection heq with e₁ e₂
    subst e₁
    exact absurd hdig (by decide)
  · rename_i heq
    injection heq with e₁ e₂
    subst e₁
    exact absurd hdig (by decide)
  · rename_i heq
    injection heq with e₁ e₂
    subst e₁
    exact absurd hdig (by decide)
  · rename_i heq
    injection heq with e₁ e₂
    subst e₁
    exact absurd hdig (by decide)
  · rename_i heq
    injection heq with e₁ e₂
    subst e₁
    exact absurd hdig (by decide)
  · rename_i heq
    injection heq with e₁ e₂
    subst e₁
    exact absurd hdig (by decide)
  · rename_i heq
    injection heq with e₁ e₂
    subst e₁
    exact absurd hdig (by decide)
  · rename_i heq
    injection heq with e₁ e₂
    subst e₁
    exact absurd hdig (by decide)
  · rename_i heq
    injection heq with e₁ e₂
    subst e₁
    exact absurd hdig (by decide)
  · rename_i heq
    injection heq with e₁ e₂
    subst e₁
    exact absurd hdig (by decide)
  · rename_i heq
    injection heq with e₁ e₂
    subst e₁
    exact absurd hdig (by decide)
  · rename_i heq
    injection heq with e₁ e₂
    subst e₁
    exact absurd hdig (by decide)
  · rename_i heq
    injection heq with e₁ e₂
    subst e₁
    exact absurd hdig (by decide)
  · rename_i c' rest' heq
    injection heq with e₁ e₂
    subst e₁
    subst e₂
    rw [isWordStart_of_digit c hdig, if_neg (by simp), if_pos hdig, ht, hdr]
    have : String.mk (c :: cs) = s := by
      rw [← hd]
    rw [this]

theorem isWsChar_of_digit (c : Char) (h : isDigitChar c = true) :
    isWsChar c = false := by
  simp only [isDigitChar, Bool.and_eq_true, decide_eq_true_eq] at h
  simp only [isWsChar, Bool.or_eq_false_iff]
  refine ⟨⟨⟨?_, ?_⟩, ?_⟩, ?_⟩ <;> simp only [decide_eq_false_iff_not] <;> omega

theorem isWsChar_of_wordStart (c : Char) (h : isWordStart c = true) :
    isWsChar c = false := by
  simp only [isWordStart, Bool.or_eq_true, Bool.and_eq_true,
    decide_eq_true_eq] at h
  simp only [isWsChar, Bool.or_eq_false_iff]
  refine ⟨⟨⟨?_, ?_⟩, ?_⟩, ?_⟩ <;> simp only [decide_eq_false_iff_not] <;> omega

theorem tokChars_cons (t : Tok) (idx : Nat) (hw : wfTok t = true) :
    ∃ c cs, tokChars genericDialect idx t = c :: cs ∧ isWsChar c = false := by
  cases t with
  | kw k => cases k <;> exact ⟨_, _, rfl, by decide⟩
  | ident s =>
      exact ⟨'"', s.data ++ ['"'], by simp [tokChars, genericDialect], by decide⟩
  | num s =>
      obtain ⟨c, cs, hd⟩ : ∃ c cs, s.data = c :: cs := by
        cases hsd : s.data with
        | nil => simp [wfTok, wfNum, hsd] at hw
        | cons a as => exact ⟨a, as, rfl⟩
      have hdig : isDigitChar c = true := by
        simp only [wfTok, wfNum, hd, Bool.and_eq_true] at hw
        exact hw.1
      exact ⟨c, cs, by simp [tokChars, hd], isWsChar_of_digit c hdig⟩
  | str s => exact ⟨'\'', s.data ++ ['\''], by simp [tokChars], by decide⟩
  | param n => exact ⟨':', n.data, by simp [tokChars, genericDialect], by decide⟩
  | comma => exact ⟨_, _, rfl, by decide⟩
  | lparen => exact ⟨_, _, rfl, by decide⟩
  | rparen => exact ⟨_, _, rfl, by decide⟩
  | dot => exact ⟨_, _, rfl, by decide⟩
  | star => exact ⟨_, _, rfl, by decide⟩
  | teq => exact ⟨_, _, rfl, by decide⟩
  | tlt => exact ⟨_, _, rfl, by decide⟩
  | tle => exact ⟨_, _, rfl, by decide⟩
  | tgt => exact ⟨_, _, rfl, by decide⟩
  | tge => exact ⟨_, _, rfl, by decide⟩
  | tminus => exact ⟨_, _, rfl, by decide⟩

theorem lexOne_tok (t : Tok) (idx : Nat) (rest : List Char)
    (hw : wfTok t = true) (hsep : headSep rest = true) :
    lexOne (tokChars genericDialect idx t ++ rest) = some (t, rest) := by
  cases t with
  | kw k => exact lexOne_kw k idx rest hsep
  | ident s => exact lexOne_identtok s idx rest hw
  | num s => exact lexOne_numtok s idx rest hw hsep
  | str s => exact lexOne_strtok s idx rest hw
  | param n => exact lexOne_paramtok n idx rest hw hsep
  | comma => rfl
  | lparen => rfl
  | rparen => rfl
  | dot => rfl
  | star => rfl
  | teq => rfl
  | tle => rfl
  | tge => rfl
  | tminus => rfl
  | tlt =>
      cases rest with
      | nil => rfl
      | cons c cs =>
          have : c = ' ' ∨ c = ',' := by simpa [headSep] using hsep
          rcases this with rfl | rfl <;> rfl
  | tgt =>
      cases rest with
      | nil => rfl
      | cons c cs =>
          have : c = ' ' ∨ c = ',' := by simpa [headSep] using hsep
          rcases this with rfl | rfl <;> rfl

theorem lexAll_step (t : Tok) (idx fuel : Nat) (X : List Char)
    (hw : wfTok t = true) (hsep : headSep X = true) :
    lexAll (fuel + 1) (tokChars genericDialect idx t ++ X) =
      (lexAll fuel X).map (fun ts => t :: ts) := by
  obtain ⟨c, cs, hc, hws⟩ := tokChars_cons t idx hw
  have hlex := lexOne_tok t idx X hw hsep
  rw [hc] at hlex ⊢
  rw [List.cons_append] at hlex ⊢
  show lexAll (fuel + 1) (c :: (cs ++ X)) = _
  simp only [lexAll, hws, Bool.false_eq_true, if_false, hlex]

theorem headSep_renderGo_comma (i : Nat) (l : List Tok) :
    headSep (renderGo genericDialect i (Tok.comma :: l)) = true := by
  cases l <;> rfl

theorem lexAll_render : ∀ (ts : List Tok) (idx fuel : Nat),
    wfToks ts = true → (renderGo genericDialect idx ts).length < fuel →
    lexAll fuel (renderGo genericDialect idx ts) = some ts
  | [], idx, fuel, _, hf => by
      obtain ⟨f, rfl⟩ : ∃ f, fuel = f + 1 := ⟨fuel - 1, by omega⟩
      rfl
  | [t], idx, fuel, hw, hf => by
      obtain ⟨c, cs, hc, _⟩ := tokChars_cons t idx (by
        simpa [wfToks, Bool.and_eq_true] using
          (by simpa [wfToks, Bool.and_eq_true] using hw : wfTok t = true ∧ True).1)
      have hwt : wfTok t = true := by
        simpa [wfToks, Bool.and_eq_true] using hw
      obtain ⟨f, rfl⟩ : ∃ f, fuel = f + 1 := ⟨fuel - 1, by omega⟩
      have hlen : 1 ≤ (renderGo genericDialect idx [t]).length := by
        show 1 ≤ (tokChars genericDialect idx t).length
        rw [hc]; simp
      obtain ⟨f', rfl⟩ : ∃ f', f = f' + 1 := ⟨f - 1, by omega⟩
      have : renderGo genericDialect idx [t] =
          tokChars genericDialect idx t ++ [] := by
        simp [renderGo]
      rw [this, lexAll_step t idx (f' + 1) [] hwt rfl]
      rfl
  | t :: t' :: ts, idx, fuel, hw, hf => by
      have hwt : wfTok t = true := by
        simp only [wfToks, Bool.and_eq_true] at hw
        exact hw.1
      have hwrest : wfToks (t' :: ts) = true := by
        simp only [wfToks, Bool.and_eq_true] at hw ⊢
        exact hw.2
      have hrg : renderGo genericDialect idx (t :: t' :: ts) =
          tokChars genericDialect idx t ++
            ((if t' = Tok.comma then [] else [' ']) ++
              renderGo genericDialect (idx + paramWeight t) (t' :: ts)) := by
        simp [renderGo, List.append_assoc]
      obtain ⟨f, rfl⟩ : ∃ f, fuel = f + 1 := ⟨fuel - 1, by omega⟩
      rw [hrg] at hf ⊢
      obtain ⟨c, cs, hc, _⟩ := tokChars_cons t idx hwt
      have hlen1 : 1 ≤ (tokChars genericDialect idx t).length := by
        rw [hc]; simp
      by_cases hcomma : t' = Tok.comma
      · subst hcomma
        rw [if_pos rfl, List.nil_append] at hf ⊢
        rw [lexAll_step t idx f _ hwt (headSep_renderGo_comma _ _)]
        rw [lexAll_render (Tok.comma :: ts) (idx + paramWeight t) f hwrest
          (by simp at hf ⊢; omega)]
        rfl
      · rw [if_neg hcomma] at hf ⊢
        have hstep := lexAll_step t idx f
          (' ' :: renderGo genericDialect (idx + paramWeight t) (t' :: ts))
          hwt (by rfl)
        rw [show ([' '] : List Char) ++
            renderGo genericDialect (idx + paramWeight t) (t' :: ts) =
            ' ' :: renderGo genericDialect (idx + paramWeight t) (t' :: ts)
          from rfl, hstep]
        obtain ⟨f', rfl⟩ : ∃ f', f = f' + 1 := by
          refine ⟨f - 1, ?_⟩
          simp at hf
          omega
        have hskip : lexAll (f' + 1)
            (' ' :: renderGo genericDialect (idx + paramWeight t) (t' :: ts)) =
            lexAll f' (renderGo genericDialect (idx + paramWeight t) (t' :: ts)) :=
          rfl
        rw [hskip, lexAll_render (t' :: ts) (idx + paramWeight t) f' hwrest
          (by simp at hf ⊢; omega)]
        rfl

theorem lex_render (ts : List Tok) (hw : wfToks ts = true) :
    lex (render genericDialect ts) = some ts := by
  show lexAll _ _ = some ts
  exact lexAll_render ts 1 _ hw (Nat.lt_succ_self _)

/-! ## Claim C8: emission well-formedness and head-shape lemmas -/

set_option maxHeartbeats 1000000

theorem wfToks_append (a b : List Tok) :
    wfToks (a ++ b) = (wfToks a && wfToks b) := by
  induction a with
  | nil => simp [wfToks]
  | cons t ts ih => simp [wfToks, ih, Bool.and_assoc]

theorem wfToks_parenIf (b : Bool) (ts : List Tok) (h : wfToks ts = true) :
    wfToks (parenIf b ts) = true := by
  cases b
  · simpa [parenIf] using h
  · simp [parenIf, wfToks_append, wfToks, h]
    exact ⟨rfl, rfl⟩

theorem wfToks_litToks (l : Lit) (h : wfLit l = true) :
    wfToks (litToks l) = true := by
  cases l <;> simp_all [litToks, wfToks, wfTok, wfLit]
  rename_i b; cases b <;> simp [litToks, wfToks, wfTok]

mutual
theorem wfToks_emitExpr (e : Expr) (h : wfExpr e = true) :
    wfToks (emitExpr e) = true := by
  cases e with
  | lit l => exact wfToks_litToks l h
  | col q n =>
      cases q with
      | none => simpa [emitExpr, wfToks, wfTok, wfExpr, wfIdentOpt] using h
      | some qq =>
          simp only [wfExpr, wfIdentOpt, Bool.and_eq_true] at h
          simp [emitExpr, wfToks, wfTok, h.1, h.2]
  | param n v =>
      simp only [wfExpr, Bool.and_eq_true] at h
      simp [emitExpr, wfToks, wfTok, h.1]
  | bin op l r =>
      simp only [wfExpr, Bool.and_eq_true] at h
      have hl := wfToks_emitExpr l h.1
      have hr := wfToks_emitExpr r h.2
      cases op <;>
        simp [emitExpr, wfToks_append, wfToks, wfTok, hl, hr,
          wfToks_parenIf _ _ hl, wfToks_parenIf _ _ hr]
  | isNull e' neg =>
      have he := wfToks_emitExpr e' (by simpa [wfExpr] using h)
      cases neg <;>
        simp [emitExpr, wfToks_append, wfToks, wfTok, wfToks_parenIf _ _ he]
  | caseWhen bs e? =>
      simp only [wfExpr, Bool.and_eq_true] at h
      have hb := wfToks_emitBranches bs h.1
      cases e? with
      | none => simp [emitExpr, wfToks_append, wfToks, wfTok, hb]
      | some e' =>
          have he := wfToks_emitExpr e' (by simpa [wfExprOpt] using h.2)
          simp [emitExpr, wfToks_append, wfToks, wfTok, hb, he]
  | func n args =>
      simp only [wfExpr, Bool.and_eq_true] at h
      have ha := wfToks_emitArgs args h.2
      simp [emitExpr, wfToks_append, wfToks, wfTok, h.1, ha]

theorem wfToks_emitBranches (bs : List (Expr × Expr)) (h : wfBranches bs = true) :
    wfToks (emitBranches bs) = true := by
  cases bs with
  | nil => rfl
  | cons b bs' =>
      obtain ⟨c, t⟩ := b
      simp only [wfBranches, Bool.and_eq_true] at h
      simp [emitBranches, wfToks_append, wfToks, wfTok,
        wfToks_emitExpr c h.1.1, wfToks_emitExpr t h.1.2,
        wfToks_emitBranches bs' h.2]

theorem wfToks_emitArgs (args : List Expr) (h : wfExprs args = true) :
    wfToks (emitArgs args) = true := by
  cases args with
  | nil => rfl
  | cons e es =>
      simp only [wfExprs, Bool.and_eq_true] at h
      cases es with
      | nil => simpa [emitArgs] using wfToks_emitExpr e h.1
      | cons e' es' =>
          simp [emitArgs, wfToks_append, wfToks, wfTok,
            wfToks_emitExpr e h.1, wfToks_emitArgs (e' :: es') h.2]
end

theorem wfToks_emitItem (i : SelectItem) (h : wfItem i = true) :
    wfToks (emitItem i) = true := by
  cases i with
  | wildcard q =>
      cases q with
      | none => rfl
      | some qq => simpa [emitItem, wfToks, wfTok, wfItem, wfIdentOpt] using h
  | expr e a? =>
      simp only [wfItem, Bool.and_eq_true] at h
      cases a? with
      | none => simpa [emitItem] using wfToks_emitExpr e h.1
      | some a =>
          have ha : wfIdent a = true := by simpa [wfIdentOpt] using h.2
          simp [emitItem, wfToks_append, wfToks, wfTok,
            wfToks_emitExpr e h.1, ha]

theorem wfToks_emitItems (items : List SelectItem) (h : wfItems items = true) :
    wfToks (emitItems items) = true := by
  induction items with
  | nil => rfl
  | cons i is_ ih =>
      simp only [wfItems, Bool.and_eq_true] at h
      cases is_ with
      | nil => simpa [emitItems] using wfToks_emitItem i h.1
      | cons j js =>
          simp [emitItems, wfToks_append, wfToks, wfTok,
            wfToks_emitItem i h.1, ih h.2]

theorem wfToks_emitExprList (es : List Expr) (h : wfExprs es = true) :
    wfToks (emitExprList es) = true := by
  induction es with
  | nil => rfl
  | cons e es' ih =>
      simp only [wfExprs, Bool.and_eq_true] at h
      cases es' with
      | nil => simpa [emitExprList] using wfToks_emitExpr e h.1
      | cons f fs =>
          simp [emitExprList, wfToks_append, wfToks, wfTok,
            wfToks_emitExpr e h.1, ih h.2]

theorem wfToks_emitOrderItems (os : List (Expr × OrderDir)) (h : wfOrder os = true) :
    wfToks (emitOrderItems os) = true := by
  induction os with
  | nil => rfl
  | cons o os' ih =>
      obtain ⟨e, d⟩ := o
      simp only [wfOrder, Bool.and_eq_true] at h
      have he : wfToks (emitOrderItem (e, d)) = true := by
        cases d <;>
          simp [emitOrderItem, wfToks_append, wfToks, wfTok, wfToks_emitExpr e h.1]
      cases os' with
      | nil => simpa [emitOrderItems] using he
      | cons p ps =>
          simp [emitOrderItems, wfToks_append, wfToks, wfTok, he, ih h.2]

theorem wfToks_emitTableRef (t : TableRef) (h : wfTableRef t = true) :
    wfToks (emitTableRef t) = true := by
  obtain ⟨sc, n, a⟩ := t
  simp only [wfTableRef, Bool.and_eq_true] at h
  cases sc <;> cases a <;>
    simp_all [emitTableRef, wfToks, wfTok, wfIdentOpt]

theorem szQuery_pos : ∀ (q : Query), 1 ≤ szQuery q := by
  intro q
  cases q <;> simp [szQuery] <;> omega

mutual
theorem wfToks_emitQueryF : ∀ (fuel : Nat) (q : Query), szQuery q ≤ fuel →
    wfQuery q = true → wfToks (emitQueryF fuel q) = true
  | 0, q, hsz, _ => absurd (Nat.le_trans (szQuery_pos q) hsz) (by decide)
  | fuel + 1, .simple s, hsz, h => by
      have hs : szSimple s ≤ fuel := by simp [szQuery] at hsz; omega
      exact wfToks_emitSimpleF fuel s hs h
  | fuel + 1, .bin l op r, hsz, h => by
      simp only [szQuery] at hsz
      simp only [wfQuery, Bool.and_eq_true] at h
      have hl := wfToks_emitQueryF fuel l (by omega) h.1
      have hr := wfToks_emitQueryF fuel r (by omega) h.2
      cases op <;>
        simp [emitQueryF, setOpToks, wfToks_append, wfToks, wfTok,
          wfToks_parenIf _ _ hl, wfToks_parenIf _ _ hr]
  | fuel + 1, .withq cs b, hsz, h => by
      simp only [szQuery] at hsz
      simp only [wfQuery, Bool.and_eq_true] at h
      have h1 := wfToks_emitCTEsF fuel cs (by omega) h.1.2
      have h2 := wfToks_emitQueryF fuel b (by omega) h.2
      simp [emitQueryF, wfToks_append, wfToks, wfTok, h1, h2]

theorem wfToks_emitSimpleF : ∀ (fuel : Nat) (s : SimpleSelect), szSimple s ≤ fuel →
    wfSimple s = true → wfToks (emitSimpleF fuel s) = true
  | 0, .mk items f? w? g o l?, hsz, _ => by simp [szSimple] at hsz
  | fuel + 1, .mk items f? w? g o l?, hsz, h => by
      simp only [szSimple] at hsz
      simp only [wfSimple, Bool.and_eq_true] at h
      simp only [emitSimpleF]
      rw [wfToks_append, wfToks_append, wfToks_append, wfToks_append,
        wfToks_append]
      simp only [Bool.and_eq_true]
      refine ⟨⟨⟨⟨⟨?_, ?_⟩, ?_⟩, ?_⟩, ?_⟩, ?_⟩
      · rw [wfToks_append]
        simp only [Bool.and_eq_true]
        exact ⟨rfl, wfToks_emitItems items h.1.1.1.1.1.2⟩
      · cases hf : f? with
        | none => rfl
        | some f =>
            have hsf : szFrom f ≤ fuel := by
              rw [hf] at hsz; simp [szFromOpt] at hsz; omega
            exact wfToks_emitFromF fuel f hsf (hf ▸ h.1.1.1.1.2)
      · cases w? with
        | none => rfl
        | some e =>
            have := wfToks_emitExpr e (by simpa [wfExprOpt] using h.1.1.1.2)
            simp [wfToks_append, wfToks, wfTok, this]
      · cases g with
        | nil => rfl
        | cons e es =>
            simp [wfToks_append, wfToks, wfTok,
              wfToks_emitExprList (e :: es) h.1.1.2]
      · cases o with
        | nil => rfl
        | cons p ps =>
            simp [wfToks_append, wfToks, wfTok,
              wfToks_emitOrderItems (p :: ps) h.1.2]
      · cases l? with
        | none => rfl
        | some n => simpa [wfToks, wfTok] using h.2

theorem wfToks_emitFromF : ∀ (fuel : Nat) (f : FromCl), szFrom f ≤ fuel →
    wfFromOpt (some f) = true → wfToks (emitFromF fuel f) = true
  | 0, .mk src js, hsz, _ => by simp [szFrom] at hsz
  | fuel + 1, .mk src js, hsz, h => by
      simp only [szFrom] at hsz
      simp only [wfFromOpt, Bool.and_eq_true] at h
      have h1 := wfToks_emitSourceF fuel src (by omega) h.1
      have h2 := wfToks_emitJoinsF fuel js (by omega) h.2
      simp [emitFromF, wfToks_append, wfToks, wfTok, h1, h2]

theorem wfToks_emitSourceF : ∀ (fuel : Nat) (src : Source), szSource src ≤ fuel →
    wfSource src = true → wfToks (emitSourceF fuel src) = true
  | 0, .table t, hsz, _ => by simp [szSource] at hsz
  | 0, .sub q al, hsz, _ => by simp [szSource] at hsz
  | _ + 1, .table t, _, h => wfToks_emitTableRef t (by simpa [wfSource] using h)
  | fuel + 1, .sub q al, hsz, h => by
      simp only [szSource] at hsz
      simp only [wfSource, Bool.and_eq_true] at h
      have h1 := wfToks_emitQueryF fuel q (by omega) h.1
      simp [emitSourceF, wfToks_append, wfToks, wfTok, h1, h.2]

theorem wfToks_emitJoinsF : ∀ (fuel : Nat) (js : List JoinCl), szJoins js ≤ fuel →
    wfJoins js = true → wfToks (emitJoinsF fuel js) = true
  | 0, [], _, _ => rfl
  | 0, _ :: _, hsz, _ => by simp [szJoins, szJoin] at hsz
  | _ + 1, [], _, _ => rfl
  | fuel + 1, .mk k src cond :: js', hsz, h => by
      simp only [szJoins, szJoin] at hsz
      simp only [wfJoins, wfJoin, Bool.and_eq_true] at h
      have hk : wfToks (joinKindToks k) = true := by
        cases k <;> simp [joinKindToks, wfToks, wfTok]
      have h1 := wfToks_emitSourceF fuel src (by omega) h.1.1
      have h2 := wfToks_emitJoinsF fuel js' (by omega) h.2
      simp [emitJoinsF, wfToks_append, wfToks, wfTok, hk, h1,
        wfToks_emitExpr cond h.1.2, h2]

theorem wfToks_emitCTEsF : ∀ (fuel : Nat) (cs : List CTE), szCTEs cs ≤ fuel →
    wfCTEs cs = true → wfToks (emitCTEsF fuel cs) = true
  | 0, [], _, _ => rfl
  | 0, _ :: _, hsz, _ => by simp [szCTEs, szCTE] at hsz
  | _ + 1, [], _, _ => rfl
  | fuel + 1, [CTE.mk n q], hsz, h => by
      simp only [szCTEs, szCTE] at hsz
      simp only [wfCTEs, Bool.and_eq_true] at h
      have h1 := wfToks_emitQueryF fuel q (by omega) h.1.2
      simp [emitCTEsF, wfToks_append, wfToks, wfTok, h.1.1, h1]
  | fuel + 1, CTE.mk n q :: c2 :: cs2, hsz, h => by
      simp only [szCTEs, szCTE] at hsz
      simp only [wfCTEs, Bool.and_eq_true] at h
      have h1 := wfToks_emitQueryF fuel q (by omega) h.1.2
      have h2 := wfToks_emitCTEsF fuel (c2 :: cs2) (by simp [szCTEs, szCTE]; omega) h.2
      simp [emitCTEsF, wfToks_append, wfToks, wfTok, h.1.1, h1, h2]
end

theorem wfToks_emitQuery (q : Query) (h : wfQuery q = true) :
    wfToks (emitQuery q) = true :=
  wfToks_emitQueryF (szQuery q) q (Nat.le_refl _) h

theorem parenIf_head (b : Bool) (X Y : List Tok)
    (h : ∃ t ts', X = t :: ts' ∧ t ≠ Tok.rparen ∧ t ≠ Tok.star) :
    ∃ t ts', parenIf b X ++ Y = t :: ts' ∧ t ≠ Tok.rparen ∧ t ≠ Tok.star := by
  cases b
  · obtain ⟨t, ts', rfl, h1, h2⟩ := h
    exact ⟨t, ts' ++ Y, by simp [parenIf], h1, h2⟩
  · exact ⟨.lparen, X ++ [.rparen] ++ Y, by simp [parenIf], by simp, by simp⟩

theorem emitExpr_head : ∀ (e : Expr),
    ∃ t ts', emitExpr e = t :: ts' ∧ t ≠ Tok.rparen ∧ t ≠ Tok.star
  | .lit (.num s) => ⟨.num s, [], rfl, by simp, by simp⟩
  | .lit (.str s) => ⟨.str s, [], rfl, by simp, by simp⟩
  | .lit (.bool true) => ⟨.kw .ktrue, [], rfl, by simp, by simp⟩
  | .lit (.bool false) => ⟨.kw .kfalse, [], rfl, by simp, by simp⟩
  | .lit .null => ⟨.kw .knull, [], rfl, by simp, by simp⟩
  | .lit .currentDate => ⟨.kw .kcurrentDate, [], rfl, by simp, by simp⟩
  | .lit (.interval s) => ⟨.kw .kinterval, [.str s], rfl, by simp, by simp⟩
  | .col none n => ⟨.ident n, [], rfl, by simp, by simp⟩
  | .col (some q) n => ⟨.ident q, [.dot, .ident n], rfl, by simp, by simp⟩
  | .param n v => ⟨.param n, [], rfl, by simp, by simp⟩
  | .bin .opOr l r => by
      obtain ⟨t, ts', heq, h1, h2⟩ :=
        parenIf_head (isOrE l) (emitExpr l) ([.kw .kor] ++ emitExpr r) (emitExpr_head l)
      exact ⟨t, ts', by rw [← heq]; simp [emitExpr, List.append_assoc], h1, h2⟩
  | .bin .opAnd l r => by
      obtain ⟨t, ts', heq, h1, h2⟩ :=
        parenIf_head (isOrAndE l) (emitExpr l) ([.kw .kand] ++ parenIf (isOrE r) (emitExpr r)) (emitExpr_head l)
      exact ⟨t, ts', by rw [← heq]; simp [emitExpr, List.append_assoc], h1, h2⟩
  | .bin .opEq l r => by
      obtain ⟨t, ts', heq, h1, h2⟩ :=
        parenIf_head (aboveAddE l) (emitExpr l) ([.teq] ++ parenIf (aboveAddE r) (emitExpr r)) (emitExpr_head l)
      exact ⟨t, ts', by rw [← heq]; simp [emitExpr, List.append_assoc], h1, h2⟩
  | .bin .opLt l r => by
      obtain ⟨t, ts', heq, h1, h2⟩ :=
        parenIf_head (aboveAddE l) (emitExpr l) ([.tlt] ++ parenIf (aboveAddE r) (emitExpr r)) (emitExpr_head l)
      exact ⟨t, ts', by rw [← heq]; simp [emitExpr, List.append_assoc], h1, h2⟩
  | .bin .opLe l r => by
      obtain ⟨t, ts', heq, h1, h2⟩ :=
        parenIf_head (aboveAddE l) (emitExpr l) ([.tle] ++ parenIf (aboveAddE r) (emitExpr r)) (emitExpr_head l)
      exact ⟨t, ts', by rw [← heq]; simp [emitExpr, List.append_assoc], h1, h2⟩
  | .bin .opGt l r => by
      obtain ⟨t, ts', heq, h1, h2⟩ :=
        parenIf_head (aboveAddE l) (emitExpr l) ([.tgt] ++ parenIf (aboveAddE r) (emitExpr r)) (emitExpr_head l)
      exact ⟨t, ts', by rw [← heq]; simp [emitExpr, List.append_assoc], h1, h2⟩
  | .bin .opGe l r => by
      obtain ⟨t, ts', heq, h1, h2⟩ :=
        parenIf_head (aboveAddE l) (emitExpr l) ([.tge] ++ parenIf (aboveAddE r) (emitExpr r)) (emitExpr_head l)
      exact ⟨t, ts', by rw [← heq]; simp [emitExpr, List.append_assoc], h1, h2⟩
  | .bin .opLike l r => by
      obtain ⟨t, ts', heq, h1, h2⟩ :=
        parenIf_head (aboveAddE l) (emitExpr l) ([.kw .klike] ++ parenIf (aboveAddE r) (emitExpr r)) (emitExpr_head l)
      exact ⟨t, ts', by rw [← heq]; simp [emitExpr, List.append_assoc], h1, h2⟩
  | .bin .opSub l r => by
      obtain ⟨t, ts', heq, h1, h2⟩ :=
        parenIf_head (isCompoundE l) (emitExpr l) ([.tminus] ++ parenIf (aboveAddE r) (emitExpr r)) (emitExpr_head l)
      exact ⟨t, ts', by rw [← heq]; simp [emitExpr, List.append_assoc], h1, h2⟩
  | .isNull e' neg => by
      obtain ⟨t, ts', heq, h1, h2⟩ :=
        parenIf_head (aboveAddE e') (emitExpr e')
          ([.kw .kis] ++ ((if neg then [.kw .knot] else []) ++ [.kw .knull]))
          (emitExpr_head e')
      refine ⟨t, ts', ?_, h1, h2⟩
      rw [← heq]
      simp [emitExpr, List.append_assoc]
  | .caseWhen bs none =>
      ⟨.kw .kcase, emitBranches bs ++ [.kw .kend],
        by simp [emitExpr, List.append_assoc], by simp, by simp⟩
  | .caseWhen bs (some e) =>
      ⟨.kw .kcase, emitBranches bs ++ ([.kw .kelse] ++ emitExpr e ++ [.kw .kend]),
        by simp [emitExpr, List.append_assoc], by simp, by simp⟩
  | .func n args =>
      ⟨.ident n, .lparen :: (emitArgs args ++ [.rparen]),
        by simp [emitExpr, List.append_assoc], by simp, by simp⟩

theorem ident_dot_chain (X Y R : List Tok) (b : Bool) (q : String) (tail : List Tok)
    (h : (parenIf b X ++ Y) ++ R = Tok.ident q :: Tok.dot :: tail)
    (hY : ∃ t ts', Y = t :: ts' ∧ contP t = false)
    (hrec : ∀ R' q' tail', X ++ R' = Tok.ident q' :: Tok.dot :: tail' →
        noCont contP R' → ∃ m tl, tail' = Tok.ident m :: tl) :
    ∃ m tl, tail = Tok.ident m :: tl := by
  cases b
  · obtain ⟨t, ts', rfl, ht⟩ := hY
    have h' : X ++ (t :: ts' ++ R) = Tok.ident q :: Tok.dot :: tail := by
      simpa [parenIf, List.append_assoc] using h
    exact hrec (t :: ts' ++ R) q tail h' (by simpa [noCont] using ht)
  · simp [parenIf] at h

theorem emitExpr_ident_dot : ∀ (e : Expr) (R : List Tok) (q : String) (tail : List Tok),
    emitExpr e ++ R = Tok.ident q :: Tok.dot :: tail → noCont contP R →
    ∃ m tl, tail = Tok.ident m :: tl
  | .lit (.num s), R, q, tail, h, _ => by simp [emitExpr, litToks] at h
  | .lit (.str s), R, q, tail, h, _ => by simp [emitExpr, litToks] at h
  | .lit (.bool true), R, q, tail, h, _ => by simp [emitExpr, litToks] at h
  | .lit (.bool false), R, q, tail, h, _ => by simp [emitExpr, litToks] at h
  | .lit .null, R, q, tail, h, _ => by simp [emitExpr, litToks] at h
  | .lit .currentDate, R, q, tail, h, _ => by simp [emitExpr, litToks] at h
  | .lit (.interval s), R, q, tail, h, _ => by simp [emitExpr, litToks] at h
  | .param n v, R, q, tail, h, _ => by simp [emitExpr] at h
  | .col none n, R, q, tail, h, hR => by
      simp only [emitExpr, List.cons_append, List.nil_append, List.cons.injEq] at h
      rw [h.2] at hR
      simp [noCont, contP] at hR
  | .col (some q') n, R, q, tail, h, _ => by
      simp only [emitExpr, List.cons_append, List.nil_append, List.cons.injEq] at h
      exact ⟨n, R, h.2.2.symm⟩
  | .caseWhen bs none, R, q, tail, h, _ => by
      simp [emitExpr, List.append_assoc] at h
  | .caseWhen bs (some e), R, q, tail, h, _ => by
      simp [emitExpr, List.append_assoc] at h
  | .func n args, R, q, tail, h, _ => by
      simp only [emitExpr, List.cons_append, List.append_assoc,
        List.cons.injEq] at h
      exact absurd h.2.1 (by simp)
  | .bin .opOr l r, R, q, tail, h, hR => by
      refine ident_dot_chain (emitExpr l) ([.kw .kor] ++ emitExpr r) R (isOrE l) q tail
        ?_ ⟨.kw .kor, emitExpr r, rfl, by decide⟩
        (fun R' q' tail' h' hR' => emitExpr_ident_dot l R' q' tail' h' hR')
      rw [← h]
      congr 1
      simp [emitExpr]
  | .bin .opAnd l r, R, q, tail, h, hR => by
      refine ident_dot_chain (emitExpr l) ([.kw .kand] ++ parenIf (isOrE r) (emitExpr r)) R
        (isOrAndE l) q tail ?_ ⟨.kw .kand, _, rfl, by decide⟩
        (fun R' q' tail' h' hR' => emitExpr_ident_dot l R' q' tail' h' hR')
      rw [← h]
      congr 1
      simp [emitExpr]
  | .bin .opEq l r, R, q, tail, h, hR => by
      refine ident_dot_chain (emitExpr l) ([.teq] ++ parenIf (aboveAddE r) (emitExpr r)) R
        (aboveAddE l) q tail ?_ ⟨.teq, _, rfl, by decide⟩
        (fun R' q' tail' h' hR' => emitExpr_ident_dot l R' q' tail' h' hR')
      rw [← h]
      congr 1
      simp [emitExpr]
  | .bin .opLt l r, R, q, tail, h, hR => by
      refine ident_dot_chain (emitExpr l) ([.tlt] ++ parenIf (aboveAddE r) (emitExpr r)) R
        (aboveAddE l) q tail ?_ ⟨.tlt, _, rfl, by decide⟩
        (fun R' q' tail' h' hR' => emitExpr_ident_dot l R' q' tail' h' hR')
      rw [← h]
      congr 1
      simp [emitExpr]
  | .bin .opLe l r, R, q, tail, h, hR => by
      refine ident_dot_chain (emitExpr l) ([.tle] ++ parenIf (aboveAddE r) (emitExpr r)) R
        (aboveAddE l) q tail ?_ ⟨.tle, _, rfl, by decide⟩
        (fun R' q' tail' h' hR' => emitExpr_ident_dot l R' q' tail' h' hR')
      rw [← h]
      congr 1
      simp [emitExpr]
  | .bin .opGt l r, R, q, tail, h, hR => by
      refine ident_dot_chain (emitExpr l) ([.tgt] ++ parenIf (aboveAddE r) (emitExpr r)) R
        (aboveAddE l) q tail ?_ ⟨.tgt, _, rfl, by decide⟩
        (fun R' q' tail' h' hR' => emitExpr_ident_dot l R' q' tail' h' hR')
      rw [← h]
      congr 1
      simp [emitExpr]
  | .bin .opGe l r, R, q, tail, h, hR => by
      refine ident_dot_chain (emitExpr l) ([.tge] ++ parenIf (aboveAddE r) (emitExpr r)) R
        (aboveAddE l) q tail ?_ ⟨.tge, _, rfl, by decide⟩
        (fun R' q' tail' h' hR' => emitExpr_ident_dot l R' q' tail' h' hR')
      rw [← h]
      congr 1
      simp [emitExpr]
  | .bin .opLike l r, R, q, tail, h, hR => by
      refine ident_dot_chain (emitExpr l) ([.kw .klike] ++ parenIf (aboveAddE r) (emitExpr r)) R
        (aboveAddE l) q tail ?_ ⟨.kw .klike, _, rfl, by decide⟩
        (fun R' q' tail' h' hR' => emitExpr_ident_dot l R' q' tail' h' hR')
      rw [← h]
      congr 1
      simp [emitExpr]
  | .bin .opSub l r, R, q, tail, h, hR => by
      refine ident_dot_chain (emitExpr l) ([.tminus] ++ parenIf (aboveAddE r) (emitExpr r)) R
        (isCompoundE l) q tail ?_ ⟨.tminus, _, rfl, by decide⟩
        (fun R' q' tail' h' hR' => emitExpr_ident_dot l R' q' tail' h' hR')
      rw [← h]
      congr 1
      simp [emitExpr]
  | .isNull e' neg, R, q, tail, h, hR => by
      refine ident_dot_chain (emitExpr e')
        ([.kw .kis] ++ ((if neg then [.kw .knot] else []) ++ [.kw .knull])) R
        (aboveAddE e') q tail ?_ ⟨.kw .kis, _, rfl, by decide⟩
        (fun R' q' tail' h' hR' => emitExpr_ident_dot e' R' q' tail' h' hR')
      rw [← h]
      congr 1
      simp [emitExpr, List.append_assoc]

theorem head_shape (L : List Tok) (t : Tok) (h : L.head? = some t) :
    ∃ ts', L = t :: ts' := by
  cases L with
  | nil => simp at h
  | cons a as => exact ⟨as, by simp_all⟩

theorem emitQueryF_headq : ∀ (fuel : Nat) (q : Query), szQuery q ≤ fuel →
    ∃ t, (emitQueryF fuel q).head? = some t ∧
      (t = Tok.kw Kw.kselect ∨ t = Tok.lparen ∨ t = Tok.kw Kw.kwith)
  | 0, q, hsz => absurd (Nat.le_trans (szQuery_pos q) hsz) (by decide)
  | fuel + 1, .simple (.mk items f? w? g o l?), hsz => by
      cases fuel with
      | zero => simp [szQuery, szSimple] at hsz
      | succ fuel' =>
          exact ⟨.kw .kselect, by simp [emitQueryF, emitSimpleF], Or.inl rfl⟩
  | fuel + 1, .bin l op r, hsz => by
      simp only [szQuery] at hsz
      cases hw : isWithQ l
      · obtain ⟨t, ht, hmem⟩ := emitQueryF_headq fuel l (by omega)
        obtain ⟨ts', hts⟩ := head_shape _ _ ht
        exact ⟨t, by simp [emitQueryF, parenIf, hw, hts], hmem⟩
      · exact ⟨.lparen, by simp [emitQueryF, parenIf, hw], Or.inr (Or.inl rfl)⟩
  | fuel + 1, .withq cs b, hsz =>
      ⟨.kw .kwith, by simp [emitQueryF], Or.inr (Or.inr rfl)⟩

/-! ## Claim C8: expression-level parse round trip -/


def contWhen : Tok → Bool
  | .kw .kwhen => true
  | _ => false

def contArg (t : Tok) : Bool :=
  contOr t || t = .comma

theorem noCont_mono (f g : Tok → Bool) (hfg : ∀ t, f t = true → g t = true)
    (ts : List Tok) (h : noCont g ts) : noCont f ts := by
  cases ts with
  | nil => trivial
  | cons t ts' =>
      simp only [noCont] at h ⊢
      cases hft : f t
      · rfl
      · rw [hfg t hft] at h
        exact h

theorem parseOr_step (fuel : Nat) (e : Expr) (ts rest : List Tok)
    (hr : noCont contOr rest) (hAnd : parseAnd fuel ts = some (e, rest)) :
    parseOr (fuel + 1) ts = some (e, rest) := by
  rw [parseOr.eq_def]
  simp only [hAnd, Option.bind_some, Option.some_bind, Option.bind_eq_bind]
  cases rest with
  | nil => rfl
  | cons t ts' =>
      simp only [noCont] at hr
      split
      · rename_i heq
        injection heq with h1 h2
        rw [h1] at hr
        exact absurd hr (by decide)
      · rfl

theorem parseAnd_step (fuel : Nat) (e : Expr) (ts rest : List Tok)
    (hr : noCont contAnd rest) (hCmp : parseCmp fuel ts = some (e, rest)) :
    parseAnd (fuel + 1) ts = some (e, rest) := by
  rw [parseAnd.eq_def]
  simp only [hCmp, Option.bind_some, Option.some_bind, Option.bind_eq_bind]
  cases rest with
  | nil => rfl
  | cons t ts' =>
      simp only [noCont] at hr
      split
      · rename_i heq
        injection heq with h1 h2
        rw [h1] at hr
        exact absurd hr (by decide)
      · rfl

theorem parseAdd_step (fuel : Nat) (e : Expr) (ts rest : List Tok)
    (hr : noCont contAdd rest) (hPrim : parsePrim fuel ts = some (e, rest)) :
    parseAdd (fuel + 1) ts = some (e, rest) := by
  rw [parseAdd.eq_def]
  simp only [hPrim, Option.bind_some, Option.some_bind, Option.bind_eq_bind]
  cases rest with
  | nil => rfl
  | cons t ts' =>
      simp only [noCont] at hr
      split
      · rename_i heq
        injection heq with h1 h2
        rw [h1] at hr
        exact absurd hr (by decide)
      · rfl

theorem parseCmp_step (fuel : Nat) (e : Expr) (ts rest : List Tok)
    (hr : noCont contCmp rest) (hAdd : parseAdd fuel ts = some (e, rest)) :
    parseCmp (fuel + 1) ts = some (e, rest) := by
  rw [parseCmp.eq_def]
  simp only [hAdd, Option.bind_some, Option.some_bind, Option.bind_eq_bind]
  cases rest with
  | nil => rfl
  | cons t ts' =>
      simp only [noCont] at hr
      split
      all_goals
        first
        | rfl
        | (rename_i heq
           injection heq with h1 h2
           rw [h1] at hr
           exact absurd hr (by decide))

/-- The precedence level at which an expression node is handled. -/
def exprLvl : Expr → Nat
  | .bin .opOr _ _ => 4
  | .bin .opAnd _ _ => 3
  | .bin .opSub _ _ => 1
  | .bin _ _ _ => 2
  | .isNull _ _ => 2
  | _ => 0

def contWhens (t : Tok) : Bool :=
  contOr t || t = .kw .kwhen

theorem parenIf_len_le (b : Bool) (X : List Tok) :
    (parenIf b X).length ≤ X.length + 2 := by
  cases b <;> simp [parenIf]

theorem len_le_parenIf (b : Bool) (X : List Tok) :
    X.length ≤ (parenIf b X).length := by
  cases b
  · simp [parenIf]
  · simp [parenIf]
    omega

theorem emitArgs_head (a : Expr) (as : List Expr) :
    ∃ t X, emitArgs (a :: as) = t :: X ∧ t ≠ Tok.rparen ∧ t ≠ Tok.star := by
  obtain ⟨t, ts', heq, h1, h2⟩ := emitExpr_head a
  cases as with
  | nil => exact ⟨t, ts', by simpa [emitArgs] using heq, h1, h2⟩
  | cons b bs =>
      exact ⟨t, ts' ++ ([.comma] ++ emitArgs (b :: bs)),
        by simp [emitArgs, heq], h1, h2⟩

theorem parseQuery_succ (fuel : Nat) (ts : List Tok) :
    parseQuery (fuel + 1) ts =
      (match ts with
      | .kw .kwith :: rest => do
          let (cs, ts₁) ← parseCTEs fuel rest
          let (b, ts₂) ← parseQuery fuel ts₁
          some (.withq cs b, ts₂)
      | _ => parseChain fuel ts) := rfl

theorem parseCTEs_succ (fuel : Nat) (ts : List Tok) :
    parseCTEs (fuel + 1) ts =
      (match ts with
      | .ident n :: .kw .kas :: .lparen :: rest => do
          let (q, ts₁) ← parseQuery fuel rest
          match ts₁ with
          | .rparen :: .comma :: ts₂ => do
              let (cs, ts₃) ← parseCTEs fuel ts₂
              some (.mk n q :: cs, ts₃)
          | .rparen :: ts₂ => some ([.mk n q], ts₂)
          | _ => none
      | _ => none) := rfl

theorem parseChain_succ (fuel : Nat) (ts : List Tok) :
    parseChain (fuel + 1) ts =
      (do
      let (q, ts₁) ← parseQPrimary fuel ts
      parseChainLoop fuel q ts₁) := rfl

theorem parseChainLoop_succ (fuel : Nat) (acc : Query) (ts : List Tok) :
    parseChainLoop (fuel + 1) acc ts =
      (match ts with
      | .kw .kunion :: .kw .kall :: rest => do
          let (r, ts₁) ← parseQPrimary fuel rest
          parseChainLoop fuel (.bin acc .unionAll r) ts₁
      | .kw .kunion :: rest => do
          let (r, ts₁) ← parseQPrimary fuel rest
          parseChainLoop fuel (.bin acc .union r) ts₁
      | .kw .kintersect :: rest => do
          let (r, ts₁) ← parseQPrimary fuel rest
          parseChainLoop fuel (.bin acc .intersect r) ts₁
      | .kw .kexcept :: rest => do
          let (r, ts₁) ← parseQPrimary fuel rest
          parseChainLoop fuel (.bin acc .except r) ts₁
      | _ => some (acc, ts)) := rfl

theorem parseQPrimary_succ (fuel : Nat) (ts : List Tok) :
    parseQPrimary (fuel + 1) ts =
      (match ts with
      | .lparen :: rest => do
          let (q, ts₁) ← parseQuery fuel rest
          match ts₁ with
          | .rparen :: ts₂ => some (q, ts₂)
          | _ => none
      | .kw .kselect :: _ => do
          let (s, ts₁) ← parseSimple fuel ts
          some (.simple s, ts₁)
      | _ => none) := rfl

theorem parseSimple_succ (fuel : Nat) (ts : List Tok) :
    parseSimple (fuel + 1) ts =
      (match ts with
      | .kw .kselect :: rest => do
          let (items, ts₁) ← parseItems fuel rest
          let (f?, ts₂) ← parseFromOpt fuel ts₁
          let (w?, ts₃) ← parseWhereOpt fuel ts₂
          let (g, ts₄) ← parseGroupOpt fuel ts₃
          let (o, ts₅) ← parseOrderOpt fuel ts₄
          match ts₅ with
          | .kw .klimit :: .num n :: ts₆ =>
              some (.mk items f? w? g o (some n), ts₆)
          | _ => some (.mk items f? w? g o none, ts₅)
      | _ => none) := rfl

theorem parseItems_succ (fuel : Nat) (ts : List Tok) :
    parseItems (fuel + 1) ts =
      (do
      let (i, ts₁) ← parseItem fuel ts
      match ts₁ with
      | .comma :: rest => do
          let (is_, ts₂) ← parseItems fuel rest
          some (i :: is_, ts₂)
      | _ => some ([i], ts₁)) := rfl

theorem parseItem_succ (fuel : Nat) (ts : List Tok) :
    parseItem (fuel + 1) ts =
      (match ts with
      | .star :: rest => some (.wildcard none, rest)
      | .ident q :: .dot :: .star :: rest => some (.wildcard (some q), rest)
      | _ => do
          let (e, ts₁) ← parseOr fuel ts
          match ts₁ with
          | .kw .kas :: .ident a :: rest => some (.expr e (some a), rest)
          | .ident a :: rest => some (.expr e (some a), rest)
          | _ => some (.expr e none, ts₁)) := rfl

theorem parseFromOpt_succ (fuel : Nat) (ts : List Tok) :
    parseFromOpt (fuel + 1) ts =
      (match ts with
      | .kw .kfrom :: rest => do
          let (src, ts₁) ← parseSource fuel rest
          let (js, ts₂) ← parseJoins fuel ts₁
          some (some (.mk src js), ts₂)
      | _ => some (none, ts)) := rfl

theorem parseWhereOpt_succ (fuel : Nat) (ts : List Tok) :
    parseWhereOpt (fuel + 1) ts =
      (match ts with
      | .kw .kwhere :: rest => do
          let (e, ts₁) ← parseOr fuel rest
          some (some e, ts₁)
      | _ => some (none, ts)) := rfl

theorem parseGroupOpt_succ (fuel : Nat) (ts : List Tok) :
    parseGroupOpt (fuel + 1) ts =
      (match ts with
      | .kw .kgroup :: .kw .kby :: rest => parseExprListP fuel rest
      | _ => some ([], ts)) := rfl

theorem parseOrderOpt_succ (fuel : Nat) (ts : List Tok) :
    parseOrderOpt (fuel + 1) ts =
      (match ts with
      | .kw .korder :: .kw .kby :: rest => parseOrderItems fuel rest
      | _ => some ([], ts)) := rfl

theorem parseSource_succ (fuel : Nat) (ts : List Tok) :
    parseSource (fuel + 1) ts =
      (match ts with
      | .lparen :: rest => do
          let (q, ts₁) ← parseQuery fuel rest
          match ts₁ with
          | .rparen :: .kw .kas :: .ident a :: ts₂ => some (.sub q a, ts₂)
          | .rparen :: .ident a :: ts₂ => some (.sub q a, ts₂)
          | _ => none
      | .ident sc :: .dot :: .ident n :: .kw .kas :: .ident a :: rest =>
          some (.table ⟨some sc, n, some a⟩, rest)
      | .ident sc :: .dot :: .ident n :: .ident a :: rest =>
          some (.table ⟨some sc, n, some a⟩, rest)
      | .ident sc :: .dot :: .ident n :: rest =>
          some (.table ⟨some sc, n, none⟩, rest)
      | .ident n :: .kw .kas :: .ident a :: rest =>
          some (.table ⟨none, n, some a⟩, rest)
      | .ident n :: .ident a :: rest =>
          some (.table ⟨none, n, some a⟩, rest)
      | .ident n :: rest =>
          some (.table ⟨none, n, none⟩, rest)
      | _ => none) := rfl

theorem parseJoins_succ (fuel : Nat) (ts : List Tok) :
    parseJoins (fuel + 1) ts =
      (match ts with
      | .kw .kleft :: .kw .kjoin :: rest => parseJoinTail fuel .left rest
      | .kw .kright :: .kw .kjoin :: rest => parseJoinTail fuel .right rest
      | .kw .kinner :: .kw .kjoin :: rest => parseJoinTail fuel .inner rest
      | .kw .kfull :: .kw .kjoin :: rest => parseJoinTail fuel .full rest
      | _ => some ([], ts)) := rfl

theorem parseJoinTail_succ (fuel : Nat) (k : JoinKind) (ts : List Tok) :
    parseJoinTail (fuel + 1) k ts =
      (do
      let (src, ts₁) ← parseSource fuel ts
      match ts₁ with
      | .kw .kon :: ts₂ => do
          let (cond, ts₃) ← parseOr fuel ts₂
          let (js, ts₄) ← parseJoins fuel ts₃
          some (.mk k src cond :: js, ts₄)
      | _ => none) := rfl

theorem parseOr_succ (fuel : Nat) (ts : List Tok) :
    parseOr (fuel + 1) ts =
      (do
      let (l, ts₁) ← parseAnd fuel ts
      match ts₁ with
      | .kw .kor :: rest => do
          let (r, ts₂) ← parseOr fuel rest
          some (.bin .opOr l r, ts₂)
      | _ => some (l, ts₁)) := rfl

theorem parseAnd_succ (fuel : Nat) (ts : List Tok) :
    parseAnd (fuel + 1) ts =
      (do
      let (l, ts₁) ← parseCmp fuel ts
      match ts₁ with
      | .kw .kand :: rest => do
          let (r, ts₂) ← parseAnd fuel rest
          some (.bin .opAnd l r, ts₂)
      | _ => some (l, ts₁)) := rfl

theorem parseCmp_succ (fuel : Nat) (ts : List Tok) :
    parseCmp (fuel + 1) ts =
      (do
      let (l, ts₁) ← parseAdd fuel ts
      match ts₁ with
      | .teq :: rest => do
          let (r, ts₂) ← parseAdd fuel rest
          some (.bin .opEq l r, ts₂)
      | .tlt :: rest => do
          let (r, ts₂) ← parseAdd fuel rest
          some (.bin .opLt l r, ts₂)
      | .tle :: rest => do
          let (r, ts₂) ← parseAdd fuel rest
          some (.bin .opLe l r, ts₂)
      | .tgt :: rest => do
          let (r, ts₂) ← parseAdd fuel rest
          some (.bin .opGt l r, ts₂)
      | .tge :: rest => do
          let (r, ts₂) ← parseAdd fuel rest
          some (.bin .opGe l r, ts₂)
      | .kw .klike :: rest => do
          let (r, ts₂) ← parseAdd fuel rest
          some (.bin .opLike l r, ts₂)
      | .kw .kis :: .kw .knot :: .kw .knull :: rest =>
          some (.isNull l true, rest)
      | .kw .kis :: .kw .knull :: rest => some (.isNull l false, rest)
      | _ => some (l, ts₁)) := rfl

theorem parseAdd_succ (fuel : Nat) (ts : List Tok) :
    parseAdd (fuel + 1) ts =
      (do
      let (l, ts₁) ← parsePrim fuel ts
      match ts₁ with
      | .tminus :: rest => do
          let (r, ts₂) ← parseAdd fuel rest
          some (.bin .opSub l r, ts₂)
      | _ => some (l, ts₁)) := rfl

theorem parsePrim_succ (fuel : Nat) (ts : List Tok) :
    parsePrim (fuel + 1) ts =
      (match ts with
      | .num s :: rest => some (.lit (.num s), rest)
      | .str s :: rest => some (.lit (.str s), rest)
      | .kw .ktrue :: rest => some (.lit (.bool true), rest)
      | .kw .kfalse :: rest => some (.lit (.bool false), rest)
      | .kw .knull :: rest => some (.lit .null, rest)
      | .kw .kcurrentDate :: rest => some (.lit .currentDate, rest)
      | .kw .kinterval :: .str s :: rest => some (.lit (.interval s), rest)
      | .param n :: rest => some (.param n none, rest)
      | .kw .kcase :: rest => do
          let (bs, ts₁) ← parseWhens fuel rest
          match ts₁ with
          | .kw .kelse :: ts₂ => do
              let (e, ts₃) ← parseOr fuel ts₂
              match ts₃ with
              | .kw .kend :: r => some (.caseWhen bs (some e), r)
              | _ => none
          | .kw .kend :: r => some (.caseWhen bs none, r)
          | _ => none
      | .ident n :: .lparen :: .rparen :: rest => some (.func n [], rest)
      | .ident n :: .lparen :: rest => do
          let (args, ts₁) ← parseArgs fuel rest
          match ts₁ with
          | .rparen :: r => some (.func n args, r)
          | _ => none
      | .ident q :: .dot :: .ident n :: rest => some (.col (some q) n, rest)
      | .ident n :: rest => some (.col none n, rest)
      | .lparen :: rest => do
          let (e, ts₁) ← parseOr fuel rest
          match ts₁ with
          | .rparen :: r => some (e, r)
          | _ => none
      | _ => none) := rfl

theorem parseWhens_succ (fuel : Nat) (ts : List Tok) :
    parseWhens (fuel + 1) ts =
      (match ts with
      | .kw .kwhen :: rest => do
          let (c, ts₁) ← parseOr fuel rest
          match ts₁ with
          | .kw .kthen :: ts₂ => do
              let (t, ts₃) ← parseOr fuel ts₂
              let (bs, ts₄) ← parseWhens fuel ts₃
              some ((c, t) :: bs, ts₄)
          | _ => none
      | _ => some ([], ts)) := rfl

theorem parseArgs_succ (fuel : Nat) (ts : List Tok) :
    parseArgs (fuel + 1) ts =
      (do
      let (e, ts₁) ← parseOr fuel ts
      match ts₁ with
      | .comma :: rest => do
          let (es, ts₂) ← parseArgs fuel rest
          some (e :: es, ts₂)
      | _ => some ([e], ts₁)) := rfl

theorem parseExprListP_succ (fuel : Nat) (ts : List Tok) :
    parseExprListP (fuel + 1) ts =
      (do
      let (e, ts₁) ← parseOr fuel ts
      match ts₁ with
      | .comma :: rest => do
          let (es, ts₂) ← parseExprListP fuel rest
          some (e :: es, ts₂)
      | _ => some ([e], ts₁)) := rfl

theorem parseOrderItems_succ (fuel : Nat) (ts : List Tok) :
    parseOrderItems (fuel + 1) ts =
      (do
      let (e, ts₁) ← parseOr fuel ts
      let (d, ts₂) :=
        match ts₁ with
        | .kw .kasc :: r => (OrderDir.asc, r)
        | .kw .kdesc :: r => (OrderDir.desc, r)
        | _ => (OrderDir.asc, ts₁)
      match ts₂ with
      | .comma :: rest => do
          let (os, ts₃) ← parseOrderItems fuel rest
          some ((e, d) :: os, ts₃)
      | _ => some ([(e, d)], ts₂)) := rfl

theorem contP_le_contAdd : ∀ t, contP t = true → contAdd t = true :=
  fun t h => by simp [contAdd, h]

theorem contAdd_le_contCmp : ∀ t, contAdd t = true → contCmp t = true :=
  fun t h => by simp [contCmp, h]

theorem contCmp_le_contAnd : ∀ t, contCmp t = true → contAnd t = true :=
  fun t h => by simp [contAnd, h]

theorem contAnd_le_contOr : ∀ t, contAnd t = true → contOr t = true :=
  fun t h => by simp [contOr, h]

theorem contOr_le_contArg : ∀ t, contOr t = true → contArg t = true :=
  fun t h => by simp [contArg, h]

theorem contOr_le_contWhens : ∀ t, contOr t = true → contWhens t = true :=
  fun t h => by simp [contWhens, h]

mutual
theorem roundPrimW : ∀ (fuel : Nat) (e : Expr) (rest : List Tok),
    wfExpr e = true → noCont contP rest →
    16 * (parenIf (isCompoundE e) (emitExpr e)).length + 10 ≤ fuel →
    parsePrim fuel (parenIf (isCompoundE e) (emitExpr e) ++ rest) = some (e, rest)
  | 0, e, rest, _, _, hf => absurd hf (by omega)
  | fuel + 1, .lit (.num s), rest, _, _, _ => by
      show parsePrim (fuel + 1) (Tok.num s :: rest) = some (.lit (.num s), rest)
      rw [parsePrim_succ]
  | fuel + 1, .lit (.str s), rest, _, _, _ => by
      show parsePrim (fuel + 1) (Tok.str s :: rest) = some (.lit (.str s), rest)
      rw [parsePrim_succ]
  | fuel + 1, .lit (.bool true), rest, _, _, _ => by
      show parsePrim (fuel + 1) (Tok.kw Kw.ktrue :: rest) = some (.lit (.bool true), rest)
      rw [parsePrim_succ]
  | fuel + 1, .lit (.bool false), rest, _, _, _ => by
      show parsePrim (fuel + 1) (Tok.kw Kw.kfalse :: rest) = some (.lit (.bool false), rest)
      rw [parsePrim_succ]
  | fuel + 1, .lit .null, rest, _, _, _ => by
      show parsePrim (fuel + 1) (Tok.kw Kw.knull :: rest) = some (.lit .null, rest)
      rw [parsePrim_succ]
  | fuel + 1, .lit .currentDate, rest, _, _, _ => by
      show parsePrim (fuel + 1) (Tok.kw Kw.kcurrentDate :: rest) = some (.lit .currentDate, rest)
      rw [parsePrim_succ]
  | fuel + 1, .lit (.interval s), rest, _, _, _ => by
      show parsePrim (fuel + 1) (Tok.kw Kw.kinterval :: Tok.str s :: rest) = some (.lit (.interval s), rest)
      rw [parsePrim_succ]
  | fuel + 1, .param n none, rest, _, _, _ => by
      show parsePrim (fuel + 1) (Tok.param n :: rest) = some (.param n none, rest)
      rw [parsePrim_succ]
  | fuel + 1, .param n (some v), rest, hw, _, _ => by simp [wfExpr] at hw
  | fuel + 1, .col none n, rest, _, hr, _ => by
      show parsePrim (fuel + 1) (Tok.ident n :: rest) = some (.col none n, rest)
      rw [parsePrim_succ]
      cases rest with
      | nil => rfl
      | cons t ts' =>
          simp only [noCont] at hr
          split <;> simp_all [contP]
  | fuel + 1, .col (some q) n, rest, _, _, _ => by
      show parsePrim (fuel + 1) (Tok.ident q :: Tok.dot :: Tok.ident n :: rest) =
        some (.col (some q) n, rest)
      rw [parsePrim_succ]
  | fuel + 1, .caseWhen bs none, rest, hw, hr, hf => by
      have hunf : parenIf (isCompoundE (Expr.caseWhen bs none))
            (emitExpr (Expr.caseWhen bs none)) ++ rest =
          Tok.kw Kw.kcase :: (emitBranches bs ++ (Tok.kw Kw.kend :: rest)) := by
        simp [isCompoundE, parenIf, emitExpr]
      rw [hunf, parsePrim_succ]
      have hlen : (parenIf (isCompoundE (Expr.caseWhen bs none))
          (emitExpr (.caseWhen bs none))).length
          = (emitBranches bs).length + 2 := by
        simp [isCompoundE, parenIf, emitExpr]
      have hW := roundWhens fuel bs (Tok.kw Kw.kend :: rest)
        (by simp only [wfExpr, wfExprOpt, Bool.and_eq_true] at hw; exact hw.1)
        rfl (by rw [hlen] at hf; omega)
      simp only [List.singleton_append] at hW
      simp only [hW, Option.bind_some, Option.some_bind, Option.bind_eq_bind]
  | fuel + 1, .caseWhen bs (some e'), rest, hw, hr, hf => by
      have hw2 : wfBranches bs = true ∧ wfExpr e' = true := by
        simpa [wfExpr, wfExprOpt, Bool.and_eq_true] using hw
      have hunf : parenIf (isCompoundE (Expr.caseWhen bs (some e')))
            (emitExpr (Expr.caseWhen bs (some e'))) ++ rest =
          Tok.kw Kw.kcase :: (emitBranches bs ++
            (Tok.kw Kw.kelse :: (emitExpr e' ++ (Tok.kw Kw.kend :: rest)))) := by
        simp [isCompoundE, parenIf, emitExpr]
      have hlen : (parenIf (isCompoundE (Expr.caseWhen bs (some e')))
          (emitExpr (.caseWhen bs (some e')))).length
          = (emitBranches bs).length + (emitExpr e').length + 3 := by
        simp [isCompoundE, parenIf, emitExpr]
        try omega
      rw [hunf, parsePrim_succ]
      have hW := roundWhens fuel bs
        (Tok.kw Kw.kelse :: (emitExpr e' ++ (Tok.kw Kw.kend :: rest)))
        hw2.1 rfl (by rw [hlen] at hf; omega)
      simp only [hW, Option.bind_some, Option.some_bind, Option.bind_eq_bind]
      have hOr := roundOr fuel e' (Tok.kw Kw.kend :: rest) hw2.2 rfl
        (by rw [hlen] at hf; omega)
      simp only [hOr, Option.bind_some, Option.some_bind, Option.bind_eq_bind]
  | fuel + 1, .func n [], rest, _, _, _ => by
      have hunf : parenIf (isCompoundE (Expr.func n []))
            (emitExpr (Expr.func n [])) ++ rest =
          Tok.ident n :: Tok.lparen :: Tok.rparen :: rest := by
        simp [isCompoundE, parenIf, emitExpr, emitArgs]
      rw [hunf, parsePrim_succ]
  | fuel + 1, .func n (a :: as), rest, hw, hr, hf => by
      have hunf : parenIf (isCompoundE (Expr.func n (a :: as)))
            (emitExpr (Expr.func n (a :: as))) ++ rest =
          Tok.ident n :: Tok.lparen :: (emitArgs (a :: as) ++ (Tok.rparen :: rest)) := by
        simp [isCompoundE, parenIf, emitExpr]
      rw [hunf, parsePrim_succ]
      obtain ⟨t, X, hX, ht1, ht2⟩ := emitArgs_head a as
      have hlen : (parenIf (isCompoundE (Expr.func n (a :: as)))
          (emitExpr (.func n (a :: as)))).length
          = (emitArgs (a :: as)).length + 3 := by
        simp [isCompoundE, parenIf, emitExpr]
        try omega
      have hA := roundArgs fuel a as (Tok.rparen :: rest)
        (by simp only [wfExpr, Bool.and_eq_true] at hw; exact hw.2) rfl
        (by rw [hlen] at hf; omega)
      rw [hX] at hA ⊢
      split
      all_goals try simp_all [Option.bind_some, Option.some_bind, Option.bind_eq_bind]
      all_goals
        exfalso
        rename_i hno1 hno2 heq
        exact hno1 _ heq.2.symm
  | fuel + 1, .bin .opOr l r, rest, hw, hr, hf => by
      have hlen : (parenIf (isCompoundE (.bin .opOr l r)) (emitExpr (.bin .opOr l r))).length
          = (emitExpr (.bin .opOr l r)).length + 2 := by
        simp [isCompoundE, parenIf]
      show parsePrim (fuel + 1)
        (Tok.lparen :: ((emitExpr (.bin .opOr l r) ++ [Tok.rparen]) ++ rest)) =
        some (.bin .opOr l r, rest)
      rw [List.append_assoc, parsePrim_succ]
      have hOr := roundOr fuel (.bin .opOr l r) (Tok.rparen :: rest) hw rfl
        (by rw [hlen] at hf; omega)
      simp only [List.singleton_append, hOr, Option.bind_some, Option.some_bind,
        Option.bind_eq_bind]
  | fuel + 1, .bin .opAnd l r, rest, hw, hr, hf => by
      have hlen : (parenIf (isCompoundE (.bin .opAnd l r)) (emitExpr (.bin .opAnd l r))).length
          = (emitExpr (.bin .opAnd l r)).length + 2 := by
        simp [isCompoundE, parenIf]
      show parsePrim (fuel + 1)
        (Tok.lparen :: ((emitExpr (.bin .opAnd l r) ++ [Tok.rparen]) ++ rest)) =
        some (.bin .opAnd l r, rest)
      rw [List.append_assoc, parsePrim_succ]
      have hOr := roundOr fuel (.bin .opAnd l r) (Tok.rparen :: rest) hw rfl
        (by rw [hlen] at hf; omega)
      simp only [List.singleton_append, hOr, Option.bind_some, Option.some_bind,
        Option.bind_eq_bind]
  | fuel + 1, .bin .opEq l r, rest, hw, hr, hf => by
      have hlen : (parenIf (isCompoundE (.bin .opEq l r)) (emitExpr (.bin .opEq l r))).length
          = (emitExpr (.bin .opEq l r)).length + 2 := by
        simp [isCompoundE, parenIf]
      show parsePrim (fuel + 1)
        (Tok.lparen :: ((emitExpr (.bin .opEq l r) ++ [Tok.rparen]) ++ rest)) =
        some (.bin .opEq l r, rest)
      rw [List.append_assoc, parsePrim_succ]
      have hOr := roundOr fuel (.bin .opEq l r) (Tok.rparen :: rest) hw rfl
        (by rw [hlen] at hf; omega)
      simp only [List.singleton_append, hOr, Option.bind_some, Option.some_bind,
        Option.bind_eq_bind]
  | fuel + 1, .bin .opLt l r, rest, hw, hr, hf => by
      have hlen : (parenIf (isCompoundE (.bin .opLt l r)) (emitExpr (.bin .opLt l r))).length
          = (emitExpr (.bin .opLt l r)).length + 2 := by
        simp [isCompoundE, parenIf]
      show parsePrim (fuel + 1)
        (Tok.lparen :: ((emitExpr (.bin .opLt l r) ++ [Tok.rparen]) ++ rest)) =
        some (.bin .opLt l r, rest)
      rw [List.append_assoc, parsePrim_succ]
      have hOr := roundOr fuel (.bin .opLt l r) (Tok.rparen :: rest) hw rfl
        (by rw [hlen] at hf; omega)
      simp only [List.singleton_append, hOr, Option.bind_some, Option.some_bind,
        Option.bind_eq_bind]
  | fuel + 1, .bin .opLe l r, rest, hw, hr, hf => by
      have hlen : (parenIf (isCompoundE (.bin .opLe l r)) (emitExpr (.bin .opLe l r))).length
          = (emitExpr (.bin .opLe l r)).length + 2 := by
        simp [isCompoundE, parenIf]
      show parsePrim (fuel + 1)
        (Tok.lparen :: ((emitExpr (.bin .opLe l r) ++ [Tok.rparen]) ++ rest)) =
        some (.bin .opLe l r, rest)
      rw [List.append_assoc, parsePrim_succ]
      have hOr := roundOr fuel (.bin .opLe l r) (Tok.rparen :: rest) hw rfl
        (by rw [hlen] at hf; omega)
      simp only [List.singleton_append, hOr, Option.bind_some, Option.some_bind,
        Option.bind_eq_bind]
  | fuel + 1, .bin .opGt l r, rest, hw, hr, hf => by
      have hlen : (parenIf (isCompoundE (.bin .opGt l r)) (emitExpr (.bin .opGt l r))).length
          = (emitExpr (.bin .opGt l r)).length + 2 := by
        simp [isCompoundE, parenIf]
      show parsePrim (fuel + 1)
        (Tok.lparen :: ((emitExpr (.bin .opGt l r) ++ [Tok.rparen]) ++ rest)) =
        some (.bin .opGt l r, rest)
      rw [List.append_assoc, parsePrim_succ]
      have hOr := roundOr fuel (.bin .opGt l r) (Tok.rparen :: rest) hw rfl
        (by rw [hlen] at hf; omega)
      simp only [List.singleton_append, hOr, Option.bind_some, Option.some_bind,
        Option.bind_eq_bind]
  | fuel + 1, .bin .opGe l r, rest, hw, hr, hf => by
      have hlen : (parenIf (isCompoundE (.bin .opGe l r)) (emitExpr (.bin .opGe l r))).length
          = (emitExpr (.bin .opGe l r)).length + 2 := by
        simp [isCompoundE, parenIf]
      show parsePrim (fuel + 1)
        (Tok.lparen :: ((emitExpr (.bin .opGe l r) ++ [Tok.rparen]) ++ rest)) =
        some (.bin .opGe l r, rest)
      rw [List.append_assoc, parsePrim_succ]
      have hOr := roundOr fuel (.bin .opGe l r) (Tok.rparen :: rest) hw rfl
        (by rw [hlen] at hf; omega)
      simp only [List.singleton_append, hOr, Option.bind_some, Option.some_bind,
        Option.bind_eq_bind]
  | fuel + 1, .bin .opLike l r, rest, hw, hr, hf => by
      have hlen : (parenIf (isCompoundE (.bin .opLike l r)) (emitExpr (.bin .opLike l r))).length
          = (emitExpr (.bin .opLike l r)).length + 2 := by
        simp [isCompoundE, parenIf]
      show parsePrim (fuel + 1)
        (Tok.lparen :: ((emitExpr (.bin .opLike l r) ++ [Tok.rparen]) ++ rest)) =
        some (.bin .opLike l r, rest)
      rw [List.append_assoc, parsePrim_succ]
      have hOr := roundOr fuel (.bin .opLike l r) (Tok.rparen :: rest) hw rfl
        (by rw [hlen] at hf; omega)
      simp only [List.singleton_append, hOr, Option.bind_some, Option.some_bind,
        Option.bind_eq_bind]
  | fuel + 1, .bin .opSub l r, rest, hw, hr, hf => by
      have hlen : (parenIf (isCompoundE (.bin .opSub l r)) (emitExpr (.bin .opSub l r))).length
          = (emitExpr (.bin .opSub l r)).length + 2 := by
        simp [isCompoundE, parenIf]
      show parsePrim (fuel + 1)
        (Tok.lparen :: ((emitExpr (.bin .opSub l r) ++ [Tok.rparen]) ++ rest)) =
        some (.bin .opSub l r, rest)
      rw [List.append_assoc, parsePrim_succ]
      have hOr := roundOr fuel (.bin .opSub l r) (Tok.rparen :: rest) hw rfl
        (by rw [hlen] at hf; omega)
      simp only [List.singleton_append, hOr, Option.bind_some, Option.some_bind,
        Option.bind_eq_bind]
  | fuel + 1, .isNull e' neg, rest, hw, hr, hf => by
      have hlen : (parenIf (isCompoundE (.isNull e' neg)) (emitExpr (.isNull e' neg))).length
          = (emitExpr (.isNull e' neg)).length + 2 := by
        simp [isCompoundE, parenIf]
      show parsePrim (fuel + 1)
        (Tok.lparen :: ((emitExpr (.isNull e' neg) ++ [Tok.rparen]) ++ rest)) =
        some (.isNull e' neg, rest)
      rw [List.append_assoc, parsePrim_succ]
      have hOr := roundOr fuel (.isNull e' neg) (Tok.rparen :: rest) hw rfl
        (by rw [hlen] at hf; omega)
      simp only [List.singleton_append, hOr, Option.bind_some, Option.some_bind,
        Option.bind_eq_bind]
termination_by fuel e rest _ _ _ => (szExpr e, (5 - exprLvl e) % 5)
decreasing_by all_goals
  first
  | (apply Prod.Lex.right
     simp [exprLvl])
  | (apply Prod.Lex.right
     simp [exprLvl]
     omega)
  | (apply Prod.Lex.left
     simp [szExpr, szExprs, szBranches, szExprOpt]
     omega)
  | (apply Prod.Lex.left
     simp [szExpr, szExprs, szBranches, szExprOpt])


theorem roundAddW : ∀ (fuel : Nat) (e : Expr) (rest : List Tok),
    wfExpr e = true → noCont contAdd rest →
    16 * (parenIf (aboveAddE e) (emitExpr e)).length + 11 ≤ fuel →
    parseAdd fuel (parenIf (aboveAddE e) (emitExpr e) ++ rest) = some (e, rest)
  | 0, e, rest, _, _, hf => absurd hf (by omega)
  | fuel + 1, .bin .opOr l r, rest, hw, hr, hf =>
      parseAdd_step fuel (.bin .opOr l r) _ rest hr
        (roundPrimW fuel (.bin .opOr l r) rest hw
          (noCont_mono _ _ contP_le_contAdd rest hr)
          (by simp [isCompoundE, aboveAddE, parenIf] at hf ⊢; omega))
  | fuel + 1, .bin .opAnd l r, rest, hw, hr, hf =>
      parseAdd_step fuel (.bin .opAnd l r) _ rest hr
        (roundPrimW fuel (.bin .opAnd l r) rest hw
          (noCont_mono _ _ contP_le_contAdd rest hr)
          (by simp [isCompoundE, aboveAddE, parenIf] at hf ⊢; omega))
  | fuel + 1, .bin .opEq l r, rest, hw, hr, hf =>
      parseAdd_step fuel (.bin .opEq l r) _ rest hr
        (roundPrimW fuel (.bin .opEq l r) rest hw
          (noCont_mono _ _ contP_le_contAdd rest hr)
          (by simp [isCompoundE, aboveAddE, parenIf] at hf ⊢; omega))
  | fuel + 1, .bin .opLt l r, rest, hw, hr, hf =>
      parseAdd_step fuel (.bin .opLt l r) _ rest hr
        (roundPrimW fuel (.bin .opLt l r) rest hw
          (noCont_mono _ _ contP_le_contAdd rest hr)
          (by simp [isCompoundE, aboveAddE, parenIf] at hf ⊢; omega))
  | fuel + 1, .bin .opLe l r, rest, hw, hr, hf =>
      parseAdd_step fuel (.bin .opLe l r) _ rest hr
        (roundPrimW fuel (.bin .opLe l r) rest hw
          (noCont_mono _ _ contP_le_contAdd rest hr)
          (by simp [isCompoundE, aboveAddE, parenIf] at hf ⊢; omega))
  | fuel + 1, .bin .opGt l r, rest, hw, hr, hf =>
      parseAdd_step fuel (.bin .opGt l r) _ rest hr
        (roundPrimW fuel (.bin .opGt l r) rest hw
          (noCont_mono _ _ contP_le_contAdd rest hr)
          (by simp [isCompoundE, aboveAddE, parenIf] at hf ⊢; omega))
  | fuel + 1, .bin .opGe l r, rest, hw, hr, hf =>
      parseAdd_step fuel (.bin .opGe l r) _ rest hr
        (roundPrimW fuel (.bin .opGe l r) rest hw
          (noCont_mono _ _ contP_le_contAdd rest hr)
          (by simp [isCompoundE, aboveAddE, parenIf] at hf ⊢; omega))
  | fuel + 1, .bin .opLike l r, rest, hw, hr, hf =>
      parseAdd_step fuel (.bin .opLike l r) _ rest hr
        (roundPrimW fuel (.bin .opLike l r) rest hw
          (noCont_mono _ _ contP_le_contAdd rest hr)
          (by simp [isCompoundE, aboveAddE, parenIf] at hf ⊢; omega))
  | fuel + 1, .isNull e' neg, rest, hw, hr, hf =>
      parseAdd_step fuel (.isNull e' neg) _ rest hr
        (roundPrimW fuel (.isNull e' neg) rest hw
          (noCont_mono _ _ contP_le_contAdd rest hr)
          (by simp [isCompoundE, aboveAddE, parenIf] at hf ⊢; omega))
  | fuel + 1, .lit l, rest, hw, hr, hf =>
      parseAdd_step fuel (.lit l) _ rest hr
        (roundPrimW fuel (.lit l) rest hw
          (noCont_mono _ _ contP_le_contAdd rest hr)
          (by simp [isCompoundE, aboveAddE, parenIf] at hf ⊢; omega))
  | fuel + 1, .col q n, rest, hw, hr, hf =>
      parseAdd_step fuel (.col q n) _ rest hr
        (roundPrimW fuel (.col q n) rest hw
          (noCont_mono _ _ contP_le_contAdd rest hr)
          (by simp [isCompoundE, aboveAddE, parenIf] at hf ⊢; omega))
  | fuel + 1, .param n v, rest, hw, hr, hf =>
      parseAdd_step fuel (.param n v) _ rest hr
        (roundPrimW fuel (.param n v) rest hw
          (noCont_mono _ _ contP_le_contAdd rest hr)
          (by simp [isCompoundE, aboveAddE, parenIf] at hf ⊢; omega))
  | fuel + 1, .caseWhen bs e?, rest, hw, hr, hf =>
      parseAdd_step fuel (.caseWhen bs e?) _ rest hr
        (roundPrimW fuel (.caseWhen bs e?) rest hw
          (noCont_mono _ _ contP_le_contAdd rest hr)
          (by simp [isCompoundE, aboveAddE, parenIf] at hf ⊢; omega))
  | fuel + 1, .func n args, rest, hw, hr, hf =>
      parseAdd_step fuel (.func n args) _ rest hr
        (roundPrimW fuel (.func n args) rest hw
          (noCont_mono _ _ contP_le_contAdd rest hr)
          (by simp [isCompoundE, aboveAddE, parenIf] at hf ⊢; omega))
  | fuel + 1, .bin .opSub l r, rest, hw, hr, hf => by
      have hw2 : wfExpr l = true ∧ wfExpr r = true := by
        simpa [wfExpr, Bool.and_eq_true] using hw
      have hunf : parenIf (aboveAddE (Expr.bin .opSub l r))
            (emitExpr (Expr.bin .opSub l r)) ++ rest =
          parenIf (isCompoundE l) (emitExpr l) ++
            (Tok.tminus :: (parenIf (aboveAddE r) (emitExpr r) ++ rest)) := by
        simp [aboveAddE, parenIf, emitExpr, List.append_assoc]
      rw [hunf, parseAdd_succ]
      have hlen : (parenIf (aboveAddE (Expr.bin .opSub l r))
            (emitExpr (.bin .opSub l r))).length =
          (parenIf (isCompoundE l) (emitExpr l)).length + 1 +
          (parenIf (aboveAddE r) (emitExpr r)).length := by
        simp [aboveAddE, parenIf, emitExpr]
        try omega
      rw [hlen] at hf
      have hPrim := roundPrimW fuel l
        (Tok.tminus :: (parenIf (aboveAddE r) (emitExpr r) ++ rest))
        hw2.1 rfl (by omega)
      simp only [hPrim, Option.bind_some, Option.some_bind, Option.bind_eq_bind]
      have hAdd := roundAddW fuel r rest hw2.2 hr (by omega)
      simp only [hAdd, Option.bind_some, Option.some_bind, Option.bind_eq_bind]
termination_by fuel e rest _ _ _ => (szExpr e, (6 - exprLvl e) % 5)
decreasing_by all_goals
  first
  | (apply Prod.Lex.right
     simp [exprLvl])
  | (apply Prod.Lex.right
     simp [exprLvl]
     omega)
  | (apply Prod.Lex.left
     simp [szExpr, szExprs, szBranches, szExprOpt]
     omega)
  | (apply Prod.Lex.left
     simp [szExpr, szExprs, szBranches, szExprOpt])


theorem roundCmpW : ∀ (fuel : Nat) (e : Expr) (rest : List Tok),
    wfExpr e = true → noCont contCmp rest →
    16 * (parenIf (isOrAndE e) (emitExpr e)).length + 12 ≤ fuel →
    parseCmp fuel (parenIf (isOrAndE e) (emitExpr e) ++ rest) = some (e, rest)
  | 0, e, rest, _, _, hf => absurd hf (by omega)
  | fuel + 1, .bin .opOr l r, rest, hw, hr, hf =>
      parseCmp_step fuel (.bin .opOr l r) _ rest hr
        (roundAddW fuel (.bin .opOr l r) rest hw
          (noCont_mono _ _ contAdd_le_contCmp rest hr)
          (by simp [isOrAndE, aboveAddE, parenIf] at hf ⊢; omega))
  | fuel + 1, .bin .opAnd l r, rest, hw, hr, hf =>
      parseCmp_step fuel (.bin .opAnd l r) _ rest hr
        (roundAddW fuel (.bin .opAnd l r) rest hw
          (noCont_mono _ _ contAdd_le_contCmp rest hr)
          (by simp [isOrAndE, aboveAddE, parenIf] at hf ⊢; omega))
  | fuel + 1, .bin .opSub l r, rest, hw, hr, hf =>
      parseCmp_step fuel (.bin .opSub l r) _ rest hr
        (roundAddW fuel (.bin .opSub l r) rest hw
          (noCont_mono _ _ contAdd_le_contCmp rest hr)
          (by simp [isOrAndE, aboveAddE, parenIf] at hf ⊢; omega))
  | fuel + 1, .lit l, rest, hw, hr, hf =>
      parseCmp_step fuel (.lit l) _ rest hr
        (roundAddW fuel (.lit l) rest hw
          (noCont_mono _ _ contAdd_le_contCmp rest hr)
          (by simp [isOrAndE, aboveAddE, parenIf] at hf ⊢; omega))
  | fuel + 1, .col q n, rest, hw, hr, hf =>
      parseCmp_step fuel (.col q n) _ rest hr
        (roundAddW fuel (.col q n) rest hw
          (noCont_mono _ _ contAdd_le_contCmp rest hr)
          (by simp [isOrAndE, aboveAddE, parenIf] at hf ⊢; omega))
  | fuel + 1, .param n v, rest, hw, hr, hf =>
      parseCmp_step fuel (.param n v) _ rest hr
        (roundAddW fuel (.param n v) rest hw
          (noCont_mono _ _ contAdd_le_contCmp rest hr)
          (by simp [isOrAndE, aboveAddE, parenIf] at hf ⊢; omega))
  | fuel + 1, .caseWhen bs e?, rest, hw, hr, hf =>
      parseCmp_step fuel (.caseWhen bs e?) _ rest hr
        (roundAddW fuel (.caseWhen bs e?) rest hw
          (noCont_mono _ _ contAdd_le_contCmp rest hr)
          (by simp [isOrAndE, aboveAddE, parenIf] at hf ⊢; omega))
  | fuel + 1, .func n args, rest, hw, hr, hf =>
      parseCmp_step fuel (.func n args) _ rest hr
        (roundAddW fuel (.func n args) rest hw
          (noCont_mono _ _ contAdd_le_contCmp rest hr)
          (by simp [isOrAndE, aboveAddE, parenIf] at hf ⊢; omega))
  | fuel + 1, .bin .opEq l r, rest, hw, hr, hf => by
      have hw2 : wfExpr l = true ∧ wfExpr r = true := by
        simpa [wfExpr, Bool.and_eq_true] using hw
      have hunf : parenIf (isOrAndE (Expr.bin .opEq l r))
            (emitExpr (Expr.bin .opEq l r)) ++ rest =
          parenIf (aboveAddE l) (emitExpr l) ++
            ((.teq : Tok) :: (parenIf (aboveAddE r) (emitExpr r) ++ rest)) := by
        simp [isOrAndE, parenIf, emitExpr, List.append_assoc]
      rw [hunf, parseCmp_succ]
      have hlen : (parenIf (isOrAndE (Expr.bin .opEq l r))
            (emitExpr (.bin .opEq l r))).length =
          (parenIf (aboveAddE l) (emitExpr l)).length + 1 +
          (parenIf (aboveAddE r) (emitExpr r)).length := by
        simp [isOrAndE, parenIf, emitExpr]
        try omega
      rw [hlen] at hf
      have hAddL := roundAddW fuel l
        (.teq :: (parenIf (aboveAddE r) (emitExpr r) ++ rest))
        hw2.1 rfl (by omega)
      simp only [hAddL, Option.bind_some, Option.some_bind, Option.bind_eq_bind]
      have hAddR := roundAddW fuel r rest
        hw2.2 (noCont_mono _ _ contAdd_le_contCmp rest hr) (by omega)
      simp only [hAddR, Option.bind_some, Option.some_bind, Option.bind_eq_bind]
  | fuel + 1, .bin .opLt l r, rest, hw, hr, hf => by
      have hw2 : wfExpr l = true ∧ wfExpr r = true := by
        simpa [wfExpr, Bool.and_eq_true] using hw
      have hunf : parenIf (isOrAndE (Expr.bin .opLt l r))
            (emitExpr (Expr.bin .opLt l r)) ++ rest =
          parenIf (aboveAddE l) (emitExpr l) ++
            ((.tlt : Tok) :: (parenIf (aboveAddE r) (emitExpr r) ++ rest)) := by
        simp [isOrAndE, parenIf, emitExpr, List.append_assoc]
      rw [hunf, parseCmp_succ]
      have hlen : (parenIf (isOrAndE (Expr.bin .opLt l r))
            (emitExpr (.bin .opLt l r))).length =
          (parenIf (aboveAddE l) (emitExpr l)).length + 1 +
          (parenIf (aboveAddE r) (emitExpr r)).length := by
        simp [isOrAndE, parenIf, emitExpr]
        try omega
      rw [hlen] at hf
      have hAddL := roundAddW fuel l
        (.tlt :: (parenIf (aboveAddE r) (emitExpr r) ++ rest))
        hw2.1 rfl (by omega)
      simp only [hAddL, Option.bind_some, Option.some_bind, Option.bind_eq_bind]
      have hAddR := roundAddW fuel r rest
        hw2.2 (noCont_mono _ _ contAdd_le_contCmp rest hr) (by omega)
      simp only [hAddR, Option.bind_some, Option.some_bind, Option.bind_eq_bind]
  | fuel + 1, .bin .opLe l r, rest, hw, hr, hf => by
      have hw2 : wfExpr l = true ∧ wfExpr r = true := by
        simpa [wfExpr, Bool.and_eq_true] using hw
      have hunf : parenIf (isOrAndE (Expr.bin .opLe l r))
            (emitExpr (Expr.bin .opLe l r)) ++ rest =
          parenIf (aboveAddE l) (emitExpr l) ++
            ((.tle : Tok) :: (parenIf (aboveAddE r) (emitExpr r) ++ rest)) := by
        simp [isOrAndE, parenIf, emitExpr, List.append_assoc]
      rw [hunf, parseCmp_succ]
      have hlen : (parenIf (isOrAndE (Expr.bin .opLe l r))
            (emitExpr (.bin .opLe l r))).length =
          (parenIf (aboveAddE l) (emitExpr l)).length + 1 +
          (parenIf (aboveAddE r) (emitExpr r)).length := by
        simp [isOrAndE, parenIf, emitExpr]
        try omega
      rw [hlen] at hf
      have hAddL := roundAddW fuel l
        (.tle :: (parenIf (aboveAddE r) (emitExpr r) ++ rest))
        hw2.1 rfl (by omega)
      simp only [hAddL, Option.bind_some, Option.some_bind, Option.bind_eq_bind]
      have hAddR := roundAddW fuel r rest
        hw2.2 (noCont_mono _ _ contAdd_le_contCmp rest hr) (by omega)
      simp only [hAddR, Option.bind_some, Option.some_bind, Option.bind_eq_bind]
  | fuel + 1, .bin .opGt l r, rest, hw, hr, hf => by
      have hw2 : wfExpr l = true ∧ wfExpr r = true := by
        simpa [wfExpr, Bool.and_eq_true] using hw
      have hunf : parenIf (isOrAndE (Expr.bin .opGt l r))
            (emitExpr (Expr.bin .opGt l r)) ++ rest =
          parenIf (aboveAddE l) (emitExpr l) ++
            ((.tgt : Tok) :: (parenIf (aboveAddE r) (emitExpr r) ++ rest)) := by
        simp [isOrAndE, parenIf, emitExpr, List.append_assoc]
      rw [hunf, parseCmp_succ]
      have hlen : (parenIf (isOrAndE (Expr.bin .opGt l r))
            (emitExpr (.bin .opGt l r))).length =
          (parenIf (aboveAddE l) (emitExpr l)).length + 1 +
          (parenIf (aboveAddE r) (emitExpr r)).length := by
        simp [isOrAndE, parenIf, emitExpr]
        try omega
      rw [hlen] at hf
      have hAddL := roundAddW fuel l
        (.tgt :: (parenIf (aboveAddE r) (emitExpr r) ++ rest))
        hw2.1 rfl (by omega)
      simp only [hAddL, Option.bind_some, Option.some_bind, Option.bind_eq_bind]
      have hAddR := roundAddW fuel r rest
        hw2.2 (noCont_mono _ _ contAdd_le_contCmp rest hr) (by omega)
      simp only [hAddR, Option.bind_some, Option.some_bind, Option.bind_eq_bind]
  | fuel + 1, .bin .opGe l r, rest, hw, hr, hf => by
      have hw2 : wfExpr l = true ∧ wfExpr r = true := by
        simpa [wfExpr, Bool.and_eq_true] using hw
      have hunf : parenIf (isOrAndE (Expr.bin .opGe l r))
            (emitExpr (Expr.bin .opGe l r)) ++ rest =
          parenIf (aboveAddE l) (emitExpr l) ++
            ((.tge : Tok) :: (parenIf (aboveAddE r) (emitExpr r) ++ rest)) := by
        simp [isOrAndE, parenIf, emitExpr, List.append_assoc]
      rw [hunf, parseCmp_succ]
      have hlen : (parenIf (isOrAndE (Expr.bin .opGe l r))
            (emitExpr (.bin .opGe l r))).length =
          (parenIf (aboveAddE l) (emitExpr l)).length + 1 +
          (parenIf (aboveAddE r) (emitExpr r)).length := by
        simp [isOrAndE, parenIf, emitExpr]
        try omega
      rw [hlen] at hf
      have hAddL := roundAddW fuel l
        (.tge :: (parenIf (aboveAddE r) (emitExpr r) ++ rest))
        hw2.1 rfl (by omega)
      simp only [hAddL, Option.bind_some, Option.some_bind, Option.bind_eq_bind]
      have hAddR := roundAddW fuel r rest
        hw2.2 (noCont_mono _ _ contAdd_le_contCmp rest hr) (by omega)
      simp only [hAddR, Option.bind_some, Option.some_bind, Option.bind_eq_bind]
  | fuel + 1, .bin .opLike l r, rest, hw, hr, hf => by
      have hw2 : wfExpr l = true ∧ wfExpr r = true := by
        simpa [wfExpr, Bool.and_eq_true] using hw
      have hunf : parenIf (isOrAndE (Expr.bin .opLike l r))
            (emitExpr (Expr.bin .opLike l r)) ++ rest =
          parenIf (aboveAddE l) (emitExpr l) ++
            ((.kw .klike : Tok) :: (parenIf (aboveAddE r) (emitExpr r) ++ rest)) := by
        simp [isOrAndE, parenIf, emitExpr, List.append_assoc]
      rw [hunf, parseCmp_succ]
      have hlen : (parenIf (isOrAndE (Expr.bin .opLike l r))
            (emitExpr (.bin .opLike l r))).length =
          (parenIf (aboveAddE l) (emitExpr l)).length + 1 +
          (parenIf (aboveAddE r) (emitExpr r)).length := by
        simp [isOrAndE, parenIf, emitExpr]
        try omega
      rw [hlen] at hf
      have hAddL := roundAddW fuel l
        (.kw .klike :: (parenIf (aboveAddE r) (emitExpr r) ++ rest))
        hw2.1 rfl (by omega)
      simp only [hAddL, Option.bind_some, Option.some_bind, Option.bind_eq_bind]
      have hAddR := roundAddW fuel r rest
        hw2.2 (noCont_mono _ _ contAdd_le_contCmp rest hr) (by omega)
      simp only [hAddR, Option.bind_some, Option.some_bind, Option.bind_eq_bind]
  | fuel + 1, .isNull e' true, rest, hw, hr, hf => by
      have hw2 : wfExpr e' = true := by simpa [wfExpr] using hw
      have hunf : parenIf (isOrAndE (Expr.isNull e' true))
            (emitExpr (Expr.isNull e' true)) ++ rest =
          parenIf (aboveAddE e') (emitExpr e') ++ (Tok.kw Kw.kis :: Tok.kw Kw.knot :: Tok.kw Kw.knull :: rest) := by
        simp [isOrAndE, parenIf, emitExpr, List.append_assoc]
      rw [hunf, parseCmp_succ]
      have hlen : (parenIf (isOrAndE (Expr.isNull e' true))
            (emitExpr (.isNull e' true))).length =
          (parenIf (aboveAddE e') (emitExpr e')).length + ([Tok.kw Kw.kis] ++ ([Tok.kw Kw.knot] ++ [Tok.kw Kw.knull]) : List Tok).length := by
        simp [isOrAndE, parenIf, emitExpr]
        try omega
      rw [hlen] at hf
      have hAdd := roundAddW fuel e' (Tok.kw Kw.kis :: Tok.kw Kw.knot :: Tok.kw Kw.knull :: rest)
        hw2 rfl (by simp at hf ⊢; omega)
      simp only [hAdd, Option.bind_some, Option.some_bind, Option.bind_eq_bind]
  | fuel + 1, .isNull e' false, rest, hw, hr, hf => by
      have hw2 : wfExpr e' = true := by simpa [wfExpr] using hw
      have hunf : parenIf (isOrAndE (Expr.isNull e' false))
            (emitExpr (Expr.isNull e' false)) ++ rest =
          parenIf (aboveAddE e') (emitExpr e') ++ (Tok.kw Kw.kis :: Tok.kw Kw.knull :: rest) := by
        simp [isOrAndE, parenIf, emitExpr, List.append_assoc]
      rw [hunf, parseCmp_succ]
      have hlen : (parenIf (isOrAndE (Expr.isNull e' false))
            (emitExpr (.isNull e' false))).length =
          (parenIf (aboveAddE e') (emitExpr e')).length + ([Tok.kw Kw.kis] ++ ([] ++ [Tok.kw Kw.knull]) : List Tok).length := by
        simp [isOrAndE, parenIf, emitExpr]
        try omega
      rw [hlen] at hf
      have hAdd := roundAddW fuel e' (Tok.kw Kw.kis :: Tok.kw Kw.knull :: rest)
        hw2 rfl (by simp at hf ⊢; omega)
      simp only [hAdd, Option.bind_some, Option.some_bind, Option.bind_eq_bind]
termination_by fuel e rest _ _ _ => (szExpr e, (7 - exprLvl e) % 5)
decreasing_by all_goals
  first
  | (apply Prod.Lex.right
     simp [exprLvl])
  | (apply Prod.Lex.right
     simp [exprLvl]
     omega)
  | (apply Prod.Lex.left
     simp [szExpr, szExprs, szBranches, szExprOpt]
     omega)
  | (apply Prod.Lex.left
     simp [szExpr, szExprs, szBranches, szExprOpt])


theorem roundAndW : ∀ (fuel : Nat) (e : Expr) (rest : List Tok),
    wfExpr e = true → noCont contAnd rest →
    16 * (parenIf (isOrE e) (emitExpr e)).length + 13 ≤ fuel →
    parseAnd fuel (parenIf (isOrE e) (emitExpr e) ++ rest) = some (e, rest)
  | 0, e, rest, _, _, hf => absurd hf (by omega)
  | fuel + 1, .bin .opOr l r, rest, hw, hr, hf =>
      parseAnd_step fuel (.bin .opOr l r) _ rest hr
        (roundCmpW fuel (.bin .opOr l r) rest hw
          (noCont_mono _ _ contCmp_le_contAnd rest hr)
          (by simp [isOrE, isOrAndE, parenIf] at hf ⊢; omega))
  | fuel + 1, .bin .opEq l r, rest, hw, hr, hf =>
      parseAnd_step fuel (.bin .opEq l r) _ rest hr
        (roundCmpW fuel (.bin .opEq l r) rest hw
          (noCont_mono _ _ contCmp_le_contAnd rest hr)
          (by simp [isOrE, isOrAndE, parenIf] at hf ⊢; omega))
  | fuel + 1, .bin .opLt l r, rest, hw, hr, hf =>
      parseAnd_step fuel (.bin .opLt l r) _ rest hr
        (roundCmpW fuel (.bin .opLt l r) rest hw
          (noCont_mono _ _ contCmp_le_contAnd rest hr)
          (by simp [isOrE, isOrAndE, parenIf] at hf ⊢; omega))
  | fuel + 1, .bin .opLe l r, rest, hw, hr, hf =>
      parseAnd_step fuel (.bin .opLe l r) _ rest hr
        (roundCmpW fuel (.bin .opLe l r) rest hw
          (noCont_mono _ _ contCmp_le_contAnd rest hr)
          (by simp [isOrE, isOrAndE, parenIf] at hf ⊢; omega))
  | fuel + 1, .bin .opGt l r, rest, hw, hr, hf =>
      parseAnd_step fuel (.bin .opGt l r) _ rest hr
        (roundCmpW fuel (.bin .opGt l r) rest hw
          (noCont_mono _ _ contCmp_le_contAnd rest hr)
          (by simp [isOrE, isOrAndE, parenIf] at hf ⊢; omega))
  | fuel + 1, .bin .opGe l r, rest, hw, hr, hf =>
      parseAnd_step fuel (.bin .opGe l r) _ rest hr
        (roundCmpW fuel (.bin .opGe l r) rest hw
          (noCont_mono _ _ contCmp_le_contAnd rest hr)
          (by simp [isOrE, isOrAndE, parenIf] at hf ⊢; omega))
  | fuel + 1, .bin .opLike l r, rest, hw, hr, hf =>
      parseAnd_step fuel (.bin .opLike l r) _ rest hr
        (roundCmpW fuel (.bin .opLike l r) rest hw
          (noCont_mono _ _ contCmp_le_contAnd rest hr)
          (by simp [isOrE, isOrAndE, parenIf] at hf ⊢; omega))
  | fuel + 1, .bin .opSub l r, rest, hw, hr, hf =>
      parseAnd_step fuel (.bin .opSub l r) _ rest hr
        (roundCmpW fuel (.bin .opSub l r) rest hw
          (noCont_mono _ _ contCmp_le_contAnd rest hr)
          (by simp [isOrE, isOrAndE, parenIf] at hf ⊢; omega))
  | fuel + 1, .isNull e' neg, rest, hw, hr, hf =>
      parseAnd_step fuel (.isNull e' neg) _ rest hr
        (roundCmpW fuel (.isNull e' neg) rest hw
          (noCont_mono _ _ contCmp_le_contAnd rest hr)
          (by simp [isOrE, isOrAndE, parenIf] at hf ⊢; omega))
  | fuel + 1, .lit l, rest, hw, hr, hf =>
      parseAnd_step fuel (.lit l) _ rest hr
        (roundCmpW fuel (.lit l) rest hw
          (noCont_mono _ _ contCmp_le_contAnd rest hr)
          (by simp [isOrE, isOrAndE, parenIf] at hf ⊢; omega))
  | fuel + 1, .col q n, rest, hw, hr, hf =>
      parseAnd_step fuel (.col q n) _ rest hr
        (roundCmpW fuel (.col q n) rest hw
          (noCont_mono _ _ contCmp_le_contAnd rest hr)
          (by simp [isOrE, isOrAndE, parenIf] at hf ⊢; omega))
  | fuel + 1, .param n v, rest, hw, hr, hf =>
      parseAnd_step fuel (.param n v) _ rest hr
        (roundCmpW fuel (.param n v) rest hw
          (noCont_mono _ _ contCmp_le_contAnd rest hr)
          (by simp [isOrE, isOrAndE, parenIf] at hf ⊢; omega))
  | fuel + 1, .caseWhen bs e?, rest, hw, hr, hf =>
      parseAnd_step fuel (.caseWhen bs e?) _ rest hr
        (roundCmpW fuel (.caseWhen bs e?) rest hw
          (noCont_mono _ _ contCmp_le_contAnd rest hr)
          (by simp [isOrE, isOrAndE, parenIf] at hf ⊢; omega))
  | fuel + 1, .func n args, rest, hw, hr, hf =>
      parseAnd_step fuel (.func n args) _ rest hr
        (roundCmpW fuel (.func n args) rest hw
          (noCont_mono _ _ contCmp_le_contAnd rest hr)
          (by simp [isOrE, isOrAndE, parenIf] at hf ⊢; omega))
  | fuel + 1, .bin .opAnd l r, rest, hw, hr, hf => by
      have hw2 : wfExpr l = true ∧ wfExpr r = true := by
        simpa [wfExpr, Bool.and_eq_true] using hw
      have hunf : parenIf (isOrE (Expr.bin .opAnd l r))
            (emitExpr (Expr.bin .opAnd l r)) ++ rest =
          parenIf (isOrAndE l) (emitExpr l) ++
            (Tok.kw Kw.kand :: (parenIf (isOrE r) (emitExpr r) ++ rest)) := by
        simp [isOrE, parenIf, emitExpr, List.append_assoc]
      rw [hunf, parseAnd_succ]
      have hlen : (parenIf (isOrE (Expr.bin .opAnd l r))
            (emitExpr (.bin .opAnd l r))).length =
          (parenIf (isOrAndE l) (emitExpr l)).length + 1 +
          (parenIf (isOrE r) (emitExpr r)).length := by
        simp [isOrE, parenIf, emitExpr]
        try omega
      rw [hlen] at hf
      have hCmp := roundCmpW fuel l
        (Tok.kw Kw.kand :: (parenIf (isOrE r) (emitExpr r) ++ rest))
        hw2.1 rfl (by omega)
      simp only [hCmp, Option.bind_some, Option.some_bind, Option.bind_eq_bind]
      have hAnd := roundAndW fuel r rest hw2.2 hr (by omega)
      simp only [hAnd, Option.bind_some, Option.some_bind, Option.bind_eq_bind]
termination_by fuel e rest _ _ _ => (szExpr e, (8 - exprLvl e) % 5)
decreasing_by all_goals
  first
  | (apply Prod.Lex.right
     simp [exprLvl])
  | (apply Prod.Lex.right
     simp [exprLvl]
     omega)
  | (apply Prod.Lex.left
     simp [szExpr, szExprs, szBranches, szExprOpt]
     omega)
  | (apply Prod.Lex.left
     simp [szExpr, szExprs, szBranches, szExprOpt])


theorem roundOr : ∀ (fuel : Nat) (e : Expr) (rest : List Tok),
    wfExpr e = true → noCont contOr rest →
    16 * (emitExpr e).length + 14 ≤ fuel →
    parseOr fuel (emitExpr e ++ rest) = some (e, rest)
  | 0, e, rest, _, _, hf => absurd hf (by omega)
  | fuel + 1, .bin .opAnd l r, rest, hw, hr, hf =>
      parseOr_step fuel (.bin .opAnd l r) _ rest hr
        (roundAndW fuel (.bin .opAnd l r) rest hw
          (noCont_mono _ _ contAnd_le_contOr rest hr)
          (by simp [isOrE, parenIf] at hf ⊢; omega))
  | fuel + 1, .bin .opEq l r, rest, hw, hr, hf =>
      parseOr_step fuel (.bin .opEq l r) _ rest hr
        (roundAndW fuel (.bin .opEq l r) rest hw
          (noCont_mono _ _ contAnd_le_contOr rest hr)
          (by simp [isOrE, parenIf] at hf ⊢; omega))
  | fuel + 1, .bin .opLt l r, rest, hw, hr, hf =>
      parseOr_step fuel (.bin .opLt l r) _ rest hr
        (roundAndW fuel (.bin .opLt l r) rest hw
          (noCont_mono _ _ contAnd_le_contOr rest hr)
          (by simp [isOrE, parenIf] at hf ⊢; omega))
  | fuel + 1, .bin .opLe l r, rest, hw, hr, hf =>
      parseOr_step fuel (.bin .opLe l r) _ rest hr
        (roundAndW fuel (.bin .opLe l r) rest hw
          (noCont_mono _ _ contAnd_le_contOr rest hr)
          (by simp [isOrE, parenIf] at hf ⊢; omega))
  | fuel + 1, .bin .opGt l r, rest, hw, hr, hf =>
      parseOr_step fuel (.bin .opGt l r) _ rest hr
        (roundAndW fuel (.bin .opGt l r) rest hw
          (noCont_mono _ _ contAnd_le_contOr rest hr)
          (by simp [isOrE, parenIf] at hf ⊢; omega))
  | fuel + 1, .bin .opGe l r, rest, hw, hr, hf =>
      parseOr_step fuel (.bin .opGe l r) _ rest hr
        (roundAndW fuel (.bin .opGe l r) rest hw
          (noCont_mono _ _ contAnd_le_contOr rest hr)
          (by simp [isOrE, parenIf] at hf ⊢; omega))
  | fuel + 1, .bin .opLike l r, rest, hw, hr, hf =>
      parseOr_step fuel (.bin .opLike l r) _ rest hr
        (roundAndW fuel (.bin .opLike l r) rest hw
          (noCont_mono _ _ contAnd_le_contOr rest hr)
          (by simp [isOrE, parenIf] at hf ⊢; omega))
  | fuel + 1, .bin .opSub l r, rest, hw, hr, hf =>
      parseOr_step fuel (.bin .opSub l r) _ rest hr
        (roundAndW fuel (.bin .opSub l r) rest hw
          (noCont_mono _ _ contAnd_le_contOr rest hr)
          (by simp [isOrE, parenIf] at hf ⊢; omega))
  | fuel + 1, .isNull e' neg, rest, hw, hr, hf =>
      parseOr_step fuel (.isNull e' neg) _ rest hr
        (roundAndW fuel (.isNull e' neg) rest hw
          (noCont_mono _ _ contAnd_le_contOr rest hr)
          (by simp [isOrE, parenIf] at hf ⊢; omega))
  | fuel + 1, .lit l, rest, hw, hr, hf =>
      parseOr_step fuel (.lit l) _ rest hr
        (roundAndW fuel (.lit l) rest hw
          (noCont_mono _ _ contAnd_le_contOr rest hr)
          (by simp [isOrE, parenIf] at hf ⊢; omega))
  | fuel + 1, .col q n, rest, hw, hr, hf =>
      parseOr_step fuel (.col q n) _ rest hr
        (roundAndW fuel (.col q n) rest hw
          (noCont_mono _ _ contAnd_le_contOr rest hr)
          (by simp [isOrE, parenIf] at hf ⊢; omega))
  | fuel + 1, .param n v, rest, hw, hr, hf =>
      parseOr_step fuel (.param n v) _ rest hr
        (roundAndW fuel (.param n v) rest hw
          (noCont_mono _ _ contAnd_le_contOr rest hr)
          (by simp [isOrE, parenIf] at hf ⊢; omega))
  | fuel + 1, .caseWhen bs e?, rest, hw, hr, hf =>
      parseOr_step fuel (.caseWhen bs e?) _ rest hr
        (roundAndW fuel (.caseWhen bs e?) rest hw
          (noCont_mono _ _ contAnd_le_contOr rest hr)
          (by simp [isOrE, parenIf] at hf ⊢; omega))
  | fuel + 1, .func n args, rest, hw, hr, hf =>
      parseOr_step fuel (.func n args) _ rest hr
        (roundAndW fuel (.func n args) rest hw
          (noCont_mono _ _ contAnd_le_contOr rest hr)
          (by simp [isOrE, parenIf] at hf ⊢; omega))
  | fuel + 1, .bin .opOr l r, rest, hw, hr, hf => by
      have hw2 : wfExpr l = true ∧ wfExpr r = true := by
        simpa [wfExpr, Bool.and_eq_true] using hw
      have hunf : emitExpr (Expr.bin .opOr l r) ++ rest =
          parenIf (isOrE l) (emitExpr l) ++
            (Tok.kw Kw.kor :: (emitExpr r ++ rest)) := by
        simp [emitExpr, List.append_assoc]
      rw [hunf, parseOr_succ]
      have hlen : (emitExpr (Expr.bin .opOr l r)).length =
          (parenIf (isOrE l) (emitExpr l)).length + 1 + (emitExpr r).length := by
        simp [emitExpr]
        try omega
      rw [hlen] at hf
      have hAnd := roundAndW fuel l (Tok.kw Kw.kor :: (emitExpr r ++ rest))
        hw2.1 rfl (by omega)
      simp only [hAnd, Option.bind_some, Option.some_bind, Option.bind_eq_bind]
      have hOr := roundOr fuel r rest hw2.2 hr (by omega)
      simp only [hOr, Option.bind_some, Option.some_bind, Option.bind_eq_bind]
termination_by fuel e rest _ _ _ => (szExpr e, (9 - exprLvl e) % 5)
decreasing_by all_goals
  first
  | (apply Prod.Lex.right
     simp [exprLvl])
  | (apply Prod.Lex.right
     simp [exprLvl]
     omega)
  | (apply Prod.Lex.left
     simp [szExpr, szExprs, szBranches, szExprOpt]
     omega)
  | (apply Prod.Lex.left
     simp [szExpr, szExprs, szBranches, szExprOpt])


theorem noCont_branches (bs : List (Expr × Expr)) (rest : List Tok)
    (hr : noCont contWhens rest) : noCont contOr (emitBranches bs ++ rest) := by
  cases bs with
  | nil =>
      simp only [emitBranches, List.nil_append]
      exact noCont_mono _ _ contOr_le_contWhens rest hr
  | cons b bs' =>
      obtain ⟨c, t⟩ := b
      show contOr (Tok.kw Kw.kwhen) = false
      decide

theorem roundWhens : ∀ (fuel : Nat) (bs : List (Expr × Expr)) (rest : List Tok),
    wfBranches bs = true → noCont contWhens rest →
    16 * (emitBranches bs).length + 15 ≤ fuel →
    parseWhens fuel (emitBranches bs ++ rest) = some (bs, rest)
  | 0, bs, rest, _, _, hf => absurd hf (by omega)
  | fuel + 1, [], rest, _, hr, _ => by
      have hunf : emitBranches ([] : List (Expr × Expr)) ++ rest = rest := by
        simp [emitBranches]
      rw [hunf, parseWhens_succ]
      cases rest with
      | nil => rfl
      | cons t ts' =>
          simp only [noCont] at hr
          split
          · rename_i heq
            injection heq with h1 h2
            rw [h1] at hr
            exact absurd hr (by decide)
          · rfl
  | fuel + 1, (c, t) :: bs, rest, hw, hr, hf => by
      have hw2 : (wfExpr c = true ∧ wfExpr t = true) ∧ wfBranches bs = true := by
        simpa [wfBranches, Bool.and_eq_true] using hw
      have hunf : emitBranches ((c, t) :: bs) ++ rest =
          Tok.kw Kw.kwhen ::
            (emitExpr c ++ (Tok.kw Kw.kthen ::
              (emitExpr t ++ (emitBranches bs ++ rest)))) := by
        simp [emitBranches, List.append_assoc]
      rw [hunf, parseWhens_succ]
      have hlen : (emitBranches ((c, t) :: bs)).length =
          (emitExpr c).length + (emitExpr t).length + (emitBranches bs).length + 2 := by
        simp [emitBranches]
        try omega
      rw [hlen] at hf
      have hOrC := roundOr fuel c
        (Tok.kw Kw.kthen :: (emitExpr t ++ (emitBranches bs ++ rest)))
        hw2.1.1 rfl (by omega)
      simp only [hOrC, Option.bind_some, Option.some_bind, Option.bind_eq_bind]
      have hOrT := roundOr fuel t (emitBranches bs ++ rest)
        hw2.1.2 (noCont_branches bs rest hr) (by omega)
      simp only [hOrT, Option.bind_some, Option.some_bind, Option.bind_eq_bind]
      have hBs := roundWhens fuel bs rest hw2.2 hr (by omega)
      simp only [hBs, Option.bind_some, Option.some_bind, Option.bind_eq_bind]
termination_by fuel bs rest _ _ _ => (szBranches bs, 0)
decreasing_by all_goals
  first
  | (apply Prod.Lex.right
     simp [exprLvl])
  | (apply Prod.Lex.right
     simp [exprLvl]
     omega)
  | (apply Prod.Lex.left
     simp [szExpr, szExprs, szBranches, szExprOpt]
     omega)
  | (apply Prod.Lex.left
     simp [szExpr, szExprs, szBranches, szExprOpt])


theorem roundArgs : ∀ (fuel : Nat) (a : Expr) (as_ : List Expr) (rest : List Tok),
    wfExprs (a :: as_) = true → noCont contArg rest →
    16 * (emitArgs (a :: as_)).length + 15 ≤ fuel →
    parseArgs fuel (emitArgs (a :: as_) ++ rest) = some (a :: as_, rest)
  | 0, a, as_, rest, _, _, hf => absurd hf (by omega)
  | fuel + 1, a, [], rest, hw, hr, hf => by
      have hwa : wfExpr a = true := by
        simpa [wfExprs, Bool.and_eq_true] using hw
      have hunf : emitArgs [a] ++ rest = emitExpr a ++ rest := by
        simp [emitArgs]
      rw [hunf, parseArgs_succ]
      have hOr := roundOr fuel a rest hwa
        (noCont_mono _ _ contOr_le_contArg rest hr)
        (by rw [show emitArgs [a] = emitExpr a from by simp [emitArgs]] at hf; omega)
      simp only [hOr, Option.bind_some, Option.some_bind, Option.bind_eq_bind]
      cases rest with
      | nil => rfl
      | cons t ts' =>
          simp only [noCont] at hr
          split
          · rename_i heq
            injection heq with h1 h2
            rw [h1] at hr
            exact absurd hr (by decide)
          · rfl
  | fuel + 1, a, b :: bs, rest, hw, hr, hf => by
      have hw2 : wfExpr a = true ∧ wfExprs (b :: bs) = true := by
        simpa [wfExprs, Bool.and_eq_true] using hw
      have hunf : emitArgs (a :: b :: bs) ++ rest =
          emitExpr a ++ (Tok.comma :: (emitArgs (b :: bs) ++ rest)) := by
        simp [emitArgs, List.append_assoc]
      rw [hunf, parseArgs_succ]
      have hlen : (emitArgs (a :: b :: bs)).length =
          (emitExpr a).length + (emitArgs (b :: bs)).length + 1 := by
        simp [emitArgs]
        try omega
      rw [hlen] at hf
      have hOr := roundOr fuel a (Tok.comma :: (emitArgs (b :: bs) ++ rest))
        hw2.1 rfl (by omega)
      simp only [hOr, Option.bind_some, Option.some_bind, Option.bind_eq_bind]
      have hArgs := roundArgs fuel b bs rest hw2.2 hr (by omega)
      simp only [hArgs, Option.bind_some, Option.some_bind, Option.bind_eq_bind]
termination_by fuel a as_ rest _ _ _ => (szExprs (a :: as_), 0)
decreasing_by all_goals
  first
  | (apply Prod.Lex.right
     simp [exprLvl])
  | (apply Prod.Lex.right
     simp [exprLvl]
     omega)
  | (apply Prod.Lex.left
     simp [szExpr, szExprs, szBranches, szExprOpt]
     omega)
  | (apply Prod.Lex.left
     simp [szExpr, szExprs, szBranches, szExprOpt])
end
